import Mathlib

/-!
# User-level fork with copy-on-write (lib/fork.c)

A shallow embedding of `lib/fork.c`: the fault handler `pgfault`, the page
duplicator `duppage`, the forker `fork`, and the sharing variant `sfork` with
its eager copier `duppage2`.

The functions of `lib/fork.c` are translated statement by statement.  What they
call but the file does not define is kept apart:

* the constants of `inc/mmu.h`, `inc/memlayout.h`, `inc/env.h`, `inc/trap.h`
  and `inc/lib.h` are the fields of `Layout` (a parameter of every definition);
  `jos` holds the values of the x86 JOS headers;
* the kernel primitives (`sys_page_alloc`, `sys_page_map`, ...), the read-only
  views `uvpt`/`uvpd`, `memmove` and `set_pgfault_handler` are modelled from
  section 6 of the specification over an explicit kernel state.

Every primitive appends the call and its return code to `State.log`, so the
order of calls made by a function can be read off the final state.
-/

namespace Jos

/-! ## Constants taken as parameters -/

/-- Constants used by `lib/fork.c` and defined in headers outside the source
tree.  Addresses and sizes are in bytes, flags are bit masks. -/
structure Layout where
  PGSIZE : Nat
  PTSIZE : Nat
  NPDENTRIES : Nat
  USTACKTOP : Nat
  UXSTACKTOP : Nat
  UTEMP : Nat
  PFTEMP : Nat
  PTE_P : Nat
  PTE_W : Nat
  PTE_U : Nat
  PTE_SHARE : Nat
  FEC_WR : Nat
  ENV_RUNNABLE : Nat
  ENV_NOT_RUNNABLE : Nat
  pgfault_upcall : Nat
  deriving DecidableEq, Repr

/-- The values of the JOS headers for 32-bit x86. -/
def jos : Layout where
  PGSIZE := 4096
  PTSIZE := 4096 * 1024
  NPDENTRIES := 1024
  USTACKTOP := 0xeebfe000
  UXSTACKTOP := 0xeec00000
  UTEMP := 0x400000
  PFTEMP := 0x7ff000
  PTE_P := 0x001
  PTE_W := 0x002
  PTE_U := 0x004
  PTE_SHARE := 0x400
  FEC_WR := 0x2
  ENV_RUNNABLE := 2
  ENV_NOT_RUNNABLE := 4
  pgfault_upcall := 0x800100

/-- The layout `jos` with the top of the user stack lowered to `0x802000`, so
that the page walk of `fork` visits 2050 pages and can be evaluated. -/
def small : Layout where
  PGSIZE := 4096
  PTSIZE := 4096 * 1024
  NPDENTRIES := 1024
  USTACKTOP := 0x802000
  UXSTACKTOP := 0x804000
  UTEMP := 0x400000
  PFTEMP := 0x7ff000
  PTE_P := 0x001
  PTE_W := 0x002
  PTE_U := 0x004
  PTE_SHARE := 0x400
  FEC_WR := 0x2
  ENV_RUNNABLE := 2
  ENV_NOT_RUNNABLE := 4
  pgfault_upcall := 0x800100

/-- `#define PTE_COW 0x800` (lib/fork.c, line 8). -/
def PTE_COW : Nat := 0x800

/-- What the proofs use of the constants: pages have a size, the fixed
addresses are page aligned and fit 32 bits, the exception stack lies above the
user stack, and the permission flags are non-zero, pairwise disjoint and fit
the 12 flag bits of a page-table entry. -/
def Layout.OK (L : Layout) : Prop :=
  0 < L.PGSIZE ∧ L.PGSIZE ∣ L.PFTEMP ∧ L.PGSIZE ∣ L.UTEMP ∧
  L.PGSIZE ∣ L.USTACKTOP ∧ L.PGSIZE ∣ L.UXSTACKTOP ∧
  L.PGSIZE ≤ L.USTACKTOP ∧ L.USTACKTOP + L.PGSIZE ≤ L.UXSTACKTOP ∧
  L.UXSTACKTOP ≤ 2 ^ 32 ∧
  L.PTE_P ≠ 0 ∧ L.PTE_W ≠ 0 ∧ L.PTE_U ≠ 0 ∧ L.PTE_SHARE ≠ 0 ∧
  L.PTE_P < 2 ^ 12 ∧ L.PTE_W < 2 ^ 12 ∧ L.PTE_U < 2 ^ 12 ∧ L.PTE_SHARE < 2 ^ 12 ∧
  L.PTE_P &&& L.PTE_W = 0 ∧ L.PTE_P &&& L.PTE_U = 0 ∧ L.PTE_W &&& L.PTE_U = 0 ∧
  L.PTE_P &&& PTE_COW = 0 ∧ L.PTE_W &&& PTE_COW = 0 ∧ L.PTE_U &&& PTE_COW = 0 ∧
  L.PTE_P &&& L.PTE_SHARE = 0 ∧ L.PTE_W &&& L.PTE_SHARE = 0 ∧
  L.PTE_U &&& L.PTE_SHARE = 0 ∧ L.PTE_SHARE &&& PTE_COW = 0 ∧
  L.ENV_RUNNABLE ≠ L.ENV_NOT_RUNNABLE

instance (L : Layout) : Decidable L.OK := by
  unfold Layout.OK; infer_instance

/-- `PGNUM(la)`: the page number of an address (`la >> PTXSHIFT`). -/
def PGNUM (L : Layout) (la : Nat) : Nat := la / L.PGSIZE

/-- `PDX(la)`: the page-directory index of an address
(`(la >> PDXSHIFT) & 0x3FF`). -/
def PDX (L : Layout) (la : Nat) : Nat := la / L.PTSIZE % L.NPDENTRIES

/-- `ROUNDDOWN(a, n)`: `a - a % n`. -/
def ROUNDDOWN (a n : Nat) : Nat := a - a % n

/-- Truncation to `uint16_t`. -/
def u16 (x : Nat) : Nat := x % 2 ^ 16

/-- Truncation to `uint32_t` / `uintptr_t` / `unsigned`. -/
def u32 (x : Nat) : Nat := x % 2 ^ 32

/-! ## Finite tables -/

/-- First value stored under key `k`. -/
def tget {κ α : Type} [DecidableEq κ] : List (κ × α) → κ → Option α
  | [], _ => none
  | (k', v) :: r, k => if k' = k then some v else tget r k

/-- Remove every entry stored under key `k`. -/
def tdel {κ α : Type} [DecidableEq κ] (t : List (κ × α)) (k : κ) : List (κ × α) :=
  t.filter (fun p => decide (p.1 ≠ k))

/-- Store `v` under key `k`, replacing what was there. -/
def tset {κ α : Type} [DecidableEq κ] (t : List (κ × α)) (k : κ) (v : α) :
    List (κ × α) :=
  (k, v) :: tdel t k

/-- Apply `f` to what is stored under key `k`. -/
def tmod {κ α : Type} [DecidableEq κ] (t : List (κ × α)) (k : κ) (f : α → α) :
    List (κ × α) :=
  t.map (fun p => if p.1 = k then (p.1, f p.2) else p)

/-! ## Kernel state -/

/-- One mapping of a virtual page: the physical frame and the permission
bits. -/
structure Mapping where
  frame : Nat
  perm : Nat
  deriving DecidableEq, Repr

/-- A process (environment): its status, its fault upcall (0 when none is
registered), the directory indices that are present, and its page table. -/
structure Env where
  status : Nat
  upcall : Nat
  pgdir : List Nat
  pgtbl : List (Nat × Mapping)
  deriving DecidableEq, Repr

/-- The calls a function of `lib/fork.c` makes, with their arguments and the
returned code; `duppage` records an invocation of the local function
`duppage`. -/
inductive Call where
  | set_pgfault_handler
  | exofork (r : Int)
  | getenvid (r : Int)
  | page_alloc (envid : Int) (va perm : Nat) (r : Int)
  | page_map (srcenv : Int) (srcva : Nat) (dstenv : Int) (dstva perm : Nat) (r : Int)
  | page_unmap (envid : Int) (va : Nat) (r : Int)
  | set_pgfault_upcall (envid : Int) (upcall : Nat) (r : Int)
  | set_status (envid : Int) (status : Nat) (r : Int)
  | duppage (envid : Int) (pn : Nat)
  deriving DecidableEq, Repr

/-- The machine as the library sees it: the processes by id, the id of the
running process, the library globals `thisenv` (as an id) and
`_pgfault_handler` (set or not), the number of physical frames and of process
slots, the bytes of every frame, and the calls made so far. -/
structure State where
  envs : List (Int × Env)
  cur : Int
  thisenv : Int
  handler : Bool
  nframes : Nat
  nenv : Nat
  mem : Nat → Nat → Nat
  log : List Call

/-- What a function of `lib/fork.c` does: return a value, abort in `panic`,
or (for the fuelled page walks) run out of fuel. -/
inductive Result (α : Type) where
  | ok (v : α) (s : State)
  | panic (s : State)
  | timeout

/-- Generic negative error codes of the primitives. -/
def E_BAD_ENV : Int := 2
/-- Error code for an invalid argument. -/
def E_INVAL : Int := 3
/-- Error code for exhausted memory. -/
def E_NO_MEM : Int := 4
/-- Error code for exhausted process slots. -/
def E_NO_FREE_ENV : Int := 5

/-- Resolve a process id as the primitives do: 0 names the caller. -/
def State.resolve (s : State) (envid : Int) : Int :=
  if envid = 0 then s.cur else envid

/-- The process with the given (resolved) id, if it exists. -/
def State.env (s : State) (id : Int) : Option Env := tget s.envs id

/-- The mapping of page `pn` in process `id`. -/
def State.mapping (s : State) (id : Int) (pn : Nat) : Option Mapping :=
  match s.env id with
  | some e => tget e.pgtbl pn
  | none => none

/-- Append a call to the log. -/
def State.record (s : State) (c : Call) : State :=
  { s with log := s.log ++ [c] }

/-- Install mapping `m` for the page of address `va` in process `id`; the
directory entry covering `va` becomes present. -/
def State.install (L : Layout) (s : State) (id : Int) (va : Nat) (m : Mapping) : State :=
  { s with envs := tmod s.envs id (fun e =>
      { e with
        pgdir := if PDX L va ∈ e.pgdir then e.pgdir else PDX L va :: e.pgdir
        pgtbl := tset e.pgtbl (PGNUM L va) m }) }

/-- Remove the mapping of the page of address `va` in process `id`. -/
def State.remove (L : Layout) (s : State) (id : Int) (va : Nat) : State :=
  { s with envs := tmod s.envs id (fun e =>
      { e with pgtbl := tdel e.pgtbl (PGNUM L va) }) }

/-- Set the status of process `id`. -/
def State.setStatus (s : State) (id : Int) (status : Nat) : State :=
  { s with envs := tmod s.envs id (fun e => { e with status := status }) }

/-- Set the fault upcall of process `id`. -/
def State.setUpcall (s : State) (id : Int) (func : Nat) : State :=
  { s with envs := tmod s.envs id (fun e => { e with upcall := func }) }

/-- Add process `e` under the unused id `id`. -/
def State.spawn (s : State) (id : Int) (e : Env) : State :=
  { s with envs := s.envs ++ [(id, e)] }

/-- Frame `f` backs an entry of some page table. -/
def State.frameInUse (s : State) (f : Nat) : Bool :=
  s.envs.any (fun e => e.2.pgtbl.any (fun p => decide (p.2.frame = f)))

/-- A frame no page table references: the least one. -/
def State.freshFrame (s : State) : Option Nat :=
  (List.range s.nframes).find? (fun f => !s.frameInUse f)

/-- A process id that is neither the caller's nor in use: the least positive
one. -/
def State.freshEnv (s : State) : Option Nat :=
  (List.range s.nenv).find? (fun i =>
    decide (((i : Int) + 1) ≠ s.cur) && (tget s.envs ((i : Int) + 1)).isNone)

/-! ## Primitives, modelled from the specification -/

/-- Modelled from the spec: the address-space introspection view `uvpt` of
section 6, "a read-only, per-process view indexable by page number ...
reporting current permission bits and presence".  The entry of an unmapped
page is 0. -/
def uvpt (s : State) (pn : Nat) : Nat :=
  match s.mapping s.cur pn with
  | some m => m.perm
  | none => 0

/-- Modelled from the spec: the view `uvpd` of section 6, indexable "by
directory index", reporting presence of the directory entry. -/
def uvpd (L : Layout) (s : State) (i : Nat) : Nat :=
  match s.env s.cur with
  | some e => if i ∈ e.pgdir then L.PTE_P else 0
  | none => 0

/-- What the allocate-and-map primitive accepts as a permission set: Present
and User are both included. -/
def permValid (L : Layout) (perm : Nat) : Bool :=
  decide (perm &&& L.PTE_P ≠ 0) && decide (perm &&& L.PTE_U ≠ 0)

/-- Modelled from the spec: Allocate-and-map, "given a target process, a
virtual address, and a permission set, reserves a fresh physical frame and maps
it; fails if out of memory or permission set invalid". -/
def sys_page_alloc (L : Layout) (s : State) (envid : Int) (va perm : Nat) : Int × State :=
  let id := s.resolve envid
  match s.env id with
  | none => (-E_BAD_ENV, s.record (.page_alloc envid va perm (-E_BAD_ENV)))
  | some _ =>
    if permValid L perm then
      match s.freshFrame with
      | none => (-E_NO_MEM, s.record (.page_alloc envid va perm (-E_NO_MEM)))
      | some f => (0, (s.install L id va ⟨f, perm⟩).record (.page_alloc envid va perm 0))
    else (-E_INVAL, s.record (.page_alloc envid va perm (-E_INVAL)))

/-- Modelled from the spec: Map-existing, "given a source process+address and a
target process+address plus a permission set, aliases the same physical frame
into the target; fails if the source page is unmapped or the target process
does not exist". -/
def sys_page_map (L : Layout) (s : State) (srcenv : Int) (srcva : Nat) (dstenv : Int)
    (dstva perm : Nat) : Int × State :=
  let src := s.resolve srcenv
  let dst := s.resolve dstenv
  match s.env dst with
  | none => (-E_BAD_ENV, s.record (.page_map srcenv srcva dstenv dstva perm (-E_BAD_ENV)))
  | some _ =>
    match s.mapping src (PGNUM L srcva) with
    | none => (-E_INVAL, s.record (.page_map srcenv srcva dstenv dstva perm (-E_INVAL)))
    | some m =>
      (0, (s.install L dst dstva ⟨m.frame, perm⟩).record
            (.page_map srcenv srcva dstenv dstva perm 0))

/-- Modelled from the spec: Unmap, "removes a mapping at a given
process+address; no-op-safe if already unmapped". -/
def sys_page_unmap (L : Layout) (s : State) (envid : Int) (va : Nat) : Int × State :=
  let id := s.resolve envid
  match s.env id with
  | none => (-E_BAD_ENV, s.record (.page_unmap envid va (-E_BAD_ENV)))
  | some _ => (0, (s.remove L id va).record (.page_unmap envid va 0))

/-- Modelled from the spec: Create-child, seen from the parent: "creates a new,
initially non-runnable process"; the result is the child's id.  The child's
continuation, where the same call yields the sentinel 0, is `forkAfter 0` in
the child's state. -/
def sys_exofork (L : Layout) (s : State) : Int × State :=
  match s.freshEnv with
  | none => (-E_NO_FREE_ENV, s.record (.exofork (-E_NO_FREE_ENV)))
  | some i =>
    let id : Int := (i : Int) + 1
    (id, (s.spawn id ⟨L.ENV_NOT_RUNNABLE, 0, [], []⟩).record (.exofork id))

/-- Modelled from the spec: Set-status, "transitions a process to runnable (or
other states); fails if the process id is invalid". -/
def sys_env_set_status (s : State) (envid : Int) (status : Nat) : Int × State :=
  let id := s.resolve envid
  match s.env id with
  | none => (-E_BAD_ENV, s.record (.set_status envid status (-E_BAD_ENV)))
  | some _ =>
    (0, (s.setStatus id status).record (.set_status envid status 0))

/-- Modelled from the spec: Register-fault-upcall, "installs the low-level
trampoline address the kernel invokes on page fault for a given process". -/
def sys_env_set_pgfault_upcall (s : State) (envid : Int) (func : Nat) : Int × State :=
  let id := s.resolve envid
  match s.env id with
  | none => (-E_BAD_ENV, s.record (.set_pgfault_upcall envid func (-E_BAD_ENV)))
  | some _ =>
    (0, (s.setUpcall id func).record (.set_pgfault_upcall envid func 0))

/-- Modelled from the spec: Self-id query, "returns the calling process's own
id". -/
def sys_getenvid (s : State) : Int × State :=
  (s.cur, s.record (.getenvid s.cur))

/-- Modelled from the spec: step 1 of the forker, "Register PageFaultHandler as
this process's fault upcall (idempotent; persists for process lifetime)": the
library global `_pgfault_handler` is set. -/
def set_pgfault_handler (s : State) : State :=
  { s with handler := true }.record .set_pgfault_handler

/-- Physical location (frame, offset) of a virtual address of the running
process. -/
def translate (L : Layout) (s : State) (va : Nat) : Option (Nat × Nat) :=
  match s.mapping s.cur (PGNUM L va) with
  | some m => some (m.frame, va % L.PGSIZE)
  | none => none

/-- Write one byte of physical memory. -/
def State.store (s : State) (f off b : Nat) : State :=
  { s with mem := fun f' o' => if f' = f ∧ o' = off then b else s.mem f' o' }

/-- Modelled from the spec: the copy step, "Copy the full page contents from
the old (shared) mapping into the scratch mapping": `memmove(dst, src, n)`
copies `n` bytes between virtual addresses of the running process, every byte
read from the memory as it was before the call.  A byte whose source or
destination is unmapped is skipped. -/
def memmove (L : Layout) (s : State) (dst src n : Nat) : State :=
  (List.range n).foldl (fun acc i =>
    match translate L s (dst + i), translate L s (src + i) with
    | some (fd, od), some (fs, os) => acc.store fd od (s.mem fs os)
    | _, _ => acc) s

/-! ## lib/fork.c -/

/-- `pgfault(utf)`, lines 14-47; `addr` is `utf->utf_fault_va` and `err` is
`utf->utf_err`. -/
def pgfault (L : Layout) (s : State) (addr err : Nat) : Result Unit :=
  if err &&& L.FEC_WR = 0 ∨ uvpt s (PGNUM L addr) &&& PTE_COW = 0 then
    .panic s
  else
    match sys_page_alloc L s 0 L.PFTEMP (L.PTE_U ||| L.PTE_W ||| L.PTE_P) with
    | (r1, s1) =>
      if r1 ≠ 0 then .panic s1
      else
        let s2 := memmove L s1 L.PFTEMP (ROUNDDOWN addr L.PGSIZE) L.PGSIZE
        match sys_page_map L s2 0 L.PFTEMP 0 (ROUNDDOWN addr L.PGSIZE)
            (L.PTE_U ||| L.PTE_W ||| L.PTE_P) with
        | (r2, s3) =>
          if r2 ≠ 0 then .panic s3
          else
            match sys_page_unmap L s3 0 L.PFTEMP with
            | (r3, s4) => if r3 ≠ 0 then .panic s4 else .ok () s4

/-- The permission `duppage` passes, lines 66-70. -/
def duppagePerm (L : Layout) (pte : Nat) : Nat :=
  let perm := u16 (L.PTE_U ||| L.PTE_P)
  if pte &&& L.PTE_W ≠ 0 ∨ pte &&& PTE_COW ≠ 0 then u16 (perm ||| PTE_COW) else perm

/-- `duppage(envid, pn)`, lines 60-82. -/
def duppage (L : Layout) (s : State) (envid : Int) (pn : Nat) : Result Int :=
  let s := s.record (.duppage envid pn)
  let perm := duppagePerm L (uvpt s pn)
  match sys_page_map L s 0 (u32 (pn * L.PGSIZE)) envid (u32 (pn * L.PGSIZE)) perm with
  | (r, s1) =>
    if r ≠ 0 then .panic s1
    else
      if perm &&& PTE_COW ≠ 0 then
        match sys_page_map L s1 0 (u32 (pn * L.PGSIZE)) 0 (u32 (pn * L.PGSIZE)) perm with
        | (r, s2) => if r ≠ 0 then .panic s2 else .ok 0 s2
      else .ok 0 s1

/-- The page walk of `fork`, lines 122-125, from address `addr` on. -/
def forkLoop (L : Layout) (envid : Int) : Nat → Nat → State → Result Unit
  | 0, _, _ => .timeout
  | fuel + 1, addr, s =>
    if addr < L.USTACKTOP then
      if uvpd L s (PDX L addr) &&& L.PTE_P ≠ 0 ∧ uvpt s (PGNUM L addr) &&& L.PTE_P ≠ 0 then
        match duppage L s envid (PGNUM L addr) with
        | .ok _ s1 => forkLoop L envid fuel (u32 (addr + L.PGSIZE)) s1
        | .panic s1 => .panic s1
        | .timeout => .timeout
      else forkLoop L envid fuel (u32 (addr + L.PGSIZE)) s
    else .ok () s

/-- `fork()` from line 113 on, with `envid` the value `sys_exofork()`
returned: the parent's continuation for a child id, the child's for 0. -/
def forkAfter (L : Layout) (envid : Int) (s : State) : Result Int :=
  if envid < 0 then .panic s
  else if envid = 0 then
    match sys_getenvid s with
    | (id, s1) => .ok 0 { s1 with thisenv := id }
  else
    match forkLoop L envid (L.USTACKTOP + 1) 0 s with
    | .timeout => .timeout
    | .panic s1 => .panic s1
    | .ok _ s1 =>
      match sys_page_alloc L s1 envid (L.UXSTACKTOP - L.PGSIZE)
          (L.PTE_U ||| L.PTE_W ||| L.PTE_P) with
      | (r, s2) =>
        if r ≠ 0 then .panic s2
        else
          match sys_env_set_pgfault_upcall s2 envid L.pgfault_upcall with
          | (r, s3) =>
            if r ≠ 0 then .panic s3
            else
              match sys_env_set_status s3 envid L.ENV_RUNNABLE with
              | (r, s4) => if r ≠ 0 then .panic s4 else .ok envid s4

/-- `fork()`, lines 100-136, as run by the parent. -/
def fork (L : Layout) (s : State) : Result Int :=
  match sys_exofork L (set_pgfault_handler s) with
  | (envid, s1) => forkAfter L envid s1

/-- `duppage2(dstenv, addr)`, lines 139-152. -/
def duppage2 (L : Layout) (s : State) (dstenv : Int) (addr : Nat) : Result Unit :=
  match sys_page_alloc L s dstenv addr (L.PTE_P ||| L.PTE_U ||| L.PTE_W) with
  | (r1, s1) =>
    if r1 < 0 then .panic s1
    else
      match sys_page_map L s1 dstenv addr 0 L.UTEMP (L.PTE_P ||| L.PTE_U ||| L.PTE_W) with
      | (r2, s2) =>
        if r2 < 0 then .panic s2
        else
          let s3 := memmove L s2 L.UTEMP addr L.PGSIZE
          match sys_page_unmap L s3 0 L.UTEMP with
          | (r3, s4) => if r3 < 0 then .panic s4 else .ok () s4

/-- The page walk of `sfork`, lines 173-186, from address `addr` on; `perm` is
the local variable declared at line 159, which lives across iterations. -/
def sforkLoop (L : Layout) (envid : Int) : Nat → Nat → Nat → State → Result Nat
  | 0, _, _, _ => .timeout
  | fuel + 1, addr, perm, s =>
    if addr < L.USTACKTOP - L.PGSIZE then
      if uvpd L s (PDX L addr) &&& L.PTE_P ≠ 0 ∧ uvpt s (PGNUM L addr) &&& L.PTE_P ≠ 0 then
        let perm := if uvpt s (PGNUM L addr) &&& L.PTE_W ≠ 0 then u16 (perm ||| L.PTE_W) else perm
        match sys_page_map L s 0 addr envid addr perm with
        | (r, s1) =>
          if r ≠ 0 then .panic s1
          else
            if uvpt s1 (PGNUM L addr) &&& L.PTE_SHARE = 0 then
              match sys_page_map L s1 0 addr 0 addr perm with
              | (r, s2) =>
                if r ≠ 0 then .panic s2
                else sforkLoop L envid fuel (u32 (addr + L.PGSIZE)) perm s2
            else sforkLoop L envid fuel (u32 (addr + L.PGSIZE)) perm s1
      else sforkLoop L envid fuel (u32 (addr + L.PGSIZE)) perm s
    else .ok perm s

/-- `sfork()` from line 164 on, with `envid` the value `sys_exofork()`
returned. -/
def sforkAfter (L : Layout) (envid : Int) (s : State) : Result Int :=
  if envid < 0 then .panic s
  else if envid = 0 then
    match sys_getenvid s with
    | (id, s1) => .ok 0 { s1 with thisenv := id }
  else
    match sforkLoop L envid (L.USTACKTOP + 1) 0 (u16 (L.PTE_SHARE ||| L.PTE_U ||| L.PTE_P)) s with
    | .timeout => .timeout
    | .panic s1 => .panic s1
    | .ok _ s1 =>
      match duppage2 L s1 envid (L.USTACKTOP - L.PGSIZE) with
      | .timeout => .timeout
      | .panic s2 => .panic s2
      | .ok _ s2 =>
        match sys_env_set_status s2 envid L.ENV_RUNNABLE with
        | (r, s3) => if r ≠ 0 then .panic s3 else .ok envid s3

/-- `sfork()`, lines 154-194, as run by the parent. -/
def sfork (L : Layout) (s : State) : Result Int :=
  match sys_exofork L s with
  | (envid, s1) => sforkAfter L envid s1

/-! ## Observations -/

/-- The status of process `id`. -/
def State.status (s : State) (id : Int) : Option Nat := (s.env id).map (fun e => e.status)

/-- The fault upcall of process `id`. -/
def State.upcall (s : State) (id : Int) : Option Nat := (s.env id).map (fun e => e.upcall)

/-- The return code recorded with a call (0 for the library-level entries). -/
def Call.ret : Call → Int
  | .set_pgfault_handler => 0
  | .exofork r => r
  | .getenvid r => r
  | .page_alloc _ _ _ r => r
  | .page_map _ _ _ _ _ r => r
  | .page_unmap _ _ r => r
  | .set_pgfault_upcall _ _ r => r
  | .set_status _ _ r => r
  | .duppage _ _ => 0

/-- The call is a set-status call. -/
def Call.isSetStatus : Call → Bool
  | .set_status _ _ _ => true
  | _ => false

/-- The call is a page-mapping call. -/
def Call.isPageMap : Call → Bool
  | .page_map _ _ _ _ _ _ => true
  | _ => false

/-- The call is an invocation of `duppage`. -/
def Call.isDuppage : Call → Bool
  | .duppage _ _ => true
  | _ => false

/-- Page `pn` of the running process is present at both levels, the test of
line 123 for the address `pn * PGSIZE`. -/
def present (L : Layout) (s : State) (pn : Nat) : Prop :=
  uvpd L s (PDX L (pn * L.PGSIZE)) &&& L.PTE_P ≠ 0 ∧ uvpt s pn &&& L.PTE_P ≠ 0

instance (L : Layout) (s : State) (pn : Nat) : Decidable (present L s pn) := by
  unfold present; infer_instance

/-- The page numbers `duppage` was invoked on, in order, with their target. -/
def dupCalls : List Call → List (Int × Nat)
  | [] => []
  | .duppage envid pn :: r => (envid, pn) :: dupCalls r
  | _ :: r => dupCalls r

/-- The state a result ends in; `s` when there is none. -/
def Result.final {α : Type} (r : Result α) (s : State) : State :=
  match r with
  | .ok _ s1 => s1
  | .panic s1 => s1
  | .timeout => s

/-- The state `pgfault` ends in when its three calls succeed and the frame
reserved for the scratch slot is `f`. -/
def pgfaultDone (L : Layout) (s : State) (addr f : Nat) : State :=
  let perm := L.PTE_U ||| L.PTE_W ||| L.PTE_P
  let va := ROUNDDOWN addr L.PGSIZE
  let s1 := (s.install L s.cur L.PFTEMP ⟨f, perm⟩).record (.page_alloc 0 L.PFTEMP perm 0)
  let s2 := memmove L s1 L.PFTEMP va L.PGSIZE
  let s3 := (s2.install L s.cur va ⟨f, perm⟩).record (.page_map 0 L.PFTEMP 0 va perm 0)
  (s3.remove L s.cur L.PFTEMP).record (.page_unmap 0 L.PFTEMP 0)

/-- The state of `fork` just before its set-status call, when the page walk
ended in `s1` and the allocation (on frame `f`) and the upcall registration
succeeded. -/
def forkReady (L : Layout) (s1 : State) (envid : Int) (f : Nat) : State :=
  let perm := L.PTE_U ||| L.PTE_W ||| L.PTE_P
  let va := L.UXSTACKTOP - L.PGSIZE
  let s2 := (s1.install L envid va ⟨f, perm⟩).record (.page_alloc envid va perm 0)
  (s2.setUpcall envid L.pgfault_upcall).record
    (.set_pgfault_upcall envid L.pgfault_upcall 0)

/-- The state `fork` returns in: `forkReady` followed by the successful
set-status call. -/
def forkDone (L : Layout) (s1 : State) (envid : Int) (f : Nat) : State :=
  ((forkReady L s1 envid f).setStatus envid L.ENV_RUNNABLE).record
    (.set_status envid L.ENV_RUNNABLE 0)

/-- The page numbers below `USTACKTOP` that are present at both levels in `s`,
in ascending order, paired with the target `envid`. -/
def presentPages (L : Layout) (s : State) (envid : Int) : List (Int × Nat) :=
  ((List.range' 0 (L.USTACKTOP / L.PGSIZE)).filter (fun pn => decide (present L s pn))).map
    (fun pn => (envid, pn))

/-! ## Sample states -/

/-- A parent (id 1) with three pages: page 1 writable on frame 7, page 2
read-only on frame 8, page 3 copy-on-write on frame 9; a second process
(id 2) without pages. -/
def demo : State where
  envs := [(1, ⟨2, 0, [0], [(1, ⟨7, 7⟩), (2, ⟨8, 5⟩), (3, ⟨9, 0x805⟩)]⟩), (2, ⟨4, 0, [], []⟩)]
  cur := 1
  thisenv := 1
  handler := false
  nframes := 16
  nenv := 8
  mem := fun f o => f * 4096 + o
  log := []

/-- A process (id 1) whose page at the scratch address `PFTEMP` (page `0x7ff`)
is mapped copy-on-write on frame 7. -/
def scratchCow : State where
  envs := [(1, ⟨2, 0, [1], [(0x7ff, ⟨7, 0x805⟩)]⟩)]
  cur := 1
  thisenv := 1
  handler := true
  nframes := 16
  nenv := 8
  mem := fun f o => f * 4096 + o
  log := []

/-- A process (id 1) with a read-only page 1 carrying the Shared tag on frame
7, and a second process (id 2) without pages. -/
def shareRo : State where
  envs := [(1, ⟨2, 0, [0], [(1, ⟨7, 0x405⟩)]⟩), (2, ⟨4, 0, [], []⟩)]
  cur := 1
  thisenv := 1
  handler := false
  nframes := 16
  nenv := 8
  mem := fun f o => f * 4096 + o
  log := []

/-- The sample state `demo` on a machine without physical frames: every
allocation fails. -/
def starved : State := { demo with nframes := 0 }

/-! ## kern/monitor.c -/

/-- The terminator of a C string. -/
def NUL : Char := Char.ofNat 0

/-- `WHITESPACE` of kern/monitor.c: tab, carriage return, newline, space. -/
def WHITESPACE : List Char := [Char.ofNat 9, Char.ofNat 13, Char.ofNat 10, Char.ofNat 32]

/-- `MAXARGS` of kern/monitor.c. -/
def MAXARGS : Nat := 16

/-- `strchr(s, c) != NULL`: the terminator of `s` counts as found, which is why
the callers test `*buf` first. -/
def strchr (s : List Char) (c : Char) : Bool := decide (c = NUL) || decide (c ∈ s)

/-- The names of `commands[]`, in the order of the table. -/
def commands : List (List Char) :=
  ["help".toList, "kerninfo".toList, "backtrace".toList, "showmapping".toList]

/-- What `runcmd` does with a line.  A buffer is the list of its characters; the
end of the list reads as the terminator. -/
inductive Outcome where
  | tooMany
  | nothing
  | invoke (i : Nat) (argv : List (List Char))
  | unknownCommand (name : List Char)
  | timeout
  deriving DecidableEq, Repr

/-- The inner loop `while (*buf && strchr(WHITESPACE, *buf)) *buf++ = 0;`. -/
def gobble : List Char → List Char
  | [] => []
  | c :: r => if c ≠ NUL ∧ strchr WHITESPACE c = true then gobble r else c :: r

/-- The inner loop `while (*buf && !strchr(WHITESPACE, *buf)) buf++;`: the
characters passed over (the argument that `argv[argc]` points to once the
separator behind it is overwritten) and the rest of the buffer. -/
def scanArg : List Char → List Char × List Char
  | [] => ([], [])
  | c :: r =>
    if c ≠ NUL ∧ strchr WHITESPACE c = false then ((c :: (scanArg r).1), (scanArg r).2)
    else ([], c :: r)

/-- The lookup loop of `runcmd`, entered with `argc = argv.length`. -/
def invokeCommand (argv : List (List Char)) : Outcome :=
  match argv with
  | [] => .nothing
  | name :: _ =>
    if commands.indexOf name < commands.length then .invoke (commands.indexOf name) argv
    else .unknownCommand name

/-- The parsing loop `while (1)` of `runcmd`; `argv` holds the arguments saved
so far, so `argc = argv.length`. -/
def runcmdLoop : Nat → List Char → List (List Char) → Outcome
  | 0, _, _ => .timeout
  | fuel + 1, buf, argv =>
    match gobble buf with
    | [] => invokeCommand argv
    | c :: r =>
      if c = NUL then invokeCommand argv
      else if argv.length = MAXARGS - 1 then .tooMany
      else runcmdLoop fuel (scanArg (c :: r)).2 (argv ++ [(scanArg (c :: r)).1])

/-- `runcmd(buf, tf)`. -/
def runcmd (buf : List Char) : Outcome := runcmdLoop (buf.length + 1) buf []

/-- The value of `coefficient` that `mon_showmapping` derives from one
character. -/
def coefficient (c : Char) : Nat :=
  if '0'.toNat ≤ c.toNat ∧ c.toNat ≤ '9'.toNat then c.toNat - '0'.toNat
  else if 'a'.toNat ≤ c.toNat ∧ c.toNat ≤ 'f'.toNat then c.toNat - 'a'.toNat + 10
  else if 'A'.toNat ≤ c.toNat ∧ c.toNat ≤ 'F'.toNat then c.toNat - 'A'.toNat + 10
  else 0

/-- The 32-bit `temp_sum` after the loop `for (j = 0; j < i; ++j) temp_sum *= 16;`. -/
def temp_sum : Nat → Nat
  | 0 => 1
  | i + 1 => u32 (temp_sum i * 16)

/-- The address `va` that `mon_showmapping` computes from one argument: the
loop `for (i = 0; i < bits - 2; ++i)` with `bits` the length of the argument. -/
def showmappingVa (arg : List Char) : Nat :=
  (List.range (arg.length - 2)).foldl
    (fun va i => u32 (va + u32 (temp_sum i * coefficient (arg.getD (arg.length - i - 1) NUL)))) 0

/-- The page address `page_va = ROUNDDOWN(va, PGSIZE)` of `mon_showmapping`. -/
def showmappingPage (L : Layout) (arg : List Char) : Nat :=
  ROUNDDOWN (showmappingVa arg) L.PGSIZE

/-- A line of sixteen arguments. -/
def sixteenArgs : List Char := "help 1 2 3 4 5 6 7 8 9 a b c d e f".toList

/-- A line of fifteen arguments. -/
def fifteenArgs : List Char := "help 1 2 3 4 5 6 7 8 9 a b c d e".toList

/-! ## Further observations -/

/-- The permission sets the page walk of `sfork` can hold in `perm`: Shared,
User and Present, with or without Writable. -/
def sharePerm (L : Layout) (q : Nat) : Prop :=
  q = L.PTE_SHARE ||| L.PTE_U ||| L.PTE_P ∨ q = L.PTE_SHARE ||| L.PTE_U ||| L.PTE_P ||| L.PTE_W

/-- The state `duppage2` ends in when its three calls succeed and the frame
reserved in the target (process `dst`) is `f`. -/
def duppage2Done (L : Layout) (s : State) (dstenv : Int) (addr f : Nat) : State :=
  let perm := L.PTE_P ||| L.PTE_U ||| L.PTE_W
  let s1 := (s.install L (s.resolve dstenv) addr ⟨f, perm⟩).record (.page_alloc dstenv addr perm 0)
  let s2 := (s1.install L s.cur L.UTEMP ⟨f, perm⟩).record (.page_map dstenv addr 0 L.UTEMP perm 0)
  let s3 := memmove L s2 L.UTEMP addr L.PGSIZE
  (s3.remove L s.cur L.UTEMP).record (.page_unmap 0 L.UTEMP 0)

/-- The state `sfork` returns in when the page walk ended in `s1` and
`duppage2` (on frame `f`) and the set-status call succeeded. -/
def sforkDone (L : Layout) (s1 : State) (envid : Int) (f : Nat) : State :=
  ((duppage2Done L s1 envid (L.USTACKTOP - L.PGSIZE) f).setStatus envid L.ENV_RUNNABLE).record
    (.set_status envid L.ENV_RUNNABLE 0)

/-- The state with process `id` running: what the scheduler does between the
runs of two processes. -/
def State.switchTo (s : State) (id : Int) : State := { s with cur := id }

/-- The directory entry `i` of process `id` is present. -/
def State.dirHas (s : State) (id : Int) (i : Nat) : Bool :=
  match s.env id with
  | some e => decide (i ∈ e.pgdir)
  | none => false

/-- No mapping of any process is Writable and COW at once. -/
def NoWCow (L : Layout) (s : State) : Prop :=
  ∀ id pn m, s.mapping id pn = some m → m.perm &&& L.PTE_W = 0 ∨ m.perm &&& PTE_COW = 0

/-- The permission set a call passes to the allocate-and-map or the
map-existing primitive; 0 for the other calls. -/
def Call.permOf : Call → Nat
  | .page_alloc _ _ perm _ => perm
  | .page_map _ _ _ _ perm _ => perm
  | _ => 0

/-- The permission set the call passes omits Writable or omits COW. -/
def Call.permFine (L : Layout) (c : Call) : Prop :=
  c.permOf &&& L.PTE_W = 0 ∨ c.permOf &&& PTE_COW = 0

/-- The call is a map-existing call that passes Writable. -/
def Call.mapsWritable (L : Layout) (c : Call) : Bool :=
  c.isPageMap && decide (c.permOf &&& L.PTE_W ≠ 0)

/-- Every mapping of `s2` is a mapping of `s1` or has a permission set that
omits Writable or COW. -/
def MapsFrom (L : Layout) (s1 s2 : State) : Prop :=
  ∀ id pn m, s2.mapping id pn = some m →
    s1.mapping id pn = some m ∨ (m.perm &&& L.PTE_W = 0 ∨ m.perm &&& PTE_COW = 0)

/-- State `s2` is reached from `s1` by calls that all satisfy `Q` and install
only permission sets that omit Writable or COW. -/
def Ext (L : Layout) (Q : Call → Prop) (s1 s2 : State) : Prop :=
  MapsFrom L s1 s2 ∧ ∃ new, s2.log = s1.log ++ new ∧ ∀ c ∈ new, Q c

/-- The layout `jos` with the top of the user stack lowered to `0x6000`, so
that the page walks of `fork` and `sfork` visit six and five pages. -/
def tiny : Layout :=
  { jos with USTACKTOP := 0x6000, UXSTACKTOP := 0x8000 }

/-! ## Further sample states -/

/-- A parent (id 1) with the three pages of `demo` (page 1 writable on frame 7,
page 2 read-only on frame 8, page 3 copy-on-write on frame 9) and, for the
layout `tiny`, its top stack page 5 (frame 10, writable); a second process
(id 2) without pages. -/
def demoStack : State :=
  { demo with envs := [(1, ⟨2, 0, [0], [(1, ⟨7, 7⟩), (2, ⟨8, 5⟩), (3, ⟨9, 0x805⟩), (5, ⟨10, 7⟩)]⟩),
                       (2, ⟨4, 0, [], []⟩)] }

/-- The state `demoStack` without the pages 1 and 3 of the parent: its
read-only page 2 (entry `0x005` on frame 8) and its top stack page. -/
def demoRoStack : State :=
  { demo with envs := [(1, ⟨2, 0, [0], [(2, ⟨8, 5⟩), (5, ⟨10, 7⟩)]⟩), (2, ⟨4, 0, [], []⟩)] }

/-- For the layout `tiny`: a parent (id 1) that has forked the child 2 and has
since written only to its stack.  Page 1 is still copy-on-write in both, on
frame 7; the parent's top stack page 5 is private and writable again (frame
11), the child's still copy-on-write on frame 9; each has its exception stack
at page 7. -/
def freshlyForked : State :=
  { demo with
    envs := [(1, ⟨2, 0x800100, [0], [(1, ⟨7, 0x805⟩), (5, ⟨11, 7⟩), (7, ⟨12, 7⟩)]⟩),
             (2, ⟨2, 0x800100, [0], [(1, ⟨7, 0x805⟩), (5, ⟨9, 0x805⟩), (7, ⟨13, 7⟩)]⟩)]
    handler := true }

/-- For the layout `tiny`: a parent (id 1) that has forked the child 2 and has
since written to its page 1 and to its stack.  Page 1 of the parent is private
and writable again (frame 10), page 2 is still copy-on-write in both, on frame
8; the stacks and exception stacks are as in `freshlyForked`. -/
def forkedParent : State :=
  { demo with
    envs := [(1, ⟨2, 0x800100, [0],
                [(1, ⟨10, 7⟩), (2, ⟨8, 0x805⟩), (5, ⟨11, 7⟩), (7, ⟨12, 7⟩)]⟩),
             (2, ⟨2, 0x800100, [0],
                [(1, ⟨7, 0x805⟩), (2, ⟨8, 0x805⟩), (5, ⟨9, 0x805⟩), (7, ⟨13, 7⟩)]⟩)]
    handler := true }

/-- A parent (id 1) with a writable page 1 (frame 7) and, for the layout
`tiny`, its top stack page 5 (frame 9, writable); a second process (id 2)
without pages. -/
def withStack : State :=
  { demo with envs := [(1, ⟨2, 0, [0], [(1, ⟨7, 7⟩), (5, ⟨9, 7⟩)]⟩), (2, ⟨4, 0, [], []⟩)] }

/-- A process A (id 1) with a writable page at the scratch address `PFTEMP`
(page `0x7ff`, frame 7) and, for the layout `small`, its exception stack page
`0x803` (frame 8, writable). -/
def threeGen : State :=
  { demo with envs := [(1, ⟨2, 0, [1, 2], [(0x7ff, ⟨7, 7⟩), (0x803, ⟨8, 7⟩)]⟩)] }

/-- After A of `threeGen` has forked B (id 2), with B running. -/
def threeGenB : State := ((fork small threeGen).final threeGen).switchTo 2

/-- After B of `threeGenB` has forked C (id 3); B is still running. -/
def threeGenC : State := (fork small threeGenB).final threeGenB

/-- After B has taken a write fault in `threeGenC` at the address `PFTEMP`. -/
def threeGenFault : State := (pgfault small threeGenC 0x7ff000 2).final threeGenC

/-! ## The constants of the JOS headers satisfy what the proofs use -/

theorem jos_layout_ok : jos.OK := by decide

theorem small_layout_ok : small.OK := by decide

/-! ## Facts about tables -/

theorem tget_tdel {κ α : Type} [DecidableEq κ] (t : List (κ × α)) (k k' : κ) :
    tget (tdel t k) k' = if k' = k then none else tget t k' := by
  induction t with
  | nil => simp [tdel, tget]
  | cons p r ih =>
    obtain ⟨a, v⟩ := p
    unfold tdel at ih ⊢
    by_cases ha : a = k
    · subst ha
      by_cases hk : k' = a
      · subst hk; simpa [List.filter, tget] using ih
      · have hk2 : ¬ a = k' := fun h => hk h.symm
        simpa [List.filter, tget, hk2, hk] using ih
    · by_cases hk : k' = k
      · subst hk
        simpa [List.filter, tget, ha] using ih
      · simp only [List.filter, ha, ne_eq, not_false_eq_true, decide_True, tget, hk, if_false] at ih ⊢
        rw [ih]

theorem tget_tset {κ α : Type} [DecidableEq κ] (t : List (κ × α)) (k k' : κ) (v : α) :
    tget (tset t k v) k' = if k' = k then some v else tget t k' := by
  unfold tset
  by_cases hk : k' = k
  · subst hk; simp [tget]
  · have hk2 : ¬ k = k' := fun h => hk h.symm
    simp [tget, hk, hk2, tget_tdel]

theorem tget_tmod {κ α : Type} [DecidableEq κ] (t : List (κ × α)) (k k' : κ) (f : α → α) :
    tget (tmod t k f) k' = if k' = k then (tget t k').map f else tget t k' := by
  induction t with
  | nil => simp [tmod, tget]
  | cons p r ih =>
    obtain ⟨a, v⟩ := p
    unfold tmod at ih ⊢
    rw [List.map_cons]
    by_cases ha : a = k
    · rw [if_pos ha]
      subst ha
      by_cases hk : k' = a
      · subst hk; simp [tget]
      · have hk2 : ¬ a = k' := fun h => hk h.symm
        simpa [tget, hk, hk2] using ih
    · rw [if_neg ha]
      by_cases hk : a = k'
      · subst hk; simp [tget, ha]
      · simpa [tget, ha, hk] using ih

theorem tget_mem {κ α : Type} [DecidableEq κ] (t : List (κ × α)) (k : κ) (v : α)
    (h : tget t k = some v) : (k, v) ∈ t := by
  induction t with
  | nil => simp [tget] at h
  | cons p r ih =>
    obtain ⟨a, w⟩ := p
    by_cases ha : a = k
    · subst ha; simp [tget] at h; simp [h]
    · simp [tget, ha] at h; simp [ih h]

/-! ## Facts about the kernel state -/

theorem mapping_record (s : State) (c : Call) (id : Int) (pn : Nat) :
    (s.record c).mapping id pn = s.mapping id pn := rfl

theorem env_record (s : State) (c : Call) (id : Int) :
    (s.record c).env id = s.env id := rfl

theorem uvpt_record (s : State) (c : Call) (pn : Nat) :
    uvpt (s.record c) pn = uvpt s pn := rfl

theorem mapping_install (L : Layout) (s : State) (id id' : Int) (va pn : Nat) (m : Mapping) :
    (s.install L id va m).mapping id' pn =
      if id' = id ∧ pn = PGNUM L va ∧ (s.env id).isSome then some m
      else s.mapping id' pn := by
  unfold State.mapping State.env State.install
  simp only [tget_tmod]
  by_cases hid : id' = id
  · subst hid
    cases he : tget s.envs id' with
    | none => simp
    | some e =>
      simp only [if_true, Option.map_some', tget_tset, true_and, Option.isSome_some, and_true]
  · simp [hid]

theorem mapping_remove (L : Layout) (s : State) (id id' : Int) (va pn : Nat) :
    (s.remove L id va).mapping id' pn =
      if id' = id ∧ pn = PGNUM L va then none else s.mapping id' pn := by
  unfold State.mapping State.env State.remove
  simp only [tget_tmod]
  by_cases hid : id' = id
  · subst hid
    cases he : tget s.envs id' with
    | none => simp
    | some e => simp [tget_tdel]
  · simp [hid]

theorem env_isSome_install (L : Layout) (s : State) (id id' : Int) (va : Nat) (m : Mapping) :
    ((s.install L id va m).env id').isSome = (s.env id').isSome := by
  unfold State.env State.install
  simp only [tget_tmod]
  by_cases hid : id' = id
  · subst hid; cases tget s.envs id' <;> simp
  · simp [hid]

/-! ## Facts about the permission bits -/

theorem and_or_ne_zero_right (a b : Nat) (hb : b ≠ 0) : (a ||| b) &&& b ≠ 0 := by
  intro h
  apply hb
  apply Nat.eq_of_testBit_eq
  intro i
  have := congrArg (fun x => Nat.testBit x i) h
  simp only [Nat.testBit_and, Nat.testBit_or, Nat.zero_testBit] at this ⊢
  cases hbi : b.testBit i <;> simp_all

theorem or_and_eq_zero (a b c : Nat) (ha : a &&& c = 0) (hb : b &&& c = 0) :
    (a ||| b) &&& c = 0 := by
  apply Nat.eq_of_testBit_eq
  intro i
  have h1 := congrArg (fun x => Nat.testBit x i) ha
  have h2 := congrArg (fun x => Nat.testBit x i) hb
  simp only [Nat.testBit_and, Nat.testBit_or, Nat.zero_testBit] at h1 h2 ⊢
  cases hci : c.testBit i <;> simp_all

theorem u16_flags (x : Nat) (h : x < 2 ^ 12) : u16 x = x := by
  unfold u16
  exact Nat.mod_eq_of_lt (by omega)

theorem duppagePerm_cow (L : Layout) (hL : L.OK) (pte : Nat)
    (h : pte &&& L.PTE_W ≠ 0 ∨ pte &&& PTE_COW ≠ 0) :
    duppagePerm L pte = L.PTE_U ||| L.PTE_P ||| PTE_COW := by
  obtain ⟨-, -, -, -, -, -, -, -, -, -, -, -, hP, -, hU, -⟩ := hL
  have h1 : L.PTE_U ||| L.PTE_P < 2 ^ 12 := Nat.or_lt_two_pow hU hP
  have h2 : L.PTE_U ||| L.PTE_P ||| PTE_COW < 2 ^ 12 :=
    Nat.or_lt_two_pow h1 (by decide)
  unfold duppagePerm
  simp only [h, if_true, u16_flags _ h1, u16_flags _ h2]

theorem duppagePerm_plain (L : Layout) (hL : L.OK) (pte : Nat)
    (h : ¬ (pte &&& L.PTE_W ≠ 0 ∨ pte &&& PTE_COW ≠ 0)) :
    duppagePerm L pte = L.PTE_U ||| L.PTE_P := by
  obtain ⟨-, -, -, -, -, -, -, -, -, -, -, -, hP, -, hU, -⟩ := hL
  have h1 : L.PTE_U ||| L.PTE_P < 2 ^ 12 := Nat.or_lt_two_pow hU hP
  unfold duppagePerm
  simp only [h, if_false, u16_flags _ h1]

theorem PGNUM_page (L : Layout) (hL : L.OK) (pn : Nat) (h : pn * L.PGSIZE < 2 ^ 32) :
    PGNUM L (u32 (pn * L.PGSIZE)) = pn := by
  unfold PGNUM u32
  rw [Nat.mod_eq_of_lt h]
  exact Nat.mul_div_cancel _ hL.1

/-! ## Facts about the primitives -/

theorem sys_page_map_cases (L : Layout) (s : State) (srcenv : Int) (srcva : Nat) (dstenv : Int)
    (dstva perm : Nat) :
    (∃ m, (s.env (s.resolve dstenv)).isSome ∧
        s.mapping (s.resolve srcenv) (PGNUM L srcva) = some m ∧
        sys_page_map L s srcenv srcva dstenv dstva perm =
          (0, (s.install L (s.resolve dstenv) dstva ⟨m.frame, perm⟩).record
                (.page_map srcenv srcva dstenv dstva perm 0))) ∨
    (∃ r, r < 0 ∧ sys_page_map L s srcenv srcva dstenv dstva perm =
        (r, s.record (.page_map srcenv srcva dstenv dstva perm r))) := by
  cases hd : s.env (s.resolve dstenv) with
  | none => right; exact ⟨-E_BAD_ENV, by decide, by simp only [sys_page_map, hd]⟩
  | some e =>
    cases hm : s.mapping (s.resolve srcenv) (PGNUM L srcva) with
    | none => right; exact ⟨-E_INVAL, by decide, by simp only [sys_page_map, hd, hm]⟩
    | some m => left; exact ⟨m, rfl, rfl, by simp only [sys_page_map, hd, hm]⟩

theorem cur_record (s : State) (c : Call) : (s.record c).cur = s.cur := rfl

theorem cur_install (L : Layout) (s : State) (id : Int) (va : Nat) (m : Mapping) :
    (s.install L id va m).cur = s.cur := rfl

theorem resolve_zero (s : State) : s.resolve 0 = s.cur := by simp [State.resolve]

theorem resolve_record (s : State) (c : Call) (id : Int) :
    (s.record c).resolve id = s.resolve id := rfl

theorem resolve_install (L : Layout) (s : State) (id id' : Int) (va : Nat) (m : Mapping) :
    (s.install L id va m).resolve id' = s.resolve id' := rfl

theorem uvpt_ne_zero (s : State) (pn b : Nat) (h : uvpt s pn &&& b ≠ 0) :
    ∃ m, s.mapping s.cur pn = some m ∧ m.perm = uvpt s pn := by
  unfold uvpt at h ⊢
  cases hm : s.mapping s.cur pn with
  | none => simp [hm] at h
  | some m => exact ⟨m, rfl, rfl⟩

theorem sys_page_alloc_cases (L : Layout) (s : State) (envid : Int) (va perm : Nat) :
    (∃ f, (s.env (s.resolve envid)).isSome ∧ s.freshFrame = some f ∧
        sys_page_alloc L s envid va perm =
          (0, (s.install L (s.resolve envid) va ⟨f, perm⟩).record
                (.page_alloc envid va perm 0))) ∨
    (∃ r, r < 0 ∧ sys_page_alloc L s envid va perm =
        (r, s.record (.page_alloc envid va perm r))) := by
  cases hd : s.env (s.resolve envid) with
  | none => right; exact ⟨-E_BAD_ENV, by decide, by simp only [sys_page_alloc, hd]⟩
  | some e =>
    by_cases hp : permValid L perm = true
    · cases hf : s.freshFrame with
      | none =>
        right
        exact ⟨-E_NO_MEM, by decide, by simp only [sys_page_alloc, hd, hp, hf, if_true]⟩
      | some f =>
        left
        exact ⟨f, rfl, rfl, by simp only [sys_page_alloc, hd, hp, hf, if_true]⟩
    · right
      refine ⟨-E_INVAL, by decide, ?_⟩
      simp only [sys_page_alloc, hd, hp]
      rfl

theorem sys_page_unmap_cases (L : Layout) (s : State) (envid : Int) (va : Nat) :
    ((s.env (s.resolve envid)).isSome ∧
        sys_page_unmap L s envid va =
          (0, (s.remove L (s.resolve envid) va).record (.page_unmap envid va 0))) ∨
    (∃ r, r < 0 ∧ sys_page_unmap L s envid va = (r, s.record (.page_unmap envid va r))) := by
  cases hd : s.env (s.resolve envid) with
  | none => right; exact ⟨-E_BAD_ENV, by decide, by simp only [sys_page_unmap, hd]⟩
  | some e => left; exact ⟨rfl, by simp only [sys_page_unmap, hd]⟩

theorem sys_env_set_status_cases (s : State) (envid : Int) (status : Nat) :
    ((s.env (s.resolve envid)).isSome ∧
        sys_env_set_status s envid status =
          (0, (s.setStatus (s.resolve envid) status).record (.set_status envid status 0))) ∨
    (∃ r, r < 0 ∧ sys_env_set_status s envid status =
        (r, s.record (.set_status envid status r))) := by
  cases hd : s.env (s.resolve envid) with
  | none => right; exact ⟨-E_BAD_ENV, by decide, by simp only [sys_env_set_status, hd]⟩
  | some e => left; exact ⟨rfl, by simp only [sys_env_set_status, hd]⟩

theorem sys_env_set_pgfault_upcall_cases (s : State) (envid : Int) (func : Nat) :
    ((s.env (s.resolve envid)).isSome ∧
        sys_env_set_pgfault_upcall s envid func =
          (0, (s.setUpcall (s.resolve envid) func).record
                (.set_pgfault_upcall envid func 0))) ∨
    (∃ r, r < 0 ∧ sys_env_set_pgfault_upcall s envid func =
        (r, s.record (.set_pgfault_upcall envid func r))) := by
  cases hd : s.env (s.resolve envid) with
  | none => right; exact ⟨-E_BAD_ENV, by decide, by simp only [sys_env_set_pgfault_upcall, hd]⟩
  | some e => left; exact ⟨rfl, by simp only [sys_env_set_pgfault_upcall, hd]⟩

/-! ### Effect of the state updates on the observations -/

theorem status_install (L : Layout) (s : State) (id id' : Int) (va : Nat) (m : Mapping) :
    (s.install L id va m).status id' = s.status id' := by
  unfold State.status State.env State.install
  simp only [tget_tmod]
  by_cases hid : id' = id
  · subst hid; cases tget s.envs id' <;> simp
  · simp [hid]

theorem status_remove (L : Layout) (s : State) (id id' : Int) (va : Nat) :
    (s.remove L id va).status id' = s.status id' := by
  unfold State.status State.env State.remove
  simp only [tget_tmod]
  by_cases hid : id' = id
  · subst hid; cases tget s.envs id' <;> simp
  · simp [hid]

theorem status_setUpcall (s : State) (id id' : Int) (func : Nat) :
    (s.setUpcall id func).status id' = s.status id' := by
  unfold State.status State.env State.setUpcall
  simp only [tget_tmod]
  by_cases hid : id' = id
  · subst hid; cases tget s.envs id' <;> simp
  · simp [hid]

theorem status_setStatus (s : State) (id id' : Int) (st : Nat) :
    (s.setStatus id st).status id' =
      if id' = id ∧ (s.env id).isSome then some st else s.status id' := by
  unfold State.status State.env State.setStatus
  simp only [tget_tmod]
  by_cases hid : id' = id
  · subst hid; cases tget s.envs id' <;> simp
  · simp [hid]

theorem status_record (s : State) (c : Call) (id : Int) :
    (s.record c).status id = s.status id := rfl

theorem mapping_setStatus (s : State) (id id' : Int) (st pn : Nat) :
    (s.setStatus id st).mapping id' pn = s.mapping id' pn := by
  unfold State.mapping State.env State.setStatus
  simp only [tget_tmod]
  by_cases hid : id' = id
  · subst hid; cases tget s.envs id' <;> simp
  · simp [hid]

theorem mapping_setUpcall (s : State) (id id' : Int) (func pn : Nat) :
    (s.setUpcall id func).mapping id' pn = s.mapping id' pn := by
  unfold State.mapping State.env State.setUpcall
  simp only [tget_tmod]
  by_cases hid : id' = id
  · subst hid; cases tget s.envs id' <;> simp
  · simp [hid]

theorem env_isSome_remove (L : Layout) (s : State) (id id' : Int) (va : Nat) :
    ((s.remove L id va).env id').isSome = (s.env id').isSome := by
  unfold State.env State.remove
  simp only [tget_tmod]
  by_cases hid : id' = id
  · subst hid; cases tget s.envs id' <;> simp
  · simp [hid]

theorem env_isSome_setStatus (s : State) (id id' : Int) (st : Nat) :
    ((s.setStatus id st).env id').isSome = (s.env id').isSome := by
  unfold State.env State.setStatus
  simp only [tget_tmod]
  by_cases hid : id' = id
  · subst hid; cases tget s.envs id' <;> simp
  · simp [hid]

theorem env_isSome_setUpcall (s : State) (id id' : Int) (func : Nat) :
    ((s.setUpcall id func).env id').isSome = (s.env id').isSome := by
  unfold State.env State.setUpcall
  simp only [tget_tmod]
  by_cases hid : id' = id
  · subst hid; cases tget s.envs id' <;> simp
  · simp [hid]

theorem uvpd_record (L : Layout) (s : State) (c : Call) (i : Nat) :
    uvpd L (s.record c) i = uvpd L s i := rfl

theorem uvpd_install (L : Layout) (s : State) (id : Int) (va i : Nat) (m : Mapping) :
    uvpd L (s.install L id va m) i =
      if id = s.cur ∧ i = PDX L va ∧ (s.env id).isSome then L.PTE_P else uvpd L s i := by
  unfold uvpd State.env State.install
  simp only [tget_tmod]
  by_cases hid : s.cur = id
  · subst hid
    cases he : tget s.envs s.cur with
    | none => simp
    | some e =>
      by_cases hi : i = PDX L va
      · subst hi
        by_cases hin : PDX L va ∈ e.pgdir <;> simp [hin]
      · by_cases hin : PDX L va ∈ e.pgdir <;> simp [hin, hi]
  · have : ¬ id = s.cur := fun h => hid h.symm
    simp [hid, this]

theorem uvpt_install (L : Layout) (s : State) (id : Int) (va pn : Nat) (m : Mapping) :
    uvpt (s.install L id va m) pn =
      if s.cur = id ∧ pn = PGNUM L va ∧ (s.env id).isSome then m.perm else uvpt s pn := by
  unfold uvpt
  rw [cur_install, mapping_install]
  by_cases h : s.cur = id ∧ pn = PGNUM L va ∧ (s.env id).isSome
  · rw [if_pos h, if_pos h]
  · rw [if_neg h, if_neg h]

/-! ### Fresh frames -/

theorem frameInUse_of_mapping (s : State) (id : Int) (pn : Nat) (m : Mapping)
    (h : s.mapping id pn = some m) : s.frameInUse m.frame = true := by
  unfold State.mapping State.env at h
  cases he : tget s.envs id with
  | none => simp [he] at h
  | some e =>
    simp only [he] at h
    unfold State.frameInUse
    rw [List.any_eq_true]
    refine ⟨(id, e), tget_mem _ _ _ he, ?_⟩
    rw [List.any_eq_true]
    exact ⟨(pn, m), tget_mem _ _ _ h, by simp⟩

theorem freshFrame_not_inUse (s : State) (f : Nat) (h : s.freshFrame = some f) :
    s.frameInUse f = false := by
  unfold State.freshFrame at h
  have := List.find?_some h
  simpa using this

theorem freshFrame_ne (s : State) (f : Nat) (h : s.freshFrame = some f) (id : Int) (pn : Nat)
    (m : Mapping) (hm : s.mapping id pn = some m) : m.frame ≠ f := by
  intro hf
  have h1 := frameInUse_of_mapping s id pn m hm
  have h2 := freshFrame_not_inUse s f h
  rw [hf, h2] at h1
  cases h1

/-! ### The primitives, by what they return -/

theorem sys_page_map_spec {L : Layout} {s s' : State} {srcenv dstenv r : Int}
    {srcva dstva perm : Nat}
    (h : sys_page_map L s srcenv srcva dstenv dstva perm = (r, s')) :
    (r = 0 ∧ ∃ m, (s.env (s.resolve dstenv)).isSome ∧
        s.mapping (s.resolve srcenv) (PGNUM L srcva) = some m ∧
        s' = (s.install L (s.resolve dstenv) dstva ⟨m.frame, perm⟩).record
              (.page_map srcenv srcva dstenv dstva perm 0)) ∨
    (r < 0 ∧ s' = s.record (.page_map srcenv srcva dstenv dstva perm r)) := by
  rcases sys_page_map_cases L s srcenv srcva dstenv dstva perm with
    ⟨m, hd, hm, h1⟩ | ⟨r', hr, h1⟩
  · rw [h1] at h
    obtain ⟨h2, h3⟩ := Prod.mk.inj h
    exact Or.inl ⟨h2.symm, m, hd, hm, h3.symm⟩
  · rw [h1] at h
    obtain ⟨h2, h3⟩ := Prod.mk.inj h
    subst h2
    exact Or.inr ⟨hr, h3.symm⟩

theorem sys_page_alloc_spec {L : Layout} {s s' : State} {envid r : Int} {va perm : Nat}
    (h : sys_page_alloc L s envid va perm = (r, s')) :
    (r = 0 ∧ ∃ f, (s.env (s.resolve envid)).isSome ∧ s.freshFrame = some f ∧
        s' = (s.install L (s.resolve envid) va ⟨f, perm⟩).record
              (.page_alloc envid va perm 0)) ∨
    (r < 0 ∧ s' = s.record (.page_alloc envid va perm r)) := by
  rcases sys_page_alloc_cases L s envid va perm with ⟨f, hd, hf, h1⟩ | ⟨r', hr, h1⟩
  · rw [h1] at h
    obtain ⟨h2, h3⟩ := Prod.mk.inj h
    exact Or.inl ⟨h2.symm, f, hd, hf, h3.symm⟩
  · rw [h1] at h
    obtain ⟨h2, h3⟩ := Prod.mk.inj h
    subst h2
    exact Or.inr ⟨hr, h3.symm⟩

theorem sys_page_unmap_spec {L : Layout} {s s' : State} {envid r : Int} {va : Nat}
    (h : sys_page_unmap L s envid va = (r, s')) :
    (r = 0 ∧ (s.env (s.resolve envid)).isSome ∧
        s' = (s.remove L (s.resolve envid) va).record (.page_unmap envid va 0)) ∨
    (r < 0 ∧ s' = s.record (.page_unmap envid va r)) := by
  rcases sys_page_unmap_cases L s envid va with ⟨hd, h1⟩ | ⟨r', hr, h1⟩
  · rw [h1] at h
    obtain ⟨h2, h3⟩ := Prod.mk.inj h
    exact Or.inl ⟨h2.symm, hd, h3.symm⟩
  · rw [h1] at h
    obtain ⟨h2, h3⟩ := Prod.mk.inj h
    subst h2
    exact Or.inr ⟨hr, h3.symm⟩

theorem sys_env_set_status_spec {s s' : State} {envid r : Int} {status : Nat}
    (h : sys_env_set_status s envid status = (r, s')) :
    (r = 0 ∧ (s.env (s.resolve envid)).isSome ∧
        s' = (s.setStatus (s.resolve envid) status).record (.set_status envid status 0)) ∨
    (r < 0 ∧ s' = s.record (.set_status envid status r)) := by
  rcases sys_env_set_status_cases s envid status with ⟨hd, h1⟩ | ⟨r', hr, h1⟩
  · rw [h1] at h
    obtain ⟨h2, h3⟩ := Prod.mk.inj h
    exact Or.inl ⟨h2.symm, hd, h3.symm⟩
  · rw [h1] at h
    obtain ⟨h2, h3⟩ := Prod.mk.inj h
    subst h2
    exact Or.inr ⟨hr, h3.symm⟩

theorem sys_env_set_pgfault_upcall_spec {s s' : State} {envid r : Int} {func : Nat}
    (h : sys_env_set_pgfault_upcall s envid func = (r, s')) :
    (r = 0 ∧ (s.env (s.resolve envid)).isSome ∧
        s' = (s.setUpcall (s.resolve envid) func).record
              (.set_pgfault_upcall envid func 0)) ∨
    (r < 0 ∧ s' = s.record (.set_pgfault_upcall envid func r)) := by
  rcases sys_env_set_pgfault_upcall_cases s envid func with ⟨hd, h1⟩ | ⟨r', hr, h1⟩
  · rw [h1] at h
    obtain ⟨h2, h3⟩ := Prod.mk.inj h
    exact Or.inl ⟨h2.symm, hd, h3.symm⟩
  · rw [h1] at h
    obtain ⟨h2, h3⟩ := Prod.mk.inj h
    subst h2
    exact Or.inr ⟨hr, h3.symm⟩

theorem log_record (s : State) (c : Call) : (s.record c).log = s.log ++ [c] := rfl

theorem log_install (L : Layout) (s : State) (id : Int) (va : Nat) (m : Mapping) :
    (s.install L id va m).log = s.log := rfl

theorem log_remove (L : Layout) (s : State) (id : Int) (va : Nat) :
    (s.remove L id va).log = s.log := rfl

theorem log_setStatus (s : State) (id : Int) (st : Nat) :
    (s.setStatus id st).log = s.log := rfl

theorem log_setUpcall (s : State) (id : Int) (func : Nat) :
    (s.setUpcall id func).log = s.log := rfl

theorem cur_remove (L : Layout) (s : State) (id : Int) (va : Nat) :
    (s.remove L id va).cur = s.cur := rfl

theorem cur_setStatus (s : State) (id : Int) (st : Nat) :
    (s.setStatus id st).cur = s.cur := rfl

theorem cur_setUpcall (s : State) (id : Int) (func : Nat) :
    (s.setUpcall id func).cur = s.cur := rfl

theorem resolve_remove (L : Layout) (s : State) (id id' : Int) (va : Nat) :
    (s.remove L id va).resolve id' = s.resolve id' := rfl

theorem sys_page_map_log {L : Layout} {s s' : State} {srcenv dstenv r : Int}
    {srcva dstva perm : Nat}
    (h : sys_page_map L s srcenv srcva dstenv dstva perm = (r, s')) :
    s'.log = s.log ++ [.page_map srcenv srcva dstenv dstva perm r] ∧ r ≤ 0 := by
  rcases sys_page_map_spec h with ⟨rfl, m, -, -, rfl⟩ | ⟨hr, rfl⟩
  · exact ⟨rfl, le_refl _⟩
  · exact ⟨rfl, by omega⟩

theorem sys_page_alloc_log {L : Layout} {s s' : State} {envid r : Int} {va perm : Nat}
    (h : sys_page_alloc L s envid va perm = (r, s')) :
    s'.log = s.log ++ [.page_alloc envid va perm r] ∧ r ≤ 0 := by
  rcases sys_page_alloc_spec h with ⟨rfl, f, -, -, rfl⟩ | ⟨hr, rfl⟩
  · exact ⟨rfl, le_refl _⟩
  · exact ⟨rfl, by omega⟩

theorem sys_page_unmap_log {L : Layout} {s s' : State} {envid r : Int} {va : Nat}
    (h : sys_page_unmap L s envid va = (r, s')) :
    s'.log = s.log ++ [.page_unmap envid va r] ∧ r ≤ 0 := by
  rcases sys_page_unmap_spec h with ⟨rfl, -, rfl⟩ | ⟨hr, rfl⟩
  · exact ⟨rfl, le_refl _⟩
  · exact ⟨rfl, by omega⟩

theorem sys_env_set_status_log {s s' : State} {envid r : Int} {status : Nat}
    (h : sys_env_set_status s envid status = (r, s')) :
    s'.log = s.log ++ [.set_status envid status r] ∧ r ≤ 0 := by
  rcases sys_env_set_status_spec h with ⟨rfl, -, rfl⟩ | ⟨hr, rfl⟩
  · exact ⟨rfl, le_refl _⟩
  · exact ⟨rfl, by omega⟩

theorem sys_env_set_pgfault_upcall_log {s s' : State} {envid r : Int} {func : Nat}
    (h : sys_env_set_pgfault_upcall s envid func = (r, s')) :
    s'.log = s.log ++ [.set_pgfault_upcall envid func r] ∧ r ≤ 0 := by
  rcases sys_env_set_pgfault_upcall_spec h with ⟨rfl, -, rfl⟩ | ⟨hr, rfl⟩
  · exact ⟨rfl, le_refl _⟩
  · exact ⟨rfl, by omega⟩

/-! ### memmove -/

theorem memmove_fields (L : Layout) (s : State) (dst src n : Nat) :
    (memmove L s dst src n).envs = s.envs ∧ (memmove L s dst src n).cur = s.cur ∧
    (memmove L s dst src n).log = s.log ∧ (memmove L s dst src n).nframes = s.nframes ∧
    (memmove L s dst src n).nenv = s.nenv ∧ (memmove L s dst src n).thisenv = s.thisenv ∧
    (memmove L s dst src n).handler = s.handler := by
  unfold memmove
  generalize List.range n = l
  suffices h : ∀ acc : State,
      (l.foldl (fun acc i =>
        match translate L s (dst + i), translate L s (src + i) with
        | some (fd, od), some (fs, os) => acc.store fd od (s.mem fs os)
        | _, _ => acc) acc).envs = acc.envs ∧
      (l.foldl (fun acc i =>
        match translate L s (dst + i), translate L s (src + i) with
        | some (fd, od), some (fs, os) => acc.store fd od (s.mem fs os)
        | _, _ => acc) acc).cur = acc.cur ∧
      (l.foldl (fun acc i =>
        match translate L s (dst + i), translate L s (src + i) with
        | some (fd, od), some (fs, os) => acc.store fd od (s.mem fs os)
        | _, _ => acc) acc).log = acc.log ∧
      (l.foldl (fun acc i =>
        match translate L s (dst + i), translate L s (src + i) with
        | some (fd, od), some (fs, os) => acc.store fd od (s.mem fs os)
        | _, _ => acc) acc).nframes = acc.nframes ∧
      (l.foldl (fun acc i =>
        match translate L s (dst + i), translate L s (src + i) with
        | some (fd, od), some (fs, os) => acc.store fd od (s.mem fs os)
        | _, _ => acc) acc).nenv = acc.nenv ∧
      (l.foldl (fun acc i =>
        match translate L s (dst + i), translate L s (src + i) with
        | some (fd, od), some (fs, os) => acc.store fd od (s.mem fs os)
        | _, _ => acc) acc).thisenv = acc.thisenv ∧
      (l.foldl (fun acc i =>
        match translate L s (dst + i), translate L s (src + i) with
        | some (fd, od), some (fs, os) => acc.store fd od (s.mem fs os)
        | _, _ => acc) acc).handler = acc.handler from h s
  induction l with
  | nil => intro acc; simp
  | cons i r ih =>
    intro acc
    rw [List.foldl_cons]
    obtain ⟨h1, h2, h3, h4, h5, h6, h7⟩ := ih
      (match translate L s (dst + i), translate L s (src + i) with
        | some (fd, od), some (fs, os) => acc.store fd od (s.mem fs os)
        | _, _ => acc)
    rw [h1, h2, h3, h4, h5, h6, h7]
    split <;> simp [State.store]

theorem mapping_memmove (L : Layout) (s : State) (dst src n : Nat) (id : Int) (pn : Nat) :
    (memmove L s dst src n).mapping id pn = s.mapping id pn := by
  unfold State.mapping State.env
  rw [(memmove_fields L s dst src n).1]

theorem env_memmove (L : Layout) (s : State) (dst src n : Nat) (id : Int) :
    (memmove L s dst src n).env id = s.env id := by
  unfold State.env
  rw [(memmove_fields L s dst src n).1]

theorem status_memmove (L : Layout) (s : State) (dst src n : Nat) (id : Int) :
    (memmove L s dst src n).status id = s.status id := by
  unfold State.status
  rw [env_memmove]

theorem cur_memmove (L : Layout) (s : State) (dst src n : Nat) :
    (memmove L s dst src n).cur = s.cur := (memmove_fields L s dst src n).2.1

theorem log_memmove (L : Layout) (s : State) (dst src n : Nat) :
    (memmove L s dst src n).log = s.log := (memmove_fields L s dst src n).2.2.1

theorem resolve_memmove (L : Layout) (s : State) (dst src n : Nat) (id : Int) :
    (memmove L s dst src n).resolve id = s.resolve id := by
  unfold State.resolve
  rw [cur_memmove]

theorem mem_store (s : State) (f off b : Nat) :
    (s.store f off b).mem = fun f' o' => if f' = f ∧ o' = off then b else s.mem f' o' := rfl

theorem memmove_mem_page (L : Layout) (s : State) (dst src n fd fs : Nat)
    (hd : ∀ i, i < n → translate L s (dst + i) = some (fd, i))
    (hs : ∀ i, i < n → translate L s (src + i) = some (fs, i)) :
    (memmove L s dst src n).mem =
      fun f o => if f = fd ∧ o < n then s.mem fs o else s.mem f o := by
  induction n with
  | zero =>
    funext f o
    simp [memmove]
  | succ n ih =>
    have ih' := ih (fun i hi => hd i (by omega)) (fun i hi => hs i (by omega))
    unfold memmove at ih' ⊢
    rw [List.range_succ, List.foldl_append, List.foldl_cons, List.foldl_nil,
      hd n (by omega), hs n (by omega)]
    rw [mem_store, ih']
    funext f o
    by_cases hf : f = fd
    · subst hf
      by_cases ho : o = n
      · subst ho; simp
      · by_cases ho2 : o < n
        · have : o < n + 1 := by omega
          simp [ho, ho2, this]
        · have : ¬ o < n + 1 := by omega
          simp [ho, ho2, this]
    · simp [hf]

/-! ### Page arithmetic -/

theorem aligned_add (P a i : Nat) (hP : 0 < P) (ha : P ∣ a) (hi : i < P) :
    (a + i) / P = a / P ∧ (a + i) % P = i := by
  obtain ⟨k, rfl⟩ := ha
  constructor
  · rw [Nat.mul_add_div hP, Nat.div_eq_of_lt hi, Nat.mul_div_cancel_left _ hP]
    rfl
  · rw [Nat.mul_add_mod]
    exact Nat.mod_eq_of_lt hi

theorem ROUNDDOWN_dvd (a P : Nat) : P ∣ ROUNDDOWN a P := by
  unfold ROUNDDOWN
  refine ⟨a / P, ?_⟩
  have := Nat.div_add_mod a P
  omega

theorem PGNUM_ROUNDDOWN (L : Layout) (hP : 0 < L.PGSIZE) (a : Nat) :
    PGNUM L (ROUNDDOWN a L.PGSIZE) = PGNUM L a := by
  unfold PGNUM ROUNDDOWN
  have h := Nat.div_add_mod a L.PGSIZE
  have : a - a % L.PGSIZE = L.PGSIZE * (a / L.PGSIZE) := by omega
  rw [this, Nat.mul_div_cancel_left _ hP]

theorem translate_page (L : Layout) (hP : 0 < L.PGSIZE) (s : State) (a i : Nat) (m : Mapping)
    (ha : L.PGSIZE ∣ a) (hi : i < L.PGSIZE) (hm : s.mapping s.cur (PGNUM L a) = some m) :
    translate L s (a + i) = some (m.frame, i) := by
  unfold translate PGNUM
  obtain ⟨h1, h2⟩ := aligned_add L.PGSIZE a i hP ha hi
  unfold PGNUM at hm
  rw [h1, hm, h2]

/-! ### pgfault -/

theorem pgfault_ok (L : Layout) (s s' : State) (addr err : Nat)
    (h : pgfault L s addr err = .ok () s') :
    err &&& L.FEC_WR ≠ 0 ∧ uvpt s (PGNUM L addr) &&& PTE_COW ≠ 0 ∧
    ∃ f, s.freshFrame = some f ∧ (s.env s.cur).isSome ∧ s' = pgfaultDone L s addr f := by
  unfold pgfault at h
  by_cases hg : err &&& L.FEC_WR = 0 ∨ uvpt s (PGNUM L addr) &&& PTE_COW = 0
  · rw [if_pos hg] at h; cases h
  · rw [if_neg hg] at h
    have hg' := not_or.mp hg
    refine ⟨hg'.1, hg'.2, ?_⟩
    cases hr1 : sys_page_alloc L s 0 L.PFTEMP (L.PTE_U ||| L.PTE_W ||| L.PTE_P) with
    | mk r1 s1 =>
    rw [hr1] at h
    dsimp only at h
    rcases sys_page_alloc_spec hr1 with ⟨rfl, f, he, hf, hs1⟩ | ⟨hneg, -⟩
    · rw [resolve_zero] at he hs1
      have hc1 : s1.cur = s.cur := by rw [hs1]; rfl
      simp only [ne_eq, not_true_eq_false, if_false] at h
      cases hr2 : sys_page_map L (memmove L s1 L.PFTEMP (ROUNDDOWN addr L.PGSIZE) L.PGSIZE)
          0 L.PFTEMP 0 (ROUNDDOWN addr L.PGSIZE) (L.PTE_U ||| L.PTE_W ||| L.PTE_P) with
      | mk r2 s3 =>
      rw [hr2] at h
      dsimp only at h
      rcases sys_page_map_spec hr2 with ⟨rfl, m, he2, hm, hs3⟩ | ⟨hneg, -⟩
      · simp only [resolve_zero, cur_memmove, hc1, mapping_memmove] at hm hs3
        have hmf : m.frame = f := by
          rw [hs1, mapping_record, mapping_install] at hm
          simp only [he, and_self, if_true, Option.some.injEq] at hm
          rw [← hm]
        rw [hmf] at hs3
        have hc3 : s3.cur = s.cur := by rw [hs3, cur_record, cur_install, cur_memmove, hc1]
        simp only [ne_eq, not_true_eq_false, if_false] at h
        cases hr3 : sys_page_unmap L s3 0 L.PFTEMP with
        | mk r3 s4 =>
        rw [hr3] at h
        dsimp only at h
        rcases sys_page_unmap_spec hr3 with ⟨rfl, he3, hs4⟩ | ⟨hneg, -⟩
        · simp only [ne_eq, not_true_eq_false, if_false, Result.ok.injEq, true_and] at h
          rw [resolve_zero, hc3] at hs4
          refine ⟨f, hf, he, ?_⟩
          rw [← h, hs4, hs3, hs1]
          rfl
        · have : r3 ≠ 0 := by omega
          simp [this] at h
      · have : r2 ≠ 0 := by omega
        simp [this] at h
    · have : r1 ≠ 0 := by omega
      simp [this] at h

theorem mapping_pgfaultDone (L : Layout) (hP : 0 < L.PGSIZE) (s : State) (addr f : Nat)
    (he : (s.env s.cur).isSome) (id : Int) (pn : Nat) :
    (pgfaultDone L s addr f).mapping id pn =
      if id = s.cur ∧ pn = PGNUM L L.PFTEMP then none
      else if id = s.cur ∧ pn = PGNUM L addr then some ⟨f, L.PTE_U ||| L.PTE_W ||| L.PTE_P⟩
      else s.mapping id pn := by
  unfold pgfaultDone
  simp only [mapping_record, mapping_remove, mapping_install, mapping_memmove, env_memmove,
    env_record, env_isSome_install, he, and_true, PGNUM_ROUNDDOWN L hP]
  by_cases h1 : id = s.cur ∧ pn = PGNUM L L.PFTEMP
  · simp [h1]
  · simp only [h1, if_false]

theorem cur_pgfaultDone (L : Layout) (s : State) (addr f : Nat) :
    (pgfaultDone L s addr f).cur = s.cur := by
  unfold pgfaultDone
  simp only [cur_record, cur_remove, cur_install, cur_memmove]

theorem mem_pgfaultDone (L : Layout) (hL : L.OK) (s : State) (addr f : Nat) (m : Mapping)
    (he : (s.env s.cur).isSome)
    (hne : PGNUM L addr ≠ PGNUM L L.PFTEMP)
    (hm : s.mapping s.cur (PGNUM L addr) = some m) :
    (pgfaultDone L s addr f).mem =
      fun fr o => if fr = f ∧ o < L.PGSIZE then s.mem m.frame o else s.mem fr o := by
  have hP : 0 < L.PGSIZE := hL.1
  have hal : L.PGSIZE ∣ L.PFTEMP := hL.2.1
  have h := memmove_mem_page L
    ((s.install L s.cur L.PFTEMP ⟨f, L.PTE_U ||| L.PTE_W ||| L.PTE_P⟩).record
      (.page_alloc 0 L.PFTEMP (L.PTE_U ||| L.PTE_W ||| L.PTE_P) 0))
    L.PFTEMP (ROUNDDOWN addr L.PGSIZE) L.PGSIZE f m.frame
    (fun i hi => translate_page L hP _ L.PFTEMP i ⟨f, L.PTE_U ||| L.PTE_W ||| L.PTE_P⟩ hal hi
      (by simp only [cur_record, cur_install, mapping_record, mapping_install, he, and_self,
            if_true]))
    (fun i hi => translate_page L hP _ (ROUNDDOWN addr L.PGSIZE) i m (ROUNDDOWN_dvd _ _) hi
      (by simp only [cur_record, cur_install, mapping_record, mapping_install, he, and_true,
            PGNUM_ROUNDDOWN L hP, hne, true_and, if_false, hm]))
  unfold pgfaultDone
  exact h

/-! ### duppage -/

theorem uvpd_of_present (L : Layout) (s : State) (i : Nat) (h : uvpd L s i &&& L.PTE_P ≠ 0) :
    uvpd L s i = L.PTE_P := by
  unfold uvpd at h ⊢
  cases he : s.env s.cur with
  | none => simp [he] at h
  | some e =>
    simp only [he] at h ⊢
    by_cases hi : i ∈ e.pgdir
    · simp [hi]
    · simp [hi] at h

theorem u32_page (L : Layout) (pn : Nat) (h : pn * L.PGSIZE < 2 ^ 32) :
    u32 (pn * L.PGSIZE) = pn * L.PGSIZE := Nat.mod_eq_of_lt h

theorem PGNUM_mul (L : Layout) (hP : 0 < L.PGSIZE) (pn : Nat) : PGNUM L (pn * L.PGSIZE) = pn :=
  Nat.mul_div_cancel _ hP

theorem duppage_ok (L : Layout) (hL : L.OK) (s s' : State) (envid v : Int) (pn : Nat)
    (hpn : pn * L.PGSIZE < 2 ^ 32) (hok : duppage L s envid pn = .ok v s') :
    v = 0 ∧ s'.cur = s.cur ∧ (∀ id, s'.status id = s.status id) ∧
    (∀ id j, j ≠ pn → s'.mapping id j = s.mapping id j) ∧
    (uvpd L s (PDX L (pn * L.PGSIZE)) &&& L.PTE_P ≠ 0 → ∀ i, uvpd L s' i = uvpd L s i) ∧
    ∃ calls, s'.log = s.log ++ .duppage envid pn :: calls ∧
      ∀ c ∈ calls, c.ret = 0 ∧ c.isPageMap = true := by
  have hP : 0 < L.PGSIZE := hL.1
  unfold duppage at hok
  rw [u32_page L pn hpn] at hok
  dsimp only at hok
  cases hr1 : sys_page_map L (s.record (.duppage envid pn)) 0 (pn * L.PGSIZE) envid
      (pn * L.PGSIZE) (duppagePerm L (uvpt (s.record (.duppage envid pn)) pn)) with
  | mk r1 s1 =>
  rw [hr1] at hok
  dsimp only at hok
  rcases sys_page_map_spec hr1 with ⟨rfl, m1, he1, hm1, hs1⟩ | ⟨hneg, -⟩
  · simp only [ne_eq, not_true_eq_false, if_false] at hok
    have hc1 : s1.cur = s.cur := by rw [hs1]; rfl
    have hst1 : ∀ id, s1.status id = s.status id := by
      intro id; rw [hs1, status_record, status_install, status_record]
    have hmp1 : ∀ id j, j ≠ pn → s1.mapping id j = s.mapping id j := by
      intro id j hj
      rw [hs1, mapping_record, mapping_install, PGNUM_mul L hP, mapping_record]
      simp [hj]
    have hd1 : uvpd L s (PDX L (pn * L.PGSIZE)) &&& L.PTE_P ≠ 0 →
        ∀ i, uvpd L s1 i = uvpd L s i := by
      intro hd i
      rw [hs1, uvpd_record, uvpd_install, uvpd_record]
      split
      · rename_i h; rw [h.2.1, uvpd_of_present L s _ hd]
      · rfl
    have hl1 : s1.log = s.log ++ [.duppage envid pn,
        .page_map 0 (pn * L.PGSIZE) envid (pn * L.PGSIZE)
          (duppagePerm L (uvpt (s.record (.duppage envid pn)) pn)) 0] := by
      rw [hs1, log_record, log_install, log_record, List.append_assoc]
      rfl
    by_cases hc : duppagePerm L (uvpt (s.record (.duppage envid pn)) pn) &&& PTE_COW ≠ 0
    · rw [if_pos hc] at hok
      cases hr2 : sys_page_map L s1 0 (pn * L.PGSIZE) 0 (pn * L.PGSIZE)
          (duppagePerm L (uvpt (s.record (.duppage envid pn)) pn)) with
      | mk r2 s2 =>
      rw [hr2] at hok
      dsimp only at hok
      rcases sys_page_map_spec hr2 with ⟨rfl, m2, he2, hm2, hs2⟩ | ⟨hneg, -⟩
      · simp only [ne_eq, not_true_eq_false, if_false, Result.ok.injEq] at hok
        obtain ⟨rfl, rfl⟩ := hok
        refine ⟨rfl, ?_, ?_, ?_, ?_, ?_⟩
        · rw [hs2]; exact hc1
        · intro id; rw [hs2, status_record, status_install, hst1]
        · intro id j hj
          rw [hs2, mapping_record, mapping_install, PGNUM_mul L hP, hmp1 id j hj]
          simp [hj]
        · intro hd i
          rw [hs2, uvpd_record, uvpd_install, hd1 hd]
          split
          · rename_i h; rw [h.2.1, uvpd_of_present L s _ hd]
          · rfl
        · refine ⟨[.page_map 0 (pn * L.PGSIZE) envid (pn * L.PGSIZE)
              (duppagePerm L (uvpt (s.record (.duppage envid pn)) pn)) 0,
            .page_map 0 (pn * L.PGSIZE) 0 (pn * L.PGSIZE)
              (duppagePerm L (uvpt (s.record (.duppage envid pn)) pn)) 0], ?_, ?_⟩
          · rw [hs2, log_record, log_install, hl1]
            simp
          · intro c hc
            simp only [List.mem_cons, List.mem_singleton, List.not_mem_nil, or_false] at hc
            rcases hc with rfl | rfl <;> exact ⟨rfl, rfl⟩
      · have : r2 ≠ 0 := by omega
        simp [this] at hok
    · rw [if_neg hc] at hok
      simp only [Result.ok.injEq] at hok
      obtain ⟨rfl, rfl⟩ := hok
      refine ⟨rfl, hc1, hst1, hmp1, hd1, [_], hl1, ?_⟩
      intro c hc
      simp only [List.mem_singleton] at hc
      subst hc
      exact ⟨rfl, rfl⟩
  · have : r1 ≠ 0 := by omega
    simp [this] at hok

theorem duppage_panic (L : Layout) (s s' : State) (envid : Int) (pn : Nat)
    (hp : duppage L s envid pn = .panic s') :
    s'.cur = s.cur ∧ (∀ id, s'.status id = s.status id) ∧
    ∃ calls c, s'.log = s.log ++ .duppage envid pn :: (calls ++ [c]) ∧
      (∀ c' ∈ calls, c'.ret = 0 ∧ c'.isPageMap = true) ∧ c.ret < 0 ∧ c.isPageMap = true := by
  unfold duppage at hp
  dsimp only at hp
  cases hr1 : sys_page_map L (s.record (.duppage envid pn)) 0 (u32 (pn * L.PGSIZE)) envid
      (u32 (pn * L.PGSIZE)) (duppagePerm L (uvpt (s.record (.duppage envid pn)) pn)) with
  | mk r1 s1 =>
  rw [hr1] at hp
  dsimp only at hp
  rcases sys_page_map_spec hr1 with ⟨rfl, m1, he1, hm1, hs1⟩ | ⟨hneg, hs1⟩
  · simp only [ne_eq, not_true_eq_false, if_false] at hp
    have hc1 : s1.cur = s.cur := by rw [hs1]; rfl
    have hst1 : ∀ id, s1.status id = s.status id := by
      intro id; rw [hs1, status_record, status_install, status_record]
    have hl1 : s1.log = s.log ++ [.duppage envid pn,
        .page_map 0 (u32 (pn * L.PGSIZE)) envid (u32 (pn * L.PGSIZE))
          (duppagePerm L (uvpt (s.record (.duppage envid pn)) pn)) 0] := by
      rw [hs1, log_record, log_install, log_record, List.append_assoc]
      rfl
    by_cases hc : duppagePerm L (uvpt (s.record (.duppage envid pn)) pn) &&& PTE_COW ≠ 0
    · rw [if_pos hc] at hp
      cases hr2 : sys_page_map L s1 0 (u32 (pn * L.PGSIZE)) 0 (u32 (pn * L.PGSIZE))
          (duppagePerm L (uvpt (s.record (.duppage envid pn)) pn)) with
      | mk r2 s2 =>
      rw [hr2] at hp
      dsimp only at hp
      rcases sys_page_map_spec hr2 with ⟨rfl, m2, he2, hm2, hs2⟩ | ⟨hneg, hs2⟩
      · simp at hp
      · have : r2 ≠ 0 := by omega
        simp only [ne_eq, this, not_false_eq_true, if_true, Result.panic.injEq] at hp
        subst hp
        refine ⟨by rw [hs2]; exact hc1, fun id => by rw [hs2, status_record, hst1],
          [.page_map 0 (u32 (pn * L.PGSIZE)) envid (u32 (pn * L.PGSIZE))
            (duppagePerm L (uvpt (s.record (.duppage envid pn)) pn)) 0],
          .page_map 0 (u32 (pn * L.PGSIZE)) 0 (u32 (pn * L.PGSIZE))
            (duppagePerm L (uvpt (s.record (.duppage envid pn)) pn)) r2, ?_, ?_, hneg, rfl⟩
        · rw [hs2, log_record, hl1]
          simp
        · intro c hc
          simp only [List.mem_singleton] at hc
          subst hc
          exact ⟨rfl, rfl⟩
    · rw [if_neg hc] at hp
      cases hp
  · have : r1 ≠ 0 := by omega
    simp only [ne_eq, this, not_false_eq_true, if_true, Result.panic.injEq] at hp
    subst hp
    refine ⟨by rw [hs1]; rfl, fun id => by rw [hs1]; rfl, [],
      .page_map 0 (u32 (pn * L.PGSIZE)) envid (u32 (pn * L.PGSIZE))
        (duppagePerm L (uvpt (s.record (.duppage envid pn)) pn)) r1, ?_, ?_, hneg, rfl⟩
    · rw [hs1, log_record, log_record, List.append_assoc]
      rfl
    · intro c hc
      cases hc

theorem duppage_ne_timeout (L : Layout) (s : State) (envid : Int) (pn : Nat) :
    duppage L s envid pn ≠ .timeout := by
  unfold duppage
  dsimp only
  repeat' split
  all_goals (intro h; cases h)

/-! ### The page walk of fork -/

theorem dupCalls_append (a b : List Call) : dupCalls (a ++ b) = dupCalls a ++ dupCalls b := by
  induction a with
  | nil => rfl
  | cons c r ih => cases c <;> simp [dupCalls, ih]

theorem dupCalls_pageMaps (l : List Call) (h : ∀ c ∈ l, c.ret = 0 ∧ c.isPageMap = true) :
    dupCalls l = [] := by
  induction l with
  | nil => rfl
  | cons c r ih =>
    have hc := (h c (List.mem_cons_self _ _)).2
    have hr := ih (fun c' hc' => h c' (List.mem_cons_of_mem _ hc'))
    cases c <;> simp [Call.isPageMap] at hc
    simp [dupCalls, hr]

theorem dupCalls_pageMaps_weak (l : List Call) (h : ∀ c ∈ l, c.isPageMap = true) :
    dupCalls l = [] := by
  induction l with
  | nil => rfl
  | cons c r ih =>
    have hc := h c (List.mem_cons_self _ _)
    have hr := ih (fun c' hc' => h c' (List.mem_cons_of_mem _ hc'))
    cases c <;> simp [Call.isPageMap] at hc
    simp [dupCalls, hr]

theorem present_congr (L : Layout) (s s1 : State) (j : Nat)
    (hd : ∀ i, uvpd L s1 i = uvpd L s i) (hc : s1.cur = s.cur)
    (hm : s1.mapping s.cur j = s.mapping s.cur j) :
    present L s1 j ↔ present L s j := by
  unfold present uvpt
  rw [hd, hc, hm]

theorem filter_present_congr (L : Layout) (s s1 : State) (l : List Nat)
    (h : ∀ j ∈ l, (present L s1 j ↔ present L s j)) :
    l.filter (fun pn => decide (present L s1 pn)) = l.filter (fun pn => decide (present L s pn)) := by
  apply List.filter_congr
  intro j hj
  simp only [decide_eq_decide]
  exact h j hj

theorem forkLoop_spec (L : Layout) (hL : L.OK) (envid : Int) :
    ∀ fuel k s, k ≤ L.USTACKTOP / L.PGSIZE → L.USTACKTOP / L.PGSIZE - k < fuel →
      (∀ s', forkLoop L envid fuel (k * L.PGSIZE) s = .ok () s' →
        s'.cur = s.cur ∧ (∀ id, s'.status id = s.status id) ∧
        ∃ new, s'.log = s.log ++ new ∧
          (∀ c ∈ new, c.ret = 0 ∧ (c.isPageMap = true ∨ c.isDuppage = true)) ∧
          dupCalls new =
            ((List.range' k (L.USTACKTOP / L.PGSIZE - k)).filter
              (fun pn => decide (present L s pn))).map (fun pn => (envid, pn))) ∧
      (∀ s', forkLoop L envid fuel (k * L.PGSIZE) s = .panic s' →
        s'.cur = s.cur ∧ (∀ id, s'.status id = s.status id) ∧
        ∃ pre c, s'.log = s.log ++ (pre ++ [c]) ∧
          (∀ c' ∈ pre, c'.ret = 0 ∧ (c'.isPageMap = true ∨ c'.isDuppage = true)) ∧
          c.ret < 0 ∧ c.isPageMap = true ∧
          ∃ rest, ((List.range' k (L.USTACKTOP / L.PGSIZE - k)).filter
              (fun pn => decide (present L s pn))).map (fun pn => (envid, pn)) =
            dupCalls (pre ++ [c]) ++ rest) ∧
      forkLoop L envid fuel (k * L.PGSIZE) s ≠ .timeout := by
  have hP : 0 < L.PGSIZE := hL.1
  have hdvd : L.PGSIZE ∣ L.USTACKTOP := hL.2.2.2.1
  have htop : L.USTACKTOP + L.PGSIZE ≤ 2 ^ 32 := by
    have h1 := hL.2.2.2.2.2.2.1
    have h2 := hL.2.2.2.2.2.2.2.1
    omega
  have hN : L.USTACKTOP / L.PGSIZE * L.PGSIZE = L.USTACKTOP := Nat.div_mul_cancel hdvd
  intro fuel
  induction fuel with
  | zero => intro k s _ h; omega
  | succ fuel ih =>
    intro k s hk hfuel
    have hlt : k * L.PGSIZE < L.USTACKTOP ↔ k < L.USTACKTOP / L.PGSIZE := by
      have h := @Nat.mul_lt_mul_right L.PGSIZE k (L.USTACKTOP / L.PGSIZE) hP
      rw [hN] at h
      exact h
    by_cases hkN : k < L.USTACKTOP / L.PGSIZE
    · have haddr : k * L.PGSIZE < L.USTACKTOP := hlt.mpr hkN
      have hnext : u32 (k * L.PGSIZE + L.PGSIZE) = (k + 1) * L.PGSIZE := by
        unfold u32
        rw [Nat.mod_eq_of_lt (by omega), Nat.add_mul, Nat.one_mul]
      have hrange : List.range' k (L.USTACKTOP / L.PGSIZE - k) =
          k :: List.range' (k + 1) (L.USTACKTOP / L.PGSIZE - (k + 1)) := by
        have : L.USTACKTOP / L.PGSIZE - k = (L.USTACKTOP / L.PGSIZE - (k + 1)) + 1 := by omega
        rw [this, List.range'_succ]
      have hunf : forkLoop L envid (fuel + 1) (k * L.PGSIZE) s =
          if present L s k then
            match duppage L s envid k with
            | .ok _ s1 => forkLoop L envid fuel ((k + 1) * L.PGSIZE) s1
            | .panic s1 => .panic s1
            | .timeout => .timeout
          else forkLoop L envid fuel ((k + 1) * L.PGSIZE) s := by
        rw [forkLoop, if_pos haddr, hnext, PGNUM_mul L hP]
        rfl
      rw [hunf]
      by_cases hp : present L s k
      · rw [if_pos hp]
        cases hdup : duppage L s envid k with
        | timeout => exact absurd hdup (duppage_ne_timeout L s envid k)
        | panic s1 =>
          dsimp only
          obtain ⟨hc, hst, calls, c, hlog, hcalls, hneg, hmap⟩ := duppage_panic L s s1 envid k hdup
          refine ⟨?_, ?_, ?_⟩
          · intro s' h; cases h
          rotate_left
          · intro h; cases h
          intro s' h
          cases h
          refine ⟨hc, hst, .duppage envid k :: calls, c, ?_, ?_, hneg, hmap, ?_⟩
          · rw [hlog]; simp
          · intro c' hc'
            rcases List.mem_cons.mp hc' with rfl | hc'
            · exact ⟨rfl, Or.inr rfl⟩
            · exact ⟨(hcalls c' hc').1, Or.inl (hcalls c' hc').2⟩
          · have hcc : dupCalls (calls ++ [c]) = [] := by
              apply dupCalls_pageMaps_weak
              intro c' hc'
              rcases List.mem_append.mp hc' with hc' | hc'
              · exact (hcalls c' hc').2
              · rw [List.mem_singleton.mp hc']; exact hmap
            rw [hrange]
            refine ⟨((List.range' (k + 1) (L.USTACKTOP / L.PGSIZE - (k + 1))).filter
              (fun pn => decide (present L s pn))).map (fun pn => (envid, pn)), ?_⟩
            have hcc' : dupCalls (calls.append [c]) = [] := hcc
            simp only [List.cons_append, dupCalls, hcc', List.filter_cons, hp, decide_True, if_true,
              List.map_cons, List.nil_append, List.singleton_append]
        | ok v s1 =>
          dsimp only
          obtain ⟨-, hc, hst, hmp, hd, calls, hlog, hcalls⟩ :=
            duppage_ok L hL s s1 envid v k (by omega) hdup
          have hd' := hd hp.1
          obtain ⟨iok, ipanic, itime⟩ := ih (k + 1) s1 (by omega) (by omega)
          have hfilter : (List.range' (k + 1) (L.USTACKTOP / L.PGSIZE - (k + 1))).filter
              (fun pn => decide (present L s1 pn)) =
              (List.range' (k + 1) (L.USTACKTOP / L.PGSIZE - (k + 1))).filter
              (fun pn => decide (present L s pn)) := by
            apply filter_present_congr
            intro j hj
            have hjk : j ≠ k := by
              have := (List.mem_range'_1.mp hj).1
              omega
            exact present_congr L s s1 j hd' hc (hmp _ j hjk)
          refine ⟨?_, ?_, itime⟩
          · intro s' h
            obtain ⟨hc2, hst2, new, hlog2, hnew, hdc⟩ := iok s' h
            refine ⟨by rw [hc2, hc], fun id => by rw [hst2, hst], .duppage envid k :: (calls ++ new),
              ?_, ?_, ?_⟩
            · rw [hlog2, hlog]; simp
            · intro c' hc'
              rcases List.mem_cons.mp hc' with rfl | hc'
              · exact ⟨rfl, Or.inr rfl⟩
              · rcases List.mem_append.mp hc' with hc' | hc'
                · exact ⟨(hcalls c' hc').1, Or.inl (hcalls c' hc').2⟩
                · exact hnew c' hc'
            · rw [hrange]
              simp only [dupCalls, dupCalls_append, dupCalls_pageMaps calls hcalls, hdc, hfilter,
                List.nil_append, List.filter_cons, hp, decide_True, if_true, List.map_cons]
          · intro s' h
            obtain ⟨hc2, hst2, pre, c, hlog2, hpre, hneg, hmap, rest, hrest⟩ := ipanic s' h
            refine ⟨by rw [hc2, hc], fun id => by rw [hst2, hst],
              .duppage envid k :: (calls ++ pre), c, ?_, ?_, hneg, hmap, rest, ?_⟩
            · rw [hlog2, hlog]; simp
            · intro c' hc'
              rcases List.mem_cons.mp hc' with rfl | hc'
              · exact ⟨rfl, Or.inr rfl⟩
              · rcases List.mem_append.mp hc' with hc' | hc'
                · exact ⟨(hcalls c' hc').1, Or.inl (hcalls c' hc').2⟩
                · exact hpre c' hc'
            · rw [hfilter] at hrest
              rw [hrange]
              simp only [List.cons_append, List.append_assoc, dupCalls, dupCalls_append,
                dupCalls_pageMaps calls hcalls, List.nil_append, List.filter_cons, hp, decide_True,
                if_true, List.map_cons, hrest]
              simp [dupCalls_append, dupCalls_pageMaps calls hcalls]
      · rw [if_neg hp]
        obtain ⟨iok, ipanic, itime⟩ := ih (k + 1) s (by omega) (by omega)
        refine ⟨?_, ?_, itime⟩
        · intro s' h
          obtain ⟨hc2, hst2, new, hlog2, hnew, hdc⟩ := iok s' h
          refine ⟨hc2, hst2, new, hlog2, hnew, ?_⟩
          rw [hdc, hrange]
          simp only [List.filter_cons, hp, decide_False, Bool.false_eq_true, if_false]
        · intro s' h
          obtain ⟨hc2, hst2, pre, c, hlog2, hpre, hneg, hmap, rest, hrest⟩ := ipanic s' h
          refine ⟨hc2, hst2, pre, c, hlog2, hpre, hneg, hmap, rest, ?_⟩
          rw [← hrest, hrange]
          simp only [List.filter_cons, hp, decide_False, Bool.false_eq_true, if_false]
    · have hkN' : k = L.USTACKTOP / L.PGSIZE := by omega
      have haddr : ¬ k * L.PGSIZE < L.USTACKTOP := fun h => hkN (hlt.mp h)
      have hunf : forkLoop L envid (fuel + 1) (k * L.PGSIZE) s = .ok () s := by
        rw [forkLoop, if_neg haddr]
      rw [hunf]
      refine ⟨?_, ?_, ?_⟩
      rotate_left
      · intro s' h; cases h
      · intro h; cases h
      intro s' h
      cases h
      refine ⟨rfl, fun _ => rfl, [], by simp, ?_, ?_⟩
      · intro c hc; cases hc
      · rw [hkN']
        simp [dupCalls]

/-! ### fork -/

theorem resolve_pos (s : State) (envid : Int) (h : 0 < envid) : s.resolve envid = envid := by
  unfold State.resolve
  rw [if_neg (by omega)]

theorem forkLoop_fork (L : Layout) (hL : L.OK) (envid : Int) (s : State) :
    (∀ s', forkLoop L envid (L.USTACKTOP + 1) 0 s = .ok () s' →
      s'.cur = s.cur ∧ (∀ id, s'.status id = s.status id) ∧
      ∃ new, s'.log = s.log ++ new ∧
        (∀ c ∈ new, c.ret = 0 ∧ (c.isPageMap = true ∨ c.isDuppage = true)) ∧
        dupCalls new = presentPages L s envid) ∧
    (∀ s', forkLoop L envid (L.USTACKTOP + 1) 0 s = .panic s' →
      s'.cur = s.cur ∧ (∀ id, s'.status id = s.status id) ∧
      ∃ pre c, s'.log = s.log ++ (pre ++ [c]) ∧
        (∀ c' ∈ pre, c'.ret = 0 ∧ (c'.isPageMap = true ∨ c'.isDuppage = true)) ∧
        c.ret < 0 ∧ c.isPageMap = true ∧
        ∃ rest, presentPages L s envid = dupCalls (pre ++ [c]) ++ rest) ∧
    forkLoop L envid (L.USTACKTOP + 1) 0 s ≠ .timeout := by
  have h := forkLoop_spec L hL envid (L.USTACKTOP + 1) 0 s (Nat.zero_le _)
    (by have := Nat.div_le_self L.USTACKTOP L.PGSIZE; omega)
  rw [Nat.zero_mul, Nat.sub_zero] at h
  exact h

theorem isSetStatus_of_dup (c : Call) (h : c.isPageMap = true ∨ c.isDuppage = true) :
    c.isSetStatus = false := by
  cases c <;> simp [Call.isPageMap, Call.isDuppage, Call.isSetStatus] at h ⊢

theorem forkAfter_ok (L : Layout) (hL : L.OK) (envid v : Int) (s s' : State) (hpos : 0 < envid)
    (hok : forkAfter L envid s = .ok v s') :
    v = envid ∧ ∃ s1 f dups, s1.cur = s.cur ∧ (∀ id, s1.status id = s.status id) ∧
      s1.log = s.log ++ dups ∧
      (∀ c ∈ dups, c.ret = 0 ∧ (c.isPageMap = true ∨ c.isDuppage = true)) ∧
      dupCalls dups = presentPages L s envid ∧
      s1.freshFrame = some f ∧ (s1.env envid).isSome ∧ s' = forkDone L s1 envid f := by
  unfold forkAfter at hok
  rw [if_neg (by omega), if_neg (by omega)] at hok
  obtain ⟨lok, -, -⟩ := forkLoop_fork L hL envid s
  cases hloop : forkLoop L envid (L.USTACKTOP + 1) 0 s with
  | timeout => rw [hloop] at hok; cases hok
  | panic s1 => rw [hloop] at hok; cases hok
  | ok u s1 =>
    rw [hloop] at hok
    dsimp only at hok
    obtain ⟨hc1, hst1, dups, hl1, hdups, hdc⟩ := lok s1 hloop
    cases hr2 : sys_page_alloc L s1 envid (L.UXSTACKTOP - L.PGSIZE)
        (L.PTE_U ||| L.PTE_W ||| L.PTE_P) with
    | mk r2 s2 =>
    rw [hr2] at hok
    dsimp only at hok
    rcases sys_page_alloc_spec hr2 with ⟨rfl, f, he2, hf, hs2⟩ | ⟨hneg, -⟩
    · simp only [ne_eq, not_true_eq_false, if_false] at hok
      rw [resolve_pos _ _ hpos] at he2 hs2
      cases hr3 : sys_env_set_pgfault_upcall s2 envid L.pgfault_upcall with
      | mk r3 s3 =>
      rw [hr3] at hok
      dsimp only at hok
      rcases sys_env_set_pgfault_upcall_spec hr3 with ⟨rfl, he3, hs3⟩ | ⟨hneg, -⟩
      · simp only [ne_eq, not_true_eq_false, if_false] at hok
        rw [resolve_pos _ _ hpos] at hs3
        cases hr4 : sys_env_set_status s3 envid L.ENV_RUNNABLE with
        | mk r4 s4 =>
        rw [hr4] at hok
        dsimp only at hok
        rcases sys_env_set_status_spec hr4 with ⟨rfl, he4, hs4⟩ | ⟨hneg, -⟩
        · simp only [ne_eq, not_true_eq_false, if_false, Result.ok.injEq] at hok
          rw [resolve_pos _ _ hpos] at hs4
          obtain ⟨rfl, rfl⟩ := hok
          refine ⟨rfl, s1, f, dups, hc1, hst1, hl1, hdups, hdc, hf, he2, ?_⟩
          rw [hs4, hs3, hs2]
          rfl
        · have : r4 ≠ 0 := by omega
          simp [this] at hok
      · have : r3 ≠ 0 := by omega
        simp [this] at hok
    · have : r2 ≠ 0 := by omega
      simp [this] at hok

theorem forkAfter_panic (L : Layout) (hL : L.OK) (envid : Int) (s s' : State) (hpos : 0 < envid)
    (hp : forkAfter L envid s = .panic s') :
    s'.cur = s.cur ∧ (∀ id, s'.status id = s.status id) ∧
    ∃ pre c, s'.log = s.log ++ (pre ++ [c]) ∧
      (∀ c' ∈ pre, c'.ret = 0 ∧ c'.isSetStatus = false) ∧ c.ret < 0 ∧
      ∃ rest, presentPages L s envid = dupCalls (pre ++ [c]) ++ rest := by
  unfold forkAfter at hp
  rw [if_neg (by omega), if_neg (by omega)] at hp
  obtain ⟨lok, lpanic, -⟩ := forkLoop_fork L hL envid s
  cases hloop : forkLoop L envid (L.USTACKTOP + 1) 0 s with
  | timeout => rw [hloop] at hp; cases hp
  | panic s1 =>
    rw [hloop] at hp
    obtain ⟨hc1, hst1, pre, c, hl1, hpre, hneg, hmap, rest, hrest⟩ := lpanic s1 hloop
    cases hp
    exact ⟨hc1, hst1, pre, c, hl1,
      fun c' hc' => ⟨(hpre c' hc').1, isSetStatus_of_dup c' (hpre c' hc').2⟩, hneg, rest, hrest⟩
  | ok u s1 =>
    rw [hloop] at hp
    dsimp only at hp
    obtain ⟨hc1, hst1, dups, hl1, hdups, hdc⟩ := lok s1 hloop
    have hdups' : ∀ c' ∈ dups, c'.ret = 0 ∧ c'.isSetStatus = false :=
      fun c' hc' => ⟨(hdups c' hc').1, isSetStatus_of_dup c' (hdups c' hc').2⟩
    cases hr2 : sys_page_alloc L s1 envid (L.UXSTACKTOP - L.PGSIZE)
        (L.PTE_U ||| L.PTE_W ||| L.PTE_P) with
    | mk r2 s2 =>
    rw [hr2] at hp
    dsimp only at hp
    rcases sys_page_alloc_spec hr2 with ⟨rfl, f, he2, hf, hs2⟩ | ⟨hneg, hs2⟩
    · simp only [ne_eq, not_true_eq_false, if_false] at hp
      have hc2 : s2.cur = s.cur := by rw [hs2, cur_record, cur_install, hc1]
      have hst2 : ∀ id, s2.status id = s.status id := by
        intro id; rw [hs2, status_record, status_install, hst1]
      have hl2 : s2.log = s.log ++ (dups ++ [.page_alloc envid (L.UXSTACKTOP - L.PGSIZE)
          (L.PTE_U ||| L.PTE_W ||| L.PTE_P) 0]) := by
        rw [hs2, log_record, log_install, hl1, List.append_assoc]
      cases hr3 : sys_env_set_pgfault_upcall s2 envid L.pgfault_upcall with
      | mk r3 s3 =>
      rw [hr3] at hp
      dsimp only at hp
      rcases sys_env_set_pgfault_upcall_spec hr3 with ⟨rfl, he3, hs3⟩ | ⟨hneg, hs3⟩
      · simp only [ne_eq, not_true_eq_false, if_false] at hp
        have hc3 : s3.cur = s.cur := by rw [hs3, cur_record, cur_setUpcall, hc2]
        have hst3 : ∀ id, s3.status id = s.status id := by
          intro id; rw [hs3, status_record, status_setUpcall, hst2]
        have hl3 : s3.log = s.log ++ (dups ++ [.page_alloc envid (L.UXSTACKTOP - L.PGSIZE)
            (L.PTE_U ||| L.PTE_W ||| L.PTE_P) 0,
            .set_pgfault_upcall envid L.pgfault_upcall 0]) := by
          rw [hs3, log_record, log_setUpcall, hl2]
          simp
        cases hr4 : sys_env_set_status s3 envid L.ENV_RUNNABLE with
        | mk r4 s4 =>
        rw [hr4] at hp
        dsimp only at hp
        rcases sys_env_set_status_spec hr4 with ⟨rfl, he4, hs4⟩ | ⟨hneg, hs4⟩
        · simp at hp
        · have : r4 ≠ 0 := by omega
          simp only [ne_eq, this, not_false_eq_true, if_true, Result.panic.injEq] at hp
          subst hp
          refine ⟨by rw [hs4, cur_record, hc3], fun id => by rw [hs4, status_record, hst3],
            dups ++ [.page_alloc envid (L.UXSTACKTOP - L.PGSIZE)
              (L.PTE_U ||| L.PTE_W ||| L.PTE_P) 0, .set_pgfault_upcall envid L.pgfault_upcall 0],
            .set_status envid L.ENV_RUNNABLE r4, ?_, ?_, hneg, [], ?_⟩
          · rw [hs4, log_record, hl3]; simp
          · intro c' hc'
            rcases List.mem_append.mp hc' with hc' | hc'
            · exact hdups' c' hc'
            · simp only [List.mem_cons, List.mem_singleton, List.not_mem_nil, or_false] at hc'
              rcases hc' with rfl | rfl <;> exact ⟨rfl, rfl⟩
          · simp [dupCalls_append, dupCalls, hdc]
      · have : r3 ≠ 0 := by omega
        simp only [ne_eq, this, not_false_eq_true, if_true, Result.panic.injEq] at hp
        subst hp
        refine ⟨by rw [hs3, cur_record, hc2], fun id => by rw [hs3, status_record, hst2],
          dups ++ [.page_alloc envid (L.UXSTACKTOP - L.PGSIZE)
            (L.PTE_U ||| L.PTE_W ||| L.PTE_P) 0],
          .set_pgfault_upcall envid L.pgfault_upcall r3, ?_, ?_, hneg, [], ?_⟩
        · rw [hs3, log_record, hl2]; simp
        · intro c' hc'
          rcases List.mem_append.mp hc' with hc' | hc'
          · exact hdups' c' hc'
          · simp only [List.mem_singleton] at hc'
            subst hc'
            exact ⟨rfl, rfl⟩
        · simp [dupCalls_append, dupCalls, hdc]
    · have : r2 ≠ 0 := by omega
      simp only [ne_eq, this, not_false_eq_true, if_true, Result.panic.injEq] at hp
      subst hp
      refine ⟨by rw [hs2, cur_record, hc1], fun id => by rw [hs2, status_record, hst1],
        dups, .page_alloc envid (L.UXSTACKTOP - L.PGSIZE) (L.PTE_U ||| L.PTE_W ||| L.PTE_P) r2,
        ?_, hdups', hneg, [], ?_⟩
      · rw [hs2, log_record, hl1, List.append_assoc]
      · simp [dupCalls_append, dupCalls, hdc]

theorem forkAfter_ne_timeout (L : Layout) (hL : L.OK) (envid : Int) (s : State) :
    forkAfter L envid s ≠ .timeout := by
  unfold forkAfter
  obtain ⟨-, -, ltime⟩ := forkLoop_fork L hL envid s
  split
  · intro h; cases h
  · split
    · intro h; cases h
    · cases hloop : forkLoop L envid (L.USTACKTOP + 1) 0 s with
      | timeout => exact absurd hloop ltime
      | panic s1 => intro h; cases h
      | ok u s1 =>
        dsimp only
        repeat' split
        all_goals (intro h; cases h)

/-! ### Process creation -/

theorem tget_append_new {κ α : Type} [DecidableEq κ] (t : List (κ × α)) (k k' : κ) (v : α) :
    tget (t ++ [(k, v)]) k' =
      match tget t k' with
      | some x => some x
      | none => if k = k' then some v else none := by
  induction t with
  | nil => simp [tget]
  | cons p r ih =>
    obtain ⟨a, w⟩ := p
    by_cases ha : a = k'
    · simp [tget, ha]
    · simp only [List.cons_append, tget, ha, if_false]
      exact ih

theorem env_spawn (s : State) (id id' : Int) (e : Env) (hnew : s.env id = none) :
    (s.spawn id e).env id' = if id' = id then some e else s.env id' := by
  unfold State.env State.spawn at *
  rw [tget_append_new]
  by_cases h : id' = id
  · subst h; rw [hnew]
  · have h' : ¬ id = id' := fun x => h x.symm
    cases tget s.envs id' <;> simp [h, h']

theorem status_spawn (s : State) (id id' : Int) (e : Env) (hnew : s.env id = none) :
    (s.spawn id e).status id' = if id' = id then some e.status else s.status id' := by
  unfold State.status
  rw [env_spawn s id id' e hnew]
  split <;> rfl

theorem mapping_spawn (s : State) (id id' : Int) (e : Env) (pn : Nat) (hnew : s.env id = none)
    (he : e.pgtbl = []) : (s.spawn id e).mapping id' pn = s.mapping id' pn := by
  unfold State.mapping
  rw [env_spawn s id id' e hnew]
  by_cases h : id' = id
  · subst h; rw [if_pos rfl, hnew]; simp [he, tget]
  · rw [if_neg h]

theorem uvpd_spawn (L : Layout) (s : State) (id : Int) (e : Env) (i : Nat)
    (hnew : s.env id = none) (hne : id ≠ s.cur) : uvpd L (s.spawn id e) i = uvpd L s i := by
  unfold uvpd
  have : (s.spawn id e).cur = s.cur := rfl
  rw [this, env_spawn s id s.cur e hnew, if_neg (fun h => hne h.symm)]

theorem sys_exofork_spec {L : Layout} {s s1 : State} {r : Int}
    (h : sys_exofork L s = (r, s1)) :
    (0 < r ∧ r ≠ s.cur ∧ s.env r = none ∧
        s1 = (s.spawn r ⟨L.ENV_NOT_RUNNABLE, 0, [], []⟩).record (.exofork r)) ∨
    (r < 0 ∧ s1 = s.record (.exofork r)) := by
  unfold sys_exofork at h
  cases hf : s.freshEnv with
  | none =>
    rw [hf] at h
    obtain ⟨h1, h2⟩ := Prod.mk.inj h
    right
    subst h1
    exact ⟨by decide, h2.symm⟩
  | some i =>
    rw [hf] at h
    obtain ⟨h1, h2⟩ := Prod.mk.inj h
    left
    have hp := List.find?_some hf
    simp only [ne_eq, Bool.and_eq_true, decide_eq_true_eq, Option.isNone_iff_eq_none] at hp
    subst h1
    exact ⟨by omega, hp.1, hp.2, h2.symm⟩

theorem present_exofork (L : Layout) (s : State) (r : Int) (e : Env) (c2 : Call) (pn : Nat)
    (hnew : (set_pgfault_handler s).env r = none) (hne : r ≠ s.cur) (he : e.pgtbl = []) :
    present L (((set_pgfault_handler s).spawn r e).record c2) pn ↔ present L s pn := by
  have h1 : ∀ i, uvpd L (((set_pgfault_handler s).spawn r e).record c2) i = uvpd L s i := by
    intro i
    rw [uvpd_record, uvpd_spawn L _ r e i hnew hne]
    rfl
  have h2 : (((set_pgfault_handler s).spawn r e).record c2).mapping s.cur pn =
      s.mapping s.cur pn := by
    rw [mapping_record, mapping_spawn _ r _ e pn hnew he]
    rfl
  exact present_congr L s _ pn h1 rfl h2

theorem presentPages_congr (L : Layout) (s s1 : State) (envid : Int)
    (h : ∀ pn, present L s1 pn ↔ present L s pn) :
    presentPages L s1 envid = presentPages L s envid := by
  unfold presentPages
  rw [filter_present_congr L s s1 _ (fun j _ => h j)]

/-! ### The states fork passes through -/

theorem log_forkReady (L : Layout) (s1 : State) (envid : Int) (f : Nat) :
    (forkReady L s1 envid f).log = s1.log ++
      [.page_alloc envid (L.UXSTACKTOP - L.PGSIZE) (L.PTE_U ||| L.PTE_W ||| L.PTE_P) 0,
       .set_pgfault_upcall envid L.pgfault_upcall 0] := by
  unfold forkReady
  simp [log_record, log_setUpcall, log_install]

theorem status_forkReady (L : Layout) (s1 : State) (envid id : Int) (f : Nat) :
    (forkReady L s1 envid f).status id = s1.status id := by
  unfold forkReady
  simp only [status_record, status_setUpcall, status_install]

theorem mapping_forkReady (L : Layout) (s1 : State) (envid id : Int) (f pn : Nat)
    (he : (s1.env envid).isSome) :
    (forkReady L s1 envid f).mapping id pn =
      if id = envid ∧ pn = PGNUM L (L.UXSTACKTOP - L.PGSIZE) then
        some ⟨f, L.PTE_U ||| L.PTE_W ||| L.PTE_P⟩
      else s1.mapping id pn := by
  unfold forkReady
  simp only [mapping_record, mapping_setUpcall, mapping_install, he, and_true]

theorem upcall_forkReady (L : Layout) (s1 : State) (envid : Int) (f : Nat)
    (he : (s1.env envid).isSome) :
    (forkReady L s1 envid f).upcall envid = some L.pgfault_upcall := by
  unfold forkReady State.upcall State.setUpcall State.install State.record State.env at *
  simp only [tget_tmod, if_true]
  cases h : tget s1.envs envid with
  | none => simp [h] at he
  | some e => simp

theorem env_isSome_forkReady (L : Layout) (s1 : State) (envid id : Int) (f : Nat) :
    ((forkReady L s1 envid f).env id).isSome = (s1.env id).isSome := by
  unfold forkReady
  simp only [env_record, env_isSome_setUpcall, env_isSome_install]

theorem forkDone_eq (L : Layout) (s1 : State) (envid : Int) (f : Nat) (hpos : 0 < envid)
    (he : (s1.env envid).isSome) :
    sys_env_set_status (forkReady L s1 envid f) envid L.ENV_RUNNABLE =
      (0, forkDone L s1 envid f) := by
  have h1 := env_isSome_forkReady L s1 envid envid f
  rw [he] at h1
  unfold sys_env_set_status
  rw [resolve_pos _ _ hpos]
  cases h2 : (forkReady L s1 envid f).env envid with
  | none => rw [h2] at h1; cases h1
  | some e => simp only [h2]; rfl

theorem fork_ok (L : Layout) (hL : L.OK) (s s' : State) (v : Int) (hok : fork L s = .ok v s') :
    0 < v ∧ v ≠ s.cur ∧ s.env v = none ∧ ∃ s1 f dups,
      s1.cur = s.cur ∧ s1.status v = some L.ENV_NOT_RUNNABLE ∧
      (∀ id, id ≠ v → s1.status id = s.status id) ∧
      s1.log = s.log ++ [.set_pgfault_handler, .exofork v] ++ dups ∧
      (∀ c ∈ dups, c.ret = 0 ∧ (c.isPageMap = true ∨ c.isDuppage = true)) ∧
      dupCalls dups = presentPages L s v ∧
      s1.freshFrame = some f ∧ (s1.env v).isSome ∧ s' = forkDone L s1 v f := by
  unfold fork at hok
  cases hx : sys_exofork L (set_pgfault_handler s) with
  | mk r sx =>
  rw [hx] at hok
  dsimp only at hok
  rcases sys_exofork_spec hx with ⟨hpos, hne, hnew, hsx⟩ | ⟨hneg, -⟩
  · obtain ⟨rfl, s1, f, dups, hc1, hst1, hl1, hdups, hdc, hf, he, hs'⟩ :=
      forkAfter_ok L hL r v sx s' hpos hok
    have hne' : v ≠ s.cur := hne
    have hnew' : s.env v = none := hnew
    refine ⟨hpos, hne', hnew', s1, f, dups, ?_, ?_, ?_, ?_, hdups, ?_, hf, he, hs'⟩
    · rw [hc1, hsx]; rfl
    · rw [hst1, hsx, status_record, status_spawn _ _ _ _ hnew, if_pos rfl]
    · intro id hid
      rw [hst1, hsx, status_record, status_spawn _ _ _ _ hnew, if_neg hid]
      rfl
    · rw [hl1, hsx]
      simp [log_record, State.spawn, set_pgfault_handler, State.record]
    · rw [hdc]
      apply presentPages_congr
      intro pn
      rw [hsx]
      exact present_exofork L s v _ _ pn hnew hne rfl
  · unfold forkAfter at hok
    rw [if_pos hneg] at hok
    cases hok

theorem fork_panic (L : Layout) (hL : L.OK) (s s' : State) (hp : fork L s = .panic s') :
    s'.cur = s.cur ∧
    (∀ id, s'.status id = s.status id ∨
      (s.status id = none ∧ s'.status id = some L.ENV_NOT_RUNNABLE)) ∧
    ∃ pre c, s'.log = s.log ++ (pre ++ [c]) ∧
      (∀ c' ∈ pre, 0 ≤ c'.ret ∧ c'.isSetStatus = false) ∧ c.ret < 0 := by
  unfold fork at hp
  cases hx : sys_exofork L (set_pgfault_handler s) with
  | mk r sx =>
  rw [hx] at hp
  dsimp only at hp
  rcases sys_exofork_spec hx with ⟨hpos, hne, hnew, hsx⟩ | ⟨hneg, hsx⟩
  · obtain ⟨hc1, hst1, pre, c, hl1, hpre, hcneg, -⟩ := forkAfter_panic L hL r sx s' hpos hp
    refine ⟨by rw [hc1, hsx]; rfl, ?_, [.set_pgfault_handler, .exofork r] ++ pre, c, ?_, ?_, hcneg⟩
    · intro id
      rw [hst1, hsx, status_record, status_spawn _ _ _ _ hnew]
      by_cases hid : id = r
      · subst hid
        right
        have : s.status id = none := by
          have h : s.env id = none := hnew
          unfold State.status
          rw [h]
          rfl
        exact ⟨this, by rw [if_pos rfl]⟩
      · left
        rw [if_neg hid]
        rfl
    · rw [hl1, hsx]
      simp [log_record, State.spawn, set_pgfault_handler, State.record]
    · intro c' hc'
      rcases List.mem_append.mp hc' with hc' | hc'
      · simp only [List.mem_cons, List.mem_singleton, List.not_mem_nil, or_false] at hc'
        rcases hc' with rfl | rfl
        · exact ⟨le_refl _, rfl⟩
        · exact ⟨by simp only [Call.ret]; omega, rfl⟩
      · exact ⟨by rw [(hpre c' hc').1], (hpre c' hc').2⟩
  · unfold forkAfter at hp
    rw [if_pos hneg] at hp
    cases hp
    refine ⟨by rw [hsx]; rfl, fun id => Or.inl (by rw [hsx]; rfl), [.set_pgfault_handler],
      .exofork r, by rw [hsx]; simp [set_pgfault_handler, State.record], ?_, hneg⟩
    intro c' hc'
    simp only [List.mem_singleton] at hc'
    subst hc'
    exact ⟨le_refl _, rfl⟩

theorem fork_ne_timeout (L : Layout) (hL : L.OK) (s : State) : fork L s ≠ .timeout := by
  unfold fork
  cases hx : sys_exofork L (set_pgfault_handler s) with
  | mk r sx => exact forkAfter_ne_timeout L hL r sx

theorem or_and_ne_zero_left (a b c : Nat) (h : a &&& c ≠ 0) : (a ||| b) &&& c ≠ 0 := by
  intro h0
  apply h
  apply Nat.eq_of_testBit_eq
  intro i
  have := congrArg (fun x => Nat.testBit x i) h0
  simp only [Nat.testBit_and, Nat.testBit_or, Nat.zero_testBit] at this ⊢
  cases hai : a.testBit i <;> cases hci : c.testBit i <;> simp_all

theorem perm_uwp_writable (L : Layout) (hL : L.OK) :
    (L.PTE_U ||| L.PTE_W ||| L.PTE_P) &&& L.PTE_W ≠ 0 :=
  or_and_ne_zero_left _ _ _ (and_or_ne_zero_right _ _ hL.2.2.2.2.2.2.2.2.2.1)

theorem perm_uwp_not_cow (L : Layout) (hL : L.OK) :
    (L.PTE_U ||| L.PTE_W ||| L.PTE_P) &&& PTE_COW = 0 := by
  obtain ⟨-, -, -, -, -, -, -, -, -, -, -, -, -, -, -, -, -, -, -, hPC, hWC, hUC, -⟩ := hL
  exact or_and_eq_zero _ _ _ (or_and_eq_zero _ _ _ hUC hWC) hPC

theorem mapping_forkDone (L : Layout) (s1 : State) (envid id : Int) (f pn : Nat)
    (he : (s1.env envid).isSome) :
    (forkDone L s1 envid f).mapping id pn =
      if id = envid ∧ pn = PGNUM L (L.UXSTACKTOP - L.PGSIZE) then
        some ⟨f, L.PTE_U ||| L.PTE_W ||| L.PTE_P⟩
      else s1.mapping id pn := by
  unfold forkDone
  rw [mapping_record, mapping_setStatus, mapping_forkReady L s1 envid id f pn he]

theorem log_forkDone (L : Layout) (s1 : State) (envid : Int) (f : Nat) :
    (forkDone L s1 envid f).log = s1.log ++
      [.page_alloc envid (L.UXSTACKTOP - L.PGSIZE) (L.PTE_U ||| L.PTE_W ||| L.PTE_P) 0,
       .set_pgfault_upcall envid L.pgfault_upcall 0,
       .set_status envid L.ENV_RUNNABLE 0] := by
  unfold forkDone
  rw [log_record, log_setStatus, log_forkReady]
  simp

theorem status_forkDone (L : Layout) (s1 : State) (envid : Int) (f : Nat)
    (he : (s1.env envid).isSome) :
    (forkDone L s1 envid f).status envid = some L.ENV_RUNNABLE := by
  unfold forkDone
  rw [status_record, status_setStatus, env_isSome_forkReady, he]
  simp

theorem mem_presentPages (L : Layout) (hL : L.OK) (s : State) (envid : Int) (p : Int × Nat) :
    p ∈ presentPages L s envid ↔
      p.1 = envid ∧ p.2 * L.PGSIZE < L.USTACKTOP ∧ present L s p.2 := by
  have hP : 0 < L.PGSIZE := hL.1
  have hN : L.USTACKTOP / L.PGSIZE * L.PGSIZE = L.USTACKTOP := Nat.div_mul_cancel hL.2.2.2.1
  have hlt : ∀ k, k * L.PGSIZE < L.USTACKTOP ↔ k < L.USTACKTOP / L.PGSIZE := by
    intro k
    have h := @Nat.mul_lt_mul_right L.PGSIZE k (L.USTACKTOP / L.PGSIZE) hP
    rw [hN] at h
    exact h
  unfold presentPages
  obtain ⟨e, pn⟩ := p
  simp only [List.mem_map, List.mem_filter, List.mem_range'_1, decide_eq_true_eq, Prod.mk.injEq,
    Nat.zero_le, true_and, Nat.zero_add]
  constructor
  · rintro ⟨a, ⟨ha, hp⟩, rfl, rfl⟩
    exact ⟨rfl, (hlt a).mpr ha, hp⟩
  · rintro ⟨rfl, h1, h2⟩
    exact ⟨pn, ⟨(hlt pn).mp h1, h2⟩, rfl, rfl⟩

theorem presentPages_ascending (L : Layout) (s : State) (envid : Int) :
    (presentPages L s envid).Pairwise (fun p q => p.2 < q.2) := by
  unfold presentPages
  apply List.Pairwise.map (R := fun a b => a < b)
  · intro a b h; exact h
  · exact List.Pairwise.filter _ (List.pairwise_lt_range' 0 _)

/-! ### sfork and duppage2 -/

theorem sys_page_alloc_keeps {L : Layout} {s s' : State} {envid r : Int} {va perm : Nat}
    (h : sys_page_alloc L s envid va perm = (r, s')) :
    s'.cur = s.cur ∧ ∀ id, s'.status id = s.status id := by
  rcases sys_page_alloc_spec h with ⟨-, f, -, -, rfl⟩ | ⟨-, rfl⟩
  · exact ⟨rfl, fun id => by rw [status_record, status_install]⟩
  · exact ⟨rfl, fun _ => rfl⟩

theorem sys_page_map_keeps {L : Layout} {s s' : State} {srcenv dstenv r : Int}
    {srcva dstva perm : Nat}
    (h : sys_page_map L s srcenv srcva dstenv dstva perm = (r, s')) :
    s'.cur = s.cur ∧ ∀ id, s'.status id = s.status id := by
  rcases sys_page_map_spec h with ⟨-, m, -, -, rfl⟩ | ⟨-, rfl⟩
  · exact ⟨rfl, fun id => by rw [status_record, status_install]⟩
  · exact ⟨rfl, fun _ => rfl⟩

theorem sys_page_unmap_keeps {L : Layout} {s s' : State} {envid r : Int} {va : Nat}
    (h : sys_page_unmap L s envid va = (r, s')) :
    s'.cur = s.cur ∧ ∀ id, s'.status id = s.status id := by
  rcases sys_page_unmap_spec h with ⟨-, -, rfl⟩ | ⟨-, rfl⟩
  · exact ⟨rfl, fun id => by rw [status_record, status_remove]⟩
  · exact ⟨rfl, fun _ => rfl⟩

theorem duppage2_spec (L : Layout) (s : State) (dstenv : Int) (addr : Nat) :
    (∀ s', duppage2 L s dstenv addr = .ok () s' →
      s'.cur = s.cur ∧ (∀ id, s'.status id = s.status id) ∧
      ∃ new, s'.log = s.log ++ new ∧ ∀ c ∈ new, c.ret = 0 ∧ c.isSetStatus = false) ∧
    (∀ s', duppage2 L s dstenv addr = .panic s' →
      s'.cur = s.cur ∧ (∀ id, s'.status id = s.status id) ∧
      ∃ pre c, s'.log = s.log ++ (pre ++ [c]) ∧
        (∀ c' ∈ pre, c'.ret = 0 ∧ c'.isSetStatus = false) ∧ c.ret < 0) ∧
    duppage2 L s dstenv addr ≠ .timeout := by
  unfold duppage2
  cases hr1 : sys_page_alloc L s dstenv addr (L.PTE_P ||| L.PTE_U ||| L.PTE_W) with
  | mk r1 s1 =>
  dsimp only
  obtain ⟨hl1, hle1⟩ := sys_page_alloc_log hr1
  obtain ⟨hc1, hst1⟩ := sys_page_alloc_keeps hr1
  by_cases h1 : r1 < 0
  · rw [if_pos h1]
    refine ⟨(by intro s' h; cases h), ?_, (by intro h; cases h)⟩
    intro s' h
    cases h
    exact ⟨hc1, hst1, [], .page_alloc dstenv addr (L.PTE_P ||| L.PTE_U ||| L.PTE_W) r1, hl1,
      (by intro c hc; cases hc), h1⟩
  · rw [if_neg h1]
    have h10 : r1 = 0 := by omega
    subst h10
    cases hr2 : sys_page_map L s1 dstenv addr 0 L.UTEMP (L.PTE_P ||| L.PTE_U ||| L.PTE_W) with
    | mk r2 s2 =>
    dsimp only
    obtain ⟨hl2, hle2⟩ := sys_page_map_log hr2
    obtain ⟨hc2, hst2⟩ := sys_page_map_keeps hr2
    by_cases h2 : r2 < 0
    · rw [if_pos h2]
      refine ⟨(by intro s' h; cases h), ?_, (by intro h; cases h)⟩
      intro s' h
      cases h
      refine ⟨by rw [hc2, hc1], fun id => by rw [hst2, hst1], [.page_alloc dstenv addr (L.PTE_P ||| L.PTE_U ||| L.PTE_W) 0],
        .page_map dstenv addr 0 L.UTEMP (L.PTE_P ||| L.PTE_U ||| L.PTE_W) r2, ?_, ?_, h2⟩
      · rw [hl2, hl1, List.append_assoc]
      · intro c hc
        rw [List.mem_singleton.mp hc]
        exact ⟨rfl, rfl⟩
    · rw [if_neg h2]
      have h20 : r2 = 0 := by omega
      subst h20
      cases hr3 : sys_page_unmap L (memmove L s2 L.UTEMP addr L.PGSIZE) 0 L.UTEMP with
      | mk r3 s4 =>
      dsimp only
      obtain ⟨hl3, hle3⟩ := sys_page_unmap_log hr3
      obtain ⟨hc3, hst3⟩ := sys_page_unmap_keeps hr3
      rw [log_memmove] at hl3
      rw [cur_memmove] at hc3
      have hst3' : ∀ id, s4.status id = s.status id := by
        intro id; rw [hst3, status_memmove, hst2, hst1]
      by_cases h3 : r3 < 0
      · rw [if_pos h3]
        refine ⟨(by intro s' h; cases h), ?_, (by intro h; cases h)⟩
        intro s' h
        cases h
        refine ⟨by rw [hc3, hc2, hc1], hst3', [.page_alloc dstenv addr (L.PTE_P ||| L.PTE_U ||| L.PTE_W) 0,
          .page_map dstenv addr 0 L.UTEMP (L.PTE_P ||| L.PTE_U ||| L.PTE_W) 0], .page_unmap 0 L.UTEMP r3, ?_, ?_, h3⟩
        · rw [hl3, hl2, hl1]; simp
        · intro c hc
          simp only [List.mem_cons, List.mem_singleton, List.not_mem_nil, or_false] at hc
          rcases hc with rfl | rfl <;> exact ⟨rfl, rfl⟩
      · rw [if_neg h3]
        have h30 : r3 = 0 := by omega
        subst h30
        refine ⟨?_, (by intro s' h; cases h), (by intro h; cases h)⟩
        intro s' h
        cases h
        refine ⟨by rw [hc3, hc2, hc1], hst3', [.page_alloc dstenv addr (L.PTE_P ||| L.PTE_U ||| L.PTE_W) 0,
          .page_map dstenv addr 0 L.UTEMP (L.PTE_P ||| L.PTE_U ||| L.PTE_W) 0, .page_unmap 0 L.UTEMP 0], ?_, ?_⟩
        · rw [hl3, hl2, hl1]; simp
        · intro c hc
          simp only [List.mem_cons, List.mem_singleton, List.not_mem_nil, or_false] at hc
          rcases hc with rfl | rfl | rfl <;> exact ⟨rfl, rfl⟩

theorem sforkLoop_spec (L : Layout) (hL : L.OK) (envid : Int) :
    ∀ fuel addr perm s, L.USTACKTOP - addr < fuel →
      (∀ p s', sforkLoop L envid fuel addr perm s = .ok p s' →
        s'.cur = s.cur ∧ (∀ id, s'.status id = s.status id) ∧
        ∃ new, s'.log = s.log ++ new ∧ ∀ c ∈ new, c.ret = 0 ∧ c.isSetStatus = false) ∧
      (∀ s', sforkLoop L envid fuel addr perm s = .panic s' →
        s'.cur = s.cur ∧ (∀ id, s'.status id = s.status id) ∧
        ∃ pre c, s'.log = s.log ++ (pre ++ [c]) ∧
          (∀ c' ∈ pre, c'.ret = 0 ∧ c'.isSetStatus = false) ∧ c.ret < 0) ∧
      sforkLoop L envid fuel addr perm s ≠ .timeout := by
  have hP : 0 < L.PGSIZE := hL.1
  have htop : L.USTACKTOP + L.PGSIZE ≤ 2 ^ 32 := by
    have h1 := hL.2.2.2.2.2.2.1
    have h2 := hL.2.2.2.2.2.2.2.1
    omega
  intro fuel
  induction fuel with
  | zero => intro addr perm s h; omega
  | succ fuel ih =>
    intro addr perm s hfuel
    rw [sforkLoop]
    by_cases haddr : addr < L.USTACKTOP - L.PGSIZE
    · rw [if_pos haddr]
      have hnext : u32 (addr + L.PGSIZE) = addr + L.PGSIZE := by
        unfold u32
        exact Nat.mod_eq_of_lt (by omega)
      rw [hnext]
      have hfuel' : L.USTACKTOP - (addr + L.PGSIZE) < fuel := by omega
      by_cases hg : uvpd L s (PDX L addr) &&& L.PTE_P ≠ 0 ∧ uvpt s (PGNUM L addr) &&& L.PTE_P ≠ 0
      · rw [if_pos hg]
        dsimp only
        generalize (if uvpt s (PGNUM L addr) &&& L.PTE_W ≠ 0 then u16 (perm ||| L.PTE_W)
          else perm) = perm1
        cases hr1 : sys_page_map L s 0 addr envid addr perm1 with
        | mk r1 s1 =>
        dsimp only
        obtain ⟨hl1, hle1⟩ := sys_page_map_log hr1
        obtain ⟨hc1, hst1⟩ := sys_page_map_keeps hr1
        by_cases h1 : r1 ≠ 0
        · rw [if_pos h1]
          refine ⟨(by intro p s' h; cases h), ?_, (by intro h; cases h)⟩
          intro s' h
          cases h
          exact ⟨hc1, hst1, [], .page_map 0 addr envid addr perm1 r1, hl1,
            (by intro c hc; cases hc), (by show r1 < 0; omega)⟩
        · rw [if_neg h1]
          have h10 : r1 = 0 := by omega
          subst h10
          by_cases hsh : uvpt s1 (PGNUM L addr) &&& L.PTE_SHARE = 0
          · rw [if_pos hsh]
            cases hr2 : sys_page_map L s1 0 addr 0 addr perm1 with
            | mk r2 s2 =>
            dsimp only
            obtain ⟨hl2, hle2⟩ := sys_page_map_log hr2
            obtain ⟨hc2, hst2⟩ := sys_page_map_keeps hr2
            by_cases h2 : r2 ≠ 0
            · rw [if_pos h2]
              refine ⟨(by intro p s' h; cases h), ?_, (by intro h; cases h)⟩
              intro s' h
              cases h
              refine ⟨by rw [hc2, hc1], fun id => by rw [hst2, hst1], [.page_map 0 addr envid addr perm1 0],
                .page_map 0 addr 0 addr perm1 r2, ?_, ?_, (by show r2 < 0; omega)⟩
              · rw [hl2, hl1, List.append_assoc]
              · intro c hc
                rw [List.mem_singleton.mp hc]
                exact ⟨rfl, rfl⟩
            · rw [if_neg h2]
              have h20 : r2 = 0 := by omega
              subst h20
              obtain ⟨iok, ipanic, itime⟩ := ih (addr + L.PGSIZE) perm1 s2 hfuel'
              refine ⟨?_, ?_, itime⟩
              · intro p s' h
                obtain ⟨hc3, hst3, new, hl3, hnew⟩ := iok p s' h
                refine ⟨by rw [hc3, hc2, hc1], fun id => by rw [hst3, hst2, hst1],
                  [.page_map 0 addr envid addr perm1 0, .page_map 0 addr 0 addr perm1 0] ++ new, ?_, ?_⟩
                · rw [hl3, hl2, hl1]; simp
                · intro c hc
                  rcases List.mem_append.mp hc with hc | hc
                  · simp only [List.mem_cons, List.mem_singleton, List.not_mem_nil,
                      or_false] at hc
                    rcases hc with rfl | rfl <;> exact ⟨rfl, rfl⟩
                  · exact hnew c hc
              · intro s' h
                obtain ⟨hc3, hst3, pre, c, hl3, hpre, hneg⟩ := ipanic s' h
                refine ⟨by rw [hc3, hc2, hc1], fun id => by rw [hst3, hst2, hst1],
                  [.page_map 0 addr envid addr perm1 0, .page_map 0 addr 0 addr perm1 0] ++ pre, c, ?_, ?_, hneg⟩
                · rw [hl3, hl2, hl1]; simp
                · intro c' hc
                  rcases List.mem_append.mp hc with hc | hc
                  · simp only [List.mem_cons, List.mem_singleton, List.not_mem_nil,
                      or_false] at hc
                    rcases hc with rfl | rfl <;> exact ⟨rfl, rfl⟩
                  · exact hpre c' hc
          · rw [if_neg hsh]
            obtain ⟨iok, ipanic, itime⟩ := ih (addr + L.PGSIZE) perm1 s1 hfuel'
            refine ⟨?_, ?_, itime⟩
            · intro p s' h
              obtain ⟨hc3, hst3, new, hl3, hnew⟩ := iok p s' h
              refine ⟨by rw [hc3, hc1], fun id => by rw [hst3, hst1], [.page_map 0 addr envid addr perm1 0] ++ new, ?_, ?_⟩
              · rw [hl3, hl1]; simp
              · intro c hc
                rcases List.mem_append.mp hc with hc | hc
                · rw [List.mem_singleton.mp hc]
                  exact ⟨rfl, rfl⟩
                · exact hnew c hc
            · intro s' h
              obtain ⟨hc3, hst3, pre, c, hl3, hpre, hneg⟩ := ipanic s' h
              refine ⟨by rw [hc3, hc1], fun id => by rw [hst3, hst1], [.page_map 0 addr envid addr perm1 0] ++ pre, c, ?_, ?_, hneg⟩
              · rw [hl3, hl1]; simp
              · intro c' hc
                rcases List.mem_append.mp hc with hc | hc
                · rw [List.mem_singleton.mp hc]
                  exact ⟨rfl, rfl⟩
                · exact hpre c' hc
      · rw [if_neg hg]
        exact ih (addr + L.PGSIZE) perm s hfuel'
    · rw [if_neg haddr]
      refine ⟨?_, (by intro s' h; cases h), (by intro h; cases h)⟩
      intro p s' h
      cases h
      exact ⟨rfl, fun _ => rfl, [], by simp, (by intro c hc; cases hc)⟩

theorem sys_env_set_status_keeps_cur {s s' : State} {envid r : Int} {status : Nat}
    (h : sys_env_set_status s envid status = (r, s')) : s'.cur = s.cur := by
  rcases sys_env_set_status_spec h with ⟨-, -, rfl⟩ | ⟨-, rfl⟩ <;> rfl

theorem sforkAfter_spec (L : Layout) (hL : L.OK) (envid : Int) (s : State) (hpos : 0 < envid) :
    (∀ v s', sforkAfter L envid s = .ok v s' →
      ∃ new, s'.log = s.log ++ new ∧ ∀ c ∈ new, c.ret = 0) ∧
    (∀ s', sforkAfter L envid s = .panic s' →
      s'.cur = s.cur ∧ (∀ id, s'.status id = s.status id) ∧
      ∃ pre c, s'.log = s.log ++ (pre ++ [c]) ∧
        (∀ c' ∈ pre, c'.ret = 0 ∧ c'.isSetStatus = false) ∧ c.ret < 0) ∧
    sforkAfter L envid s ≠ .timeout := by
  unfold sforkAfter
  rw [if_neg (by omega), if_neg (by omega)]
  obtain ⟨lok, lpanic, ltime⟩ := sforkLoop_spec L hL envid (L.USTACKTOP + 1) 0
    (u16 (L.PTE_SHARE ||| L.PTE_U ||| L.PTE_P)) s (by omega)
  cases hloop : sforkLoop L envid (L.USTACKTOP + 1) 0
      (u16 (L.PTE_SHARE ||| L.PTE_U ||| L.PTE_P)) s with
  | timeout => exact absurd hloop ltime
  | panic s1 =>
    dsimp only
    refine ⟨(by intro v s' h; cases h), ?_, (by intro h; cases h)⟩
    intro s' h
    obtain ⟨hc1, hst1, pre, c, hl1, hpre, hneg⟩ := lpanic s1 hloop
    cases h
    exact ⟨hc1, hst1, pre, c, hl1, hpre, hneg⟩
  | ok p s1 =>
    dsimp only
    obtain ⟨hc1, hst1, new1, hl1, hnew1⟩ := lok p s1 hloop
    obtain ⟨dok, dpanic, dtime⟩ := duppage2_spec L s1 envid (L.USTACKTOP - L.PGSIZE)
    cases hdup : duppage2 L s1 envid (L.USTACKTOP - L.PGSIZE) with
    | timeout => exact absurd hdup dtime
    | panic s2 =>
      dsimp only
      refine ⟨(by intro v s' h; cases h), ?_, (by intro h; cases h)⟩
      intro s' h
      obtain ⟨hc2, hst2, pre, c, hl2, hpre, hneg⟩ := dpanic s2 hdup
      cases h
      refine ⟨by rw [hc2, hc1], fun id => by rw [hst2, hst1], new1 ++ pre, c, ?_, ?_, hneg⟩
      · rw [hl2, hl1]; simp
      · intro c' hc'
        rcases List.mem_append.mp hc' with hc' | hc'
        · exact hnew1 c' hc'
        · exact hpre c' hc'
    | ok u s2 =>
      dsimp only
      obtain ⟨hc2, hst2, new2, hl2, hnew2⟩ := dok s2 hdup
      cases hr : sys_env_set_status s2 envid L.ENV_RUNNABLE with
      | mk r s3 =>
      dsimp only
      obtain ⟨hl3, hle3⟩ := sys_env_set_status_log hr
      by_cases h3 : r ≠ 0
      · rw [if_pos h3]
        refine ⟨(by intro v s' h; cases h), ?_, (by intro h; cases h)⟩
        intro s' h
        cases h
        rcases sys_env_set_status_spec hr with ⟨h0, -, -⟩ | ⟨hneg, hs3⟩
        · exact absurd h0 h3
        · refine ⟨by rw [hs3, cur_record, hc2, hc1],
            fun id => by rw [hs3, status_record, hst2, hst1],
            new1 ++ new2, .set_status envid L.ENV_RUNNABLE r, ?_, ?_, hneg⟩
          · rw [hl3, hl2, hl1]; simp
          · intro c' hc'
            rcases List.mem_append.mp hc' with hc' | hc'
            · exact hnew1 c' hc'
            · exact hnew2 c' hc'
      · rw [if_neg h3]
        have h30 : r = 0 := by omega
        subst h30
        refine ⟨?_, (by intro s' h; cases h), (by intro h; cases h)⟩
        intro v s' h
        cases h
        refine ⟨new1 ++ new2 ++ [.set_status envid L.ENV_RUNNABLE 0], ?_, ?_⟩
        · rw [hl3, hl2, hl1]; simp
        · intro c' hc'
          rcases List.mem_append.mp hc' with hc' | hc'
          · rcases List.mem_append.mp hc' with hc' | hc'
            · exact (hnew1 c' hc').1
            · exact (hnew2 c' hc').1
          · rw [List.mem_singleton.mp hc']
            rfl

theorem sfork_spec (L : Layout) (hL : L.OK) (s : State) :
    (∀ v s', sfork L s = .ok v s' →
      ∃ new, s'.log = s.log ++ new ∧ ∀ c ∈ new, 0 ≤ c.ret) ∧
    (∀ s', sfork L s = .panic s' →
      s'.cur = s.cur ∧
      (∀ id, s'.status id = s.status id ∨
        (s.status id = none ∧ s'.status id = some L.ENV_NOT_RUNNABLE)) ∧
      ∃ pre c, s'.log = s.log ++ (pre ++ [c]) ∧
        (∀ c' ∈ pre, 0 ≤ c'.ret ∧ c'.isSetStatus = false) ∧ c.ret < 0) ∧
    sfork L s ≠ .timeout := by
  unfold sfork
  cases hx : sys_exofork L s with
  | mk r sx =>
  dsimp only
  rcases sys_exofork_spec hx with ⟨hpos, hne, hnew, hsx⟩ | ⟨hneg, hsx⟩
  · obtain ⟨aok, apanic, atime⟩ := sforkAfter_spec L hL r sx hpos
    refine ⟨?_, ?_, atime⟩
    · intro v s' h
      obtain ⟨new, hl, hnew'⟩ := aok v s' h
      refine ⟨.exofork r :: new, ?_, ?_⟩
      · rw [hl, hsx]
        simp [log_record, State.spawn, State.record]
      · intro c hc
        rcases List.mem_cons.mp hc with rfl | hc
        · show 0 ≤ r; omega
        · rw [hnew' c hc]
    · intro s' h
      obtain ⟨hc1, hst1, pre, c, hl1, hpre, hcneg⟩ := apanic s' h
      refine ⟨by rw [hc1, hsx]; rfl, ?_, .exofork r :: pre, c, ?_, ?_, hcneg⟩
      · intro id
        rw [hst1, hsx, status_record, status_spawn _ _ _ _ hnew]
        by_cases hid : id = r
        · subst hid
          right
          have : s.status id = none := by
            unfold State.status
            rw [hnew]
            rfl
          exact ⟨this, by rw [if_pos rfl]⟩
        · left
          rw [if_neg hid]
      · rw [hl1, hsx]
        simp [log_record, State.spawn, State.record]
      · intro c' hc'
        rcases List.mem_cons.mp hc' with rfl | hc'
        · exact ⟨by show 0 ≤ r; omega, rfl⟩
        · exact ⟨by rw [(hpre c' hc').1], (hpre c' hc').2⟩
  · unfold sforkAfter
    rw [if_pos hneg]
    refine ⟨(by intro v s' h; cases h), ?_, (by intro h; cases h)⟩
    intro s' h
    cases h
    refine ⟨by rw [hsx]; rfl, fun id => Or.inl (by rw [hsx]; rfl), [], .exofork r,
      by rw [hsx]; rfl, (by intro c hc; cases hc), hneg⟩

/-! ## The monitor -/

theorem temp_sum_eq (i : Nat) : temp_sum i = 16 ^ i % 2 ^ 32 := by
  induction i with
  | zero => rfl
  | succ i ih =>
    show temp_sum i * 16 % 2 ^ 32 = _
    rw [ih, Nat.mod_mul_mod, show 16 ^ (i + 1) = 16 ^ i * 16 from pow_succ 16 i]

theorem coefficient_lt (c : Char) : coefficient c < 16 := by
  unfold coefficient
  have h0 : '0'.toNat = 48 := rfl
  have h9 : '9'.toNat = 57 := rfl
  have ha : 'a'.toNat = 97 := rfl
  have hf : 'f'.toNat = 102 := rfl
  have hA : 'A'.toNat = 65 := rfl
  have hF : 'F'.toNat = 70 := rfl
  rw [h0, h9, ha, hf, hA, hF]
  split_ifs <;> omega

theorem coefficient_other (c : Char)
    (h : ¬ (('0'.toNat ≤ c.toNat ∧ c.toNat ≤ '9'.toNat) ∨ ('a'.toNat ≤ c.toNat ∧ c.toNat ≤ 'f'.toNat) ∨
      ('A'.toNat ≤ c.toNat ∧ c.toNat ≤ 'F'.toNat))) : coefficient c = 0 := by
  unfold coefficient
  rw [if_neg (fun h1 => h (Or.inl h1)), if_neg (fun h1 => h (Or.inr (Or.inl h1))),
    if_neg (fun h1 => h (Or.inr (Or.inr h1)))]

/-- The accumulation loop of `mon_showmapping` run for `n` rounds over the
characters `rs`, last character first. -/
theorem showmapping_rounds (rs : List Char) (n : Nat) (hn : n ≤ rs.length) :
    (List.range n).foldl (fun va i => u32 (va + u32 (temp_sum i * coefficient (rs.getD i NUL)))) 0 =
      Nat.ofDigits 16 ((rs.take n).map coefficient) % 2 ^ 32 := by
  induction n with
  | zero => simp
  | succ n ih =>
    have hlt : n < rs.length := hn
    rw [List.range_succ, List.foldl_append, List.foldl_cons, List.foldl_nil, ih (Nat.le_of_lt hlt)]
    rw [← List.take_concat_get rs n hlt, List.concat_eq_append, List.map_append, Nat.ofDigits_append, List.map_cons,
      List.map_nil, Nat.ofDigits_singleton, List.length_map, List.length_take,
      Nat.min_eq_left (Nat.le_of_lt hlt), List.getD_eq_getElem rs NUL hlt, temp_sum_eq]
    unfold u32
    rw [Nat.mod_mul_mod, Nat.add_mod_mod, Nat.mod_add_mod]

theorem showmappingVa_eq (p0 p1 : Char) (ds : List Char) :
    showmappingVa (p0 :: p1 :: ds) = Nat.ofDigits 16 (ds.reverse.map coefficient) % 2 ^ 32 := by
  have key : ∀ i ∈ List.range ds.length,
      (p0 :: p1 :: ds).getD ((p0 :: p1 :: ds).length - i - 1) NUL = ds.reverse.getD i NUL := by
    intro i hi
    have hi' : i < ds.length := List.mem_range.mp hi
    have h1 : (p0 :: p1 :: ds).length - i - 1 = (ds.length - 1 - i) + 2 := by
      simp only [List.length_cons]; omega
    rw [h1]
    have h2 : ds.length - 1 - i < ds.length := by omega
    have h3 : i < ds.reverse.length := by rw [List.length_reverse]; exact hi'
    rw [List.getD_eq_getElem ds.reverse NUL h3, List.getElem_reverse h3]
    show ds.getD (ds.length - 1 - i) NUL = _
    rw [List.getD_eq_getElem ds NUL h2]
  have hfold : ∀ (l : List Nat) (a : Nat), (∀ i ∈ l, i ∈ List.range ds.length) →
      l.foldl (fun va i => u32 (va + u32 (temp_sum i *
        coefficient ((p0 :: p1 :: ds).getD ((p0 :: p1 :: ds).length - i - 1) NUL)))) a =
      l.foldl (fun va i => u32 (va + u32 (temp_sum i * coefficient (ds.reverse.getD i NUL)))) a := by
    intro l
    induction l with
    | nil => intro a _; rfl
    | cons x l ih =>
      intro a hl
      rw [List.foldl_cons, List.foldl_cons, key x (hl x (List.mem_cons_self _ _))]
      exact ih _ (fun i hi => hl i (List.mem_cons_of_mem _ hi))
  unfold showmappingVa
  have hlen : (p0 :: p1 :: ds).length - 2 = ds.length := by simp
  rw [hlen, hfold _ 0 (fun i hi => hi)]
  have h := showmapping_rounds ds.reverse ds.length (by rw [List.length_reverse])
  rw [h, ← List.length_reverse ds, List.take_length]

/-! ### One successful map-existing call on a page of the caller -/

theorem upcall_record (s : State) (c : Call) (id : Int) :
    (s.record c).upcall id = s.upcall id := rfl

theorem upcall_install (L : Layout) (s : State) (id id' : Int) (va : Nat) (m : Mapping) :
    (s.install L id va m).upcall id' = s.upcall id' := by
  unfold State.upcall State.env State.install
  simp only [tget_tmod]
  by_cases hid : id' = id
  · subst hid; cases tget s.envs id' <;> simp
  · simp [hid]

theorem upcall_remove (L : Layout) (s : State) (id id' : Int) (va : Nat) :
    (s.remove L id va).upcall id' = s.upcall id' := by
  unfold State.upcall State.env State.remove
  simp only [tget_tmod]
  by_cases hid : id' = id
  · subst hid; cases tget s.envs id' <;> simp
  · simp [hid]

theorem upcall_setStatus (s : State) (id id' : Int) (st : Nat) :
    (s.setStatus id st).upcall id' = s.upcall id' := by
  unfold State.upcall State.env State.setStatus
  simp only [tget_tmod]
  by_cases hid : id' = id
  · subst hid; cases tget s.envs id' <;> simp
  · simp [hid]

theorem upcall_memmove (L : Layout) (s : State) (dst src n : Nat) (id : Int) :
    (memmove L s dst src n).upcall id = s.upcall id := by
  unfold State.upcall
  rw [env_memmove]

theorem upcall_spawn (s : State) (id id' : Int) (e : Env) (hnew : s.env id = none) :
    (s.spawn id e).upcall id' = if id' = id then some e.upcall else s.upcall id' := by
  unfold State.upcall
  rw [env_spawn s id id' e hnew]
  split <;> rfl

theorem sharePerm_facts (L : Layout) (hL : L.OK) (q : Nat) (hq : sharePerm L q) :
    q < 2 ^ 12 ∧ q &&& L.PTE_SHARE ≠ 0 ∧ q &&& PTE_COW = 0 ∧ q &&& L.PTE_P ≠ 0 ∧
    q &&& L.PTE_U ≠ 0 := by
  obtain ⟨-, -, -, -, -, -, -, -, hP0, hW0, hU0, hS0, hP, hW, hU, hS, hPW, hPU, hWU, hPC, hWC, hUC,
    hPS, hWS, hUS, hSC, -⟩ := hL
  have hb : L.PTE_SHARE ||| L.PTE_U ||| L.PTE_P < 2 ^ 12 :=
    Nat.or_lt_two_pow (Nat.or_lt_two_pow hS hU) hP
  have hbc : (L.PTE_SHARE ||| L.PTE_U ||| L.PTE_P) &&& PTE_COW = 0 :=
    or_and_eq_zero _ _ _ (or_and_eq_zero _ _ _ hSC hUC) hPC
  have hbs : (L.PTE_SHARE ||| L.PTE_U ||| L.PTE_P) &&& L.PTE_SHARE ≠ 0 := by
    apply or_and_ne_zero_left
    apply or_and_ne_zero_left
    rw [Nat.and_self]; exact hS0
  have hbp : (L.PTE_SHARE ||| L.PTE_U ||| L.PTE_P) &&& L.PTE_P ≠ 0 :=
    and_or_ne_zero_right _ _ hP0
  have hbu : (L.PTE_SHARE ||| L.PTE_U ||| L.PTE_P) &&& L.PTE_U ≠ 0 := by
    apply or_and_ne_zero_left
    exact and_or_ne_zero_right _ _ hU0
  rcases hq with rfl | rfl
  · exact ⟨hb, hbs, hbc, hbp, hbu⟩
  · exact ⟨Nat.or_lt_two_pow hb hW, or_and_ne_zero_left _ _ _ hbs, or_and_eq_zero _ _ _ hbc hWC,
      or_and_ne_zero_left _ _ _ hbp, or_and_ne_zero_left _ _ _ hbu⟩

theorem sharePerm_step (L : Layout) (hL : L.OK) (q w : Nat) (hq : sharePerm L q) :
    sharePerm L (if w &&& L.PTE_W ≠ 0 then u16 (q ||| L.PTE_W) else q) := by
  split
  · have hlt : q ||| L.PTE_W < 2 ^ 12 :=
      Nat.or_lt_two_pow (sharePerm_facts L hL q hq).1 hL.2.2.2.2.2.2.2.2.2.2.2.2.2.1
    rw [u16_flags _ hlt]
    rcases hq with rfl | rfl
    · exact Or.inr rfl
    · right; rw [Nat.lor_assoc, Nat.or_self]
  · exact hq

theorem sharePerm_init (L : Layout) (hL : L.OK) :
    sharePerm L (u16 (L.PTE_SHARE ||| L.PTE_U ||| L.PTE_P)) := by
  have h : sharePerm L (L.PTE_SHARE ||| L.PTE_U ||| L.PTE_P) := Or.inl rfl
  rw [u16_flags _ (sharePerm_facts L hL _ h).1]
  exact h

/-- A map-existing call that maps page `k` of the caller at the same address
of process `dst` and returns 0. -/
theorem map_page_ok (L : Layout) (hL : L.OK) (s s1 : State) (dst : Int) (k q : Nat)
    (h : sys_page_map L s 0 (k * L.PGSIZE) dst (k * L.PGSIZE) q = (0, s1)) :
    ∃ m, s.mapping s.cur k = some m ∧ (s.env (s.resolve dst)).isSome ∧
      s1.cur = s.cur ∧ s1.mem = s.mem ∧ (∀ id, s1.upcall id = s.upcall id) ∧
      (∀ id, s1.status id = s.status id) ∧
      (∀ id, (s1.env id).isSome = (s.env id).isSome) ∧
      (s.resolve dst ≠ s.cur ∨ uvpd L s (PDX L (k * L.PGSIZE)) &&& L.PTE_P ≠ 0 →
        ∀ i, uvpd L s1 i = uvpd L s i) ∧
      (∀ id j, s1.mapping id j =
        if id = s.resolve dst ∧ j = k then some ⟨m.frame, q⟩ else s.mapping id j) ∧
      s1.log = s.log ++ [.page_map 0 (k * L.PGSIZE) dst (k * L.PGSIZE) q 0] := by
  have hP : 0 < L.PGSIZE := hL.1
  rcases sys_page_map_spec h with ⟨-, m, he, hm, hs1⟩ | ⟨hneg, -⟩
  · rw [resolve_zero, PGNUM_mul L hP] at hm
    refine ⟨m, hm, he, ?_, ?_, ?_, ?_, ?_, ?_, ?_, ?_⟩
    · rw [hs1]; rfl
    · rw [hs1]; rfl
    · intro id; rw [hs1, upcall_record, upcall_install]
    · intro id; rw [hs1, status_record, status_install]
    · intro id; rw [hs1, env_record, env_isSome_install]
    · intro hd i
      rw [hs1, uvpd_record, uvpd_install]
      split
      · rename_i hc
        rcases hd with hd | hd
        · exact absurd hc.1 hd
        · rw [hc.2.1, uvpd_of_present L s _ hd]
      · rfl
    · intro id j
      rw [hs1, mapping_record, mapping_install, PGNUM_mul L hP]
      simp only [he, and_true]
    · rw [hs1, log_record, log_install]
  · omega

/-! ### The page walk of sfork: what it maps -/

theorem uvpt_of_mapping (s : State) (pn : Nat) (m : Mapping) (h : s.mapping s.cur pn = some m) :
    uvpt s pn = m.perm := by
  unfold uvpt; rw [h]

/-- One round of the page walk of `sfork` on a present page, when the walk as
a whole succeeds. -/
theorem sforkLoop_step (L : Layout) (hL : L.OK) (envid : Int) (hpos : 0 < envid)
    (fuel k p : Nat) (s : State) (p' : Nat) (s' : State) (hne : envid ≠ s.cur)
    (hk : k * L.PGSIZE < L.USTACKTOP - L.PGSIZE) (hp : present L s k)
    (h : sforkLoop L envid (fuel + 1) (k * L.PGSIZE) p s = .ok p' s') :
    ∃ m s2, s.mapping s.cur k = some m ∧
      sforkLoop L envid fuel ((k + 1) * L.PGSIZE)
        (if m.perm &&& L.PTE_W ≠ 0 then u16 (p ||| L.PTE_W) else p) s2 = .ok p' s' ∧
      s2.cur = s.cur ∧ s2.mem = s.mem ∧ (∀ id, s2.upcall id = s.upcall id) ∧
      (∀ id, (s2.env id).isSome = (s.env id).isSome) ∧ (∀ i, uvpd L s2 i = uvpd L s i) ∧
      (∀ id j, s2.mapping id j =
        if j = k ∧ (id = envid ∨ (id = s.cur ∧ m.perm &&& L.PTE_SHARE = 0)) then
          some ⟨m.frame, if m.perm &&& L.PTE_W ≠ 0 then u16 (p ||| L.PTE_W) else p⟩
        else s.mapping id j) ∧
      ∃ new, s2.log = s.log ++ new ∧ ∀ c ∈ new, ∃ dst r,
        c = .page_map 0 (k * L.PGSIZE) dst (k * L.PGSIZE)
          (if m.perm &&& L.PTE_W ≠ 0 then u16 (p ||| L.PTE_W) else p) r := by
  have hP : 0 < L.PGSIZE := hL.1
  have htop : L.USTACKTOP ≤ 2 ^ 32 := by
    have h1 := hL.2.2.2.2.2.2.1
    have h2 := hL.2.2.2.2.2.2.2.1
    omega
  have hnext : u32 (k * L.PGSIZE + L.PGSIZE) = (k + 1) * L.PGSIZE := by
    unfold u32
    rw [Nat.mod_eq_of_lt (by omega), Nat.add_mul, Nat.one_mul]
  obtain ⟨m, hm, hmp⟩ := uvpt_ne_zero s k L.PTE_P hp.2
  have hp' : uvpd L s (PDX L (k * L.PGSIZE)) &&& L.PTE_P ≠ 0 ∧
      uvpt s (PGNUM L (k * L.PGSIZE)) &&& L.PTE_P ≠ 0 := by
    rw [PGNUM_mul L hP]; exact hp
  rw [sforkLoop, if_pos hk, if_pos hp', hnext, PGNUM_mul L hP, ← hmp] at h
  dsimp only at h
  cases hr1 : sys_page_map L s 0 (k * L.PGSIZE) envid (k * L.PGSIZE)
      (if m.perm &&& L.PTE_W ≠ 0 then u16 (p ||| L.PTE_W) else p) with
  | mk r1 s1 =>
  rw [hr1] at h
  dsimp only at h
  by_cases hr10 : r1 = 0
  · subst hr10
    rw [if_neg (by simp)] at h
    obtain ⟨m1, hm1, he1, hc1, hmem1, hup1, -, hen1, hd1, hmap1, hlog1⟩ :=
      map_page_ok L hL s s1 envid k _ hr1
    rw [resolve_pos _ _ hpos] at he1 hd1 hmap1
    rw [hm] at hm1
    cases hm1
    have hd1' := hd1 (Or.inl hne)
    have hs1k : s1.mapping s1.cur k = some m := by
      rw [hc1, hmap1, if_neg (fun hc => hne hc.1.symm), hm]
    rw [uvpt_of_mapping s1 k m hs1k] at h
    by_cases hsh : m.perm &&& L.PTE_SHARE = 0
    · rw [if_pos hsh] at h
      cases hr2 : sys_page_map L s1 0 (k * L.PGSIZE) 0 (k * L.PGSIZE)
          (if m.perm &&& L.PTE_W ≠ 0 then u16 (p ||| L.PTE_W) else p) with
      | mk r2 s2 =>
      rw [hr2] at h
      dsimp only at h
      by_cases hr20 : r2 = 0
      · subst hr20
        rw [if_neg (by simp)] at h
        obtain ⟨m2, hm2, he2, hc2, hmem2, hup2, -, hen2, hd2, hmap2, hlog2⟩ :=
          map_page_ok L hL s1 s2 0 k _ hr2
        rw [resolve_zero] at he2 hd2 hmap2
        rw [hs1k] at hm2
        cases hm2
        have hd2' := hd2 (Or.inr (by rw [hd1']; exact hp.1))
        refine ⟨m, s2, hm, h, by rw [hc2, hc1], by rw [hmem2, hmem1],
          fun id => by rw [hup2, hup1], fun id => by rw [hen2, hen1],
          fun i => by rw [hd2', hd1'], ?_, ?_⟩
        · intro id j
          rw [hmap2, hmap1, hc1]
          by_cases hj : j = k
          · by_cases hic : id = s.cur
            · simp [hj, hic, hsh]
            · by_cases hie : id = envid
              · simp [hj, hie, hne]
              · simp [hj, hic, hie]
          · simp [hj]
        · refine ⟨[.page_map 0 (k * L.PGSIZE) envid (k * L.PGSIZE)
              (if m.perm &&& L.PTE_W ≠ 0 then u16 (p ||| L.PTE_W) else p) 0,
            .page_map 0 (k * L.PGSIZE) 0 (k * L.PGSIZE)
              (if m.perm &&& L.PTE_W ≠ 0 then u16 (p ||| L.PTE_W) else p) 0], ?_, ?_⟩
          · rw [hlog2, hlog1, List.append_assoc]; rfl
          · intro c hc
            simp only [List.mem_cons, List.mem_singleton, List.not_mem_nil, or_false] at hc
            rcases hc with rfl | rfl
            · exact ⟨envid, 0, rfl⟩
            · exact ⟨0, 0, rfl⟩
      · rw [if_pos hr20] at h
        cases h
    · rw [if_neg hsh] at h
      refine ⟨m, s1, hm, h, hc1, hmem1, hup1, hen1, hd1', ?_, ?_⟩
      · intro id j
        rw [hmap1]
        by_cases hj : j = k
        · by_cases hie : id = envid
          · simp [hj, hie]
          · simp [hj, hie, hsh]
        · simp [hj]
      · refine ⟨[.page_map 0 (k * L.PGSIZE) envid (k * L.PGSIZE)
            (if m.perm &&& L.PTE_W ≠ 0 then u16 (p ||| L.PTE_W) else p) 0], hlog1, ?_⟩
        intro c hc
        simp only [List.mem_singleton] at hc
        exact ⟨envid, 0, hc⟩
  · rw [if_pos hr10] at h
    cases h

/-- What a successful page walk of `sfork` leaves behind: every present page
from page `k` up to the top stack page is mapped in the child with a sharing
permission, and in the parent too unless its entry was Shared already; nothing
else is touched. -/
theorem sforkLoop_maps (L : Layout) (hL : L.OK) (envid : Int) (hpos : 0 < envid) :
    ∀ fuel k p s p' s', envid ≠ s.cur → sharePerm L p →
      sforkLoop L envid fuel (k * L.PGSIZE) p s = .ok p' s' →
      s'.cur = s.cur ∧ s'.mem = s.mem ∧ sharePerm L p' ∧
      (∀ id, s'.upcall id = s.upcall id) ∧ (∀ id, (s'.env id).isSome = (s.env id).isSome) ∧
      (∀ i, uvpd L s' i = uvpd L s i) ∧
      (∀ id j, id ≠ s.cur → id ≠ envid → s'.mapping id j = s.mapping id j) ∧
      (∀ j, ¬ (k ≤ j ∧ j * L.PGSIZE < L.USTACKTOP - L.PGSIZE ∧ present L s j) →
        s'.mapping s.cur j = s.mapping s.cur j ∧ s'.mapping envid j = s.mapping envid j) ∧
      (∀ j, k ≤ j → j * L.PGSIZE < L.USTACKTOP - L.PGSIZE → present L s j →
        ∃ m q, s.mapping s.cur j = some m ∧ sharePerm L q ∧
          (m.perm &&& L.PTE_W ≠ 0 → q &&& L.PTE_W ≠ 0) ∧
          s'.mapping envid j = some ⟨m.frame, q⟩ ∧
          s'.mapping s.cur j =
            if m.perm &&& L.PTE_SHARE = 0 then some ⟨m.frame, q⟩ else some m) ∧
      ∃ new, s'.log = s.log ++ new ∧ ∀ c ∈ new, ∃ va dst q r,
        c = .page_map 0 va dst va q r ∧ va < L.USTACKTOP - L.PGSIZE ∧ sharePerm L q := by
  have hP : 0 < L.PGSIZE := hL.1
  have hW0 : L.PTE_W ≠ 0 := hL.2.2.2.2.2.2.2.2.2.1
  have htop : L.USTACKTOP ≤ 2 ^ 32 := by
    have h1 := hL.2.2.2.2.2.2.1
    have h2 := hL.2.2.2.2.2.2.2.1
    omega
  intro fuel
  induction fuel with
  | zero => intro k p s p' s' _ _ h; cases h
  | succ fuel ih =>
    intro k p s p' s' hne hq h
    by_cases hk : k * L.PGSIZE < L.USTACKTOP - L.PGSIZE
    · have hnext : u32 (k * L.PGSIZE + L.PGSIZE) = (k + 1) * L.PGSIZE := by
        unfold u32
        rw [Nat.mod_eq_of_lt (by omega), Nat.add_mul, Nat.one_mul]
      by_cases hp : present L s k
      · obtain ⟨m, s2, hm, hrec, hc2, hmem2, hup2, hen2, hd2, hmap2, new2, hlog2, hnew2⟩ :=
          sforkLoop_step L hL envid hpos fuel k p s p' s' hne hk hp h
        have hq2 := sharePerm_step L hL p m.perm hq
        obtain ⟨hc, hmem, hq', hup, hen, hd, hoth, hout, hin, new, hlog, hnew⟩ :=
          ih (k + 1) _ s2 p' s' (by rw [hc2]; exact hne) hq2 hrec
        have hpres : ∀ j, j ≠ k → (present L s2 j ↔ present L s j) := by
          intro j hj
          apply present_congr L s s2 j hd2 hc2
          rw [hmap2, if_neg (fun hc => hj hc.1)]
        refine ⟨by rw [hc, hc2], by rw [hmem, hmem2], hq', fun id => by rw [hup, hup2],
          fun id => by rw [hen, hen2], fun i => by rw [hd, hd2], ?_, ?_, ?_, ?_⟩
        · intro id j hic hie
          rw [hoth id j (by rw [hc2]; exact hic) hie, hmap2]
          simp [hic, hie]
        · intro j hj
          have hjk : j ≠ k := by
            intro hjk; subst hjk
            exact hj ⟨le_refl _, hk, hp⟩
          have hj2 : ¬ (k + 1 ≤ j ∧ j * L.PGSIZE < L.USTACKTOP - L.PGSIZE ∧ present L s2 j) := by
            intro hc3
            exact hj ⟨by omega, hc3.2.1, (hpres j hjk).mp hc3.2.2⟩
          have h3 := hout j hj2
          rw [hc2] at h3
          rw [h3.1, h3.2, hmap2, hmap2, if_neg (fun hc => hjk hc.1), if_neg (fun hc => hjk hc.1)]
          exact ⟨rfl, rfl⟩
        · intro j hkj hjt hpj
          by_cases hjk : j = k
          · subst hjk
            have h3 := hout j (by intro hc3; omega)
            rw [hc2] at h3
            refine ⟨m, _, hm, hq2, ?_, ?_, ?_⟩
            · intro hw
              rw [if_pos hw, u16_flags _ (Nat.or_lt_two_pow (sharePerm_facts L hL p hq).1
                hL.2.2.2.2.2.2.2.2.2.2.2.2.2.1)]
              exact and_or_ne_zero_right _ _ hW0
            · rw [h3.2, hmap2]; simp
            · rw [h3.1, hmap2]
              by_cases hsh : m.perm &&& L.PTE_SHARE = 0
              · simp [hsh]
              · have hne' : ¬ s.cur = envid := fun hc => hne hc.symm
                simp [hsh, hm, hne']
          · obtain ⟨m', q, hm', hq3, hw3, he3, hc3⟩ :=
              hin j (by omega) hjt ((hpres j hjk).mpr hpj)
            rw [hc2, hmap2, if_neg (fun hc => hjk hc.1)] at hm'
            rw [hc2] at hc3
            exact ⟨m', q, hm', hq3, hw3, he3, hc3⟩
        · refine ⟨new2 ++ new, by rw [hlog, hlog2, List.append_assoc], ?_⟩
          intro c hc'
          rcases List.mem_append.mp hc' with hc' | hc'
          · obtain ⟨dst, r, rfl⟩ := hnew2 c hc'
            exact ⟨_, dst, _, r, rfl, hk, hq2⟩
          · exact hnew c hc'
      · have hp' : ¬ (uvpd L s (PDX L (k * L.PGSIZE)) &&& L.PTE_P ≠ 0 ∧
            uvpt s (PGNUM L (k * L.PGSIZE)) &&& L.PTE_P ≠ 0) := by
          rw [PGNUM_mul L hP]; exact hp
        rw [sforkLoop, if_pos hk, if_neg hp', hnext] at h
        obtain ⟨hc, hmem, hq', hup, hen, hd, hoth, hout, hin, new, hlog, hnew⟩ :=
          ih (k + 1) p s p' s' hne hq h
        refine ⟨hc, hmem, hq', hup, hen, hd, hoth, ?_, ?_, new, hlog, hnew⟩
        · intro j hj
          apply hout
          intro hc3
          exact hj ⟨by omega, hc3.2⟩
        · intro j hkj hjt hpj
          have hjk : j ≠ k := by
            intro hjk; subst hjk; exact hp hpj
          exact hin j (by omega) hjt hpj
    · rw [sforkLoop, if_neg hk] at h
      cases h
      refine ⟨rfl, rfl, hq, fun _ => rfl, fun _ => rfl, fun _ => rfl, fun _ _ _ _ => rfl,
        fun _ _ => ⟨rfl, rfl⟩, ?_, [], by simp, ?_⟩
      · intro j hkj hjt _
        exfalso
        apply hk
        calc k * L.PGSIZE ≤ j * L.PGSIZE := Nat.mul_le_mul_right _ hkj
          _ < L.USTACKTOP - L.PGSIZE := hjt
      · intro c hc; cases hc

/-! ### duppage2 -/

theorem duppage2_ok (L : Layout) (s s' : State) (dstenv : Int) (addr : Nat)
    (h : duppage2 L s dstenv addr = .ok () s') :
    ∃ f, s.freshFrame = some f ∧ (s.env (s.resolve dstenv)).isSome ∧ (s.env s.cur).isSome ∧
      s' = duppage2Done L s dstenv addr f := by
  unfold duppage2 at h
  cases hr1 : sys_page_alloc L s dstenv addr (L.PTE_P ||| L.PTE_U ||| L.PTE_W) with
  | mk r1 s1 =>
  rw [hr1] at h
  dsimp only at h
  rcases sys_page_alloc_spec hr1 with ⟨rfl, f, he, hf, hs1⟩ | ⟨hneg, -⟩
  · have hc1 : s1.cur = s.cur := by rw [hs1]; rfl
    have hres1 : s1.resolve dstenv = s.resolve dstenv := by rw [hs1]; rfl
    simp only [lt_self_iff_false, if_false] at h
    cases hr2 : sys_page_map L s1 dstenv addr 0 L.UTEMP (L.PTE_P ||| L.PTE_U ||| L.PTE_W) with
    | mk r2 s2 =>
    rw [hr2] at h
    dsimp only at h
    rcases sys_page_map_spec hr2 with ⟨rfl, m, he2, hm, hs2⟩ | ⟨hneg, -⟩
    · rw [resolve_zero, hc1] at he2 hs2
      rw [hres1] at hm
      have hmf : m.frame = f := by
        rw [hs1, mapping_record, mapping_install] at hm
        simp only [he, and_self, if_true, Option.some.injEq] at hm
        rw [← hm]
      rw [hmf] at hs2
      have hc2 : s2.cur = s.cur := by rw [hs2, cur_record, cur_install, hc1]
      have he2' : (s.env s.cur).isSome := by
        rw [hs1, env_record, env_isSome_install] at he2
        exact he2
      simp only [lt_self_iff_false, if_false] at h
      cases hr3 : sys_page_unmap L (memmove L s2 L.UTEMP addr L.PGSIZE) 0 L.UTEMP with
      | mk r3 s4 =>
      rw [hr3] at h
      dsimp only at h
      rcases sys_page_unmap_spec hr3 with ⟨rfl, he3, hs4⟩ | ⟨hneg, -⟩
      · simp only [lt_self_iff_false, if_false, Result.ok.injEq, true_and] at h
        rw [resolve_memmove, resolve_zero, hc2] at hs4
        refine ⟨f, hf, he, he2', ?_⟩
        rw [← h, hs4, hs2, hs1]
        rfl
      · simp [hneg] at h
    · simp [hneg] at h
  · simp [hneg] at h

theorem cur_duppage2Done (L : Layout) (s : State) (dstenv : Int) (addr f : Nat) :
    (duppage2Done L s dstenv addr f).cur = s.cur := by
  unfold duppage2Done
  simp only [cur_record, cur_remove, cur_install, cur_memmove]

theorem log_duppage2Done (L : Layout) (s : State) (dstenv : Int) (addr f : Nat) :
    (duppage2Done L s dstenv addr f).log = s.log ++
      [.page_alloc dstenv addr (L.PTE_P ||| L.PTE_U ||| L.PTE_W) 0,
       .page_map dstenv addr 0 L.UTEMP (L.PTE_P ||| L.PTE_U ||| L.PTE_W) 0,
       .page_unmap 0 L.UTEMP 0] := by
  unfold duppage2Done
  simp only [log_record, log_remove, log_install, log_memmove, List.append_assoc,
    List.cons_append, List.nil_append]

theorem upcall_duppage2Done (L : Layout) (s : State) (dstenv : Int) (addr f : Nat) (id : Int) :
    (duppage2Done L s dstenv addr f).upcall id = s.upcall id := by
  unfold duppage2Done
  simp only [upcall_record, upcall_remove, upcall_install, upcall_memmove]

theorem status_duppage2Done (L : Layout) (s : State) (dstenv : Int) (addr f : Nat) (id : Int) :
    (duppage2Done L s dstenv addr f).status id = s.status id := by
  unfold duppage2Done
  simp only [status_record, status_remove, status_install, status_memmove]

theorem env_isSome_duppage2Done (L : Layout) (s : State) (dstenv : Int) (addr f : Nat)
    (id : Int) : ((duppage2Done L s dstenv addr f).env id).isSome = (s.env id).isSome := by
  unfold duppage2Done
  simp only [env_record, env_isSome_remove, env_isSome_install, env_memmove]

theorem mapping_duppage2Done (L : Layout) (s : State) (dstenv : Int) (addr f : Nat)
    (he : (s.env (s.resolve dstenv)).isSome) (hc : (s.env s.cur).isSome) (id : Int) (pn : Nat) :
    (duppage2Done L s dstenv addr f).mapping id pn =
      if id = s.cur ∧ pn = PGNUM L L.UTEMP then none
      else if id = s.resolve dstenv ∧ pn = PGNUM L addr then
        some ⟨f, L.PTE_P ||| L.PTE_U ||| L.PTE_W⟩
      else s.mapping id pn := by
  unfold duppage2Done
  simp only [mapping_record, mapping_remove, mapping_install, mapping_memmove, env_memmove,
    env_record, env_isSome_install, he, hc, and_true]
  by_cases h1 : id = s.cur ∧ pn = PGNUM L L.UTEMP
  · simp [h1]
  · simp only [h1, if_false]

theorem mem_duppage2Done (L : Layout) (hL : L.OK) (s : State) (dstenv : Int) (addr f : Nat)
    (m : Mapping) (he : (s.env (s.resolve dstenv)).isSome) (hc : (s.env s.cur).isSome)
    (hother : s.resolve dstenv ≠ s.cur) (hal : L.PGSIZE ∣ addr)
    (hne : PGNUM L addr ≠ PGNUM L L.UTEMP)
    (hm : s.mapping s.cur (PGNUM L addr) = some m) :
    (duppage2Done L s dstenv addr f).mem =
      fun fr o => if fr = f ∧ o < L.PGSIZE then s.mem m.frame o else s.mem fr o := by
  have hP : 0 < L.PGSIZE := hL.1
  have hut : L.PGSIZE ∣ L.UTEMP := hL.2.2.1
  have hother' : ¬ s.cur = s.resolve dstenv := fun h => hother h.symm
  have h := memmove_mem_page L
    (((s.install L (s.resolve dstenv) addr ⟨f, L.PTE_P ||| L.PTE_U ||| L.PTE_W⟩).record
        (.page_alloc dstenv addr (L.PTE_P ||| L.PTE_U ||| L.PTE_W) 0)).install L s.cur L.UTEMP
          ⟨f, L.PTE_P ||| L.PTE_U ||| L.PTE_W⟩ |>.record
        (.page_map dstenv addr 0 L.UTEMP (L.PTE_P ||| L.PTE_U ||| L.PTE_W) 0))
    L.UTEMP addr L.PGSIZE f m.frame
    (fun i hi => translate_page L hP _ L.UTEMP i ⟨f, L.PTE_P ||| L.PTE_U ||| L.PTE_W⟩ hut hi
      (by simp only [cur_record, cur_install, mapping_record, mapping_install, env_record,
            env_isSome_install, hc, and_self, if_true]))
    (fun i hi => translate_page L hP _ addr i m hal hi
      (by simp only [cur_record, cur_install, mapping_record, mapping_install, env_record,
            env_isSome_install, hc, he, and_true, hne, hother', true_and, false_and, if_false,
            hm]))
  unfold duppage2Done
  exact h

/-! ### A successful sfork -/

theorem sfork_ok_maps (L : Layout) (hL : L.OK) (s s' : State) (v : Int)
    (hok : sfork L s = .ok v s') :
    0 < v ∧ v ≠ s.cur ∧ s.env v = none ∧ ∃ s1 f,
      s1.cur = s.cur ∧ s1.mem = s.mem ∧
      (∀ id, s1.upcall id = if id = v then some 0 else s.upcall id) ∧
      (s1.env v).isSome ∧ (s1.env s.cur).isSome ∧
      (∀ id j, id ≠ s.cur → id ≠ v → s1.mapping id j = s.mapping id j) ∧
      (∀ j, ¬ (j * L.PGSIZE < L.USTACKTOP - L.PGSIZE ∧ present L s j) →
        s1.mapping s.cur j = s.mapping s.cur j ∧ s1.mapping v j = none) ∧
      (∀ j, j * L.PGSIZE < L.USTACKTOP - L.PGSIZE → present L s j →
        ∃ m q, s.mapping s.cur j = some m ∧ sharePerm L q ∧
          (m.perm &&& L.PTE_W ≠ 0 → q &&& L.PTE_W ≠ 0) ∧
          s1.mapping v j = some ⟨m.frame, q⟩ ∧
          s1.mapping s.cur j =
            if m.perm &&& L.PTE_SHARE = 0 then some ⟨m.frame, q⟩ else some m) ∧
      (∃ new, s1.log = s.log ++ .exofork v :: new ∧ ∀ c ∈ new, ∃ va dst q r,
        c = .page_map 0 va dst va q r ∧ va < L.USTACKTOP - L.PGSIZE ∧ sharePerm L q) ∧
      s1.freshFrame = some f ∧ s' = sforkDone L s1 v f := by
  unfold sfork at hok
  cases hx : sys_exofork L s with
  | mk r sx =>
  rw [hx] at hok
  dsimp only at hok
  rcases sys_exofork_spec hx with ⟨hpos, hne, hnew, hsx⟩ | ⟨hneg, hsx⟩
  · unfold sforkAfter at hok
    rw [if_neg (by omega), if_neg (by omega)] at hok
    have hcx : sx.cur = s.cur := by rw [hsx]; rfl
    have hmx : ∀ id j, sx.mapping id j = s.mapping id j := by
      intro id j
      rw [hsx, mapping_record, mapping_spawn _ _ _ _ _ hnew rfl]
    have hpx : ∀ j, present L sx j ↔ present L s j := by
      intro j
      apply present_congr L s sx j _ hcx (hmx _ _)
      intro i
      rw [hsx, uvpd_record, uvpd_spawn L _ _ _ _ hnew hne]
    cases hloop : sforkLoop L r (L.USTACKTOP + 1) 0 (u16 (L.PTE_SHARE ||| L.PTE_U ||| L.PTE_P))
        sx with
    | timeout => rw [hloop] at hok; cases hok
    | panic s1 => rw [hloop] at hok; cases hok
    | ok p s1 =>
      rw [hloop] at hok
      dsimp only at hok
      have hloop' : sforkLoop L r (L.USTACKTOP + 1) (0 * L.PGSIZE)
          (u16 (L.PTE_SHARE ||| L.PTE_U ||| L.PTE_P)) sx = .ok p s1 := by
        rw [Nat.zero_mul]; exact hloop
      obtain ⟨hc1, hmem1, -, hup1, hen1, -, hoth1, hout1, hin1, new1, hlog1, hnew1⟩ :=
        sforkLoop_maps L hL r hpos (L.USTACKTOP + 1) 0 _ sx p s1 (by rw [hcx]; exact hne)
          (sharePerm_init L hL) hloop'
      cases hdup : duppage2 L s1 r (L.USTACKTOP - L.PGSIZE) with
      | timeout => rw [hdup] at hok; cases hok
      | panic s2 => rw [hdup] at hok; cases hok
      | ok u s2 =>
        rw [hdup] at hok
        dsimp only at hok
        obtain ⟨f, hf, her, hec, hs2⟩ := duppage2_ok L s1 s2 r _ hdup
        rw [resolve_pos _ _ hpos] at her
        rw [hc1, hcx] at hec
        cases hst : sys_env_set_status s2 r L.ENV_RUNNABLE with
        | mk r3 s3 =>
        rw [hst] at hok
        dsimp only at hok
        rcases sys_env_set_status_spec hst with ⟨rfl, he3, hs3⟩ | ⟨hneg3, -⟩
        · simp only [ne_eq, not_true_eq_false, if_false, Result.ok.injEq] at hok
          obtain ⟨rfl, rfl⟩ := hok
          rw [resolve_pos _ _ hpos] at hs3
          refine ⟨hpos, hne, hnew, s1, f, by rw [hc1, hcx], by rw [hmem1, hsx]; rfl, ?_, her,
            hec, ?_, ?_, ?_, ?_, hf, ?_⟩
          · intro id
            rw [hup1, hsx, upcall_record, upcall_spawn _ _ _ _ hnew]
          · intro id j hic hie
            rw [hoth1 id j (by rw [hcx]; exact hic) hie, hmx]
          · intro j hj
            have h3 := hout1 j (by
              intro hc3
              exact hj ⟨hc3.2.1, (hpx j).mp hc3.2.2⟩)
            rw [hcx, hmx, hmx] at h3
            refine ⟨h3.1, ?_⟩
            rw [h3.2]
            unfold State.mapping
            rw [hnew]
          · intro j hjt hpj
            obtain ⟨m, q, hm, hq, hw, he, hc⟩ := hin1 j (Nat.zero_le _) hjt ((hpx j).mpr hpj)
            rw [hcx, hmx] at hm
            rw [hcx] at hc
            exact ⟨m, q, hm, hq, hw, he, hc⟩
          · refine ⟨new1, ?_, hnew1⟩
            rw [hlog1, hsx]
            simp [log_record, State.spawn, State.record]
          · rw [hs3, hs2]
            rfl
        · have : r3 ≠ 0 := by omega
          simp [this] at hok
  · unfold sforkAfter at hok
    rw [if_pos hneg] at hok
    cases hok

theorem cur_sforkDone (L : Layout) (s1 : State) (v : Int) (f : Nat) :
    (sforkDone L s1 v f).cur = s1.cur := by
  unfold sforkDone
  rw [cur_record, cur_setStatus, cur_duppage2Done]

theorem upcall_sforkDone (L : Layout) (s1 : State) (v : Int) (f : Nat) (id : Int) :
    (sforkDone L s1 v f).upcall id = s1.upcall id := by
  unfold sforkDone
  rw [upcall_record, upcall_setStatus, upcall_duppage2Done]

theorem status_sforkDone (L : Layout) (s1 : State) (v : Int) (f : Nat) (he : (s1.env v).isSome) :
    (sforkDone L s1 v f).status v = some L.ENV_RUNNABLE := by
  unfold sforkDone
  rw [status_record, status_setStatus, env_isSome_duppage2Done, he]
  simp

theorem mem_sforkDone (L : Layout) (s1 : State) (v : Int) (f : Nat) :
    (sforkDone L s1 v f).mem = (duppage2Done L s1 v (L.USTACKTOP - L.PGSIZE) f).mem := rfl

theorem log_sforkDone (L : Layout) (s1 : State) (v : Int) (f : Nat) :
    (sforkDone L s1 v f).log = s1.log ++
      [.page_alloc v (L.USTACKTOP - L.PGSIZE) (L.PTE_P ||| L.PTE_U ||| L.PTE_W) 0,
       .page_map v (L.USTACKTOP - L.PGSIZE) 0 L.UTEMP (L.PTE_P ||| L.PTE_U ||| L.PTE_W) 0,
       .page_unmap 0 L.UTEMP 0, .set_status v L.ENV_RUNNABLE 0] := by
  unfold sforkDone
  rw [log_record, log_setStatus, log_duppage2Done, List.append_assoc]
  rfl

theorem mapping_sforkDone (L : Layout) (s1 : State) (v : Int) (f : Nat) (hpos : 0 < v)
    (he : (s1.env v).isSome) (hc : (s1.env s1.cur).isSome) (id : Int) (pn : Nat) :
    (sforkDone L s1 v f).mapping id pn =
      if id = s1.cur ∧ pn = PGNUM L L.UTEMP then none
      else if id = v ∧ pn = PGNUM L (L.USTACKTOP - L.PGSIZE) then
        some ⟨f, L.PTE_P ||| L.PTE_U ||| L.PTE_W⟩
      else s1.mapping id pn := by
  unfold sforkDone
  rw [mapping_record, mapping_setStatus,
    mapping_duppage2Done L s1 v _ f (by rw [resolve_pos _ _ hpos]; exact he) hc,
    resolve_pos _ _ hpos]

/-- The top stack page lies above every page the walk of `sfork` visits, and
the exception stack page above both. -/
theorem top_pages (L : Layout) (hL : L.OK) :
    PGNUM L (L.USTACKTOP - L.PGSIZE) * L.PGSIZE = L.USTACKTOP - L.PGSIZE ∧
    PGNUM L (L.UXSTACKTOP - L.PGSIZE) * L.PGSIZE = L.UXSTACKTOP - L.PGSIZE ∧
    L.USTACKTOP - L.PGSIZE < L.UXSTACKTOP - L.PGSIZE ∧
    PGNUM L (L.USTACKTOP - L.PGSIZE) ≠ PGNUM L (L.UXSTACKTOP - L.PGSIZE) := by
  have hP : 0 < L.PGSIZE := hL.1
  have h1 : L.PGSIZE ∣ L.USTACKTOP - L.PGSIZE := Nat.dvd_sub' hL.2.2.2.1 (Nat.dvd_refl _)
  have h2 : L.PGSIZE ∣ L.UXSTACKTOP - L.PGSIZE := Nat.dvd_sub' hL.2.2.2.2.1 (Nat.dvd_refl _)
  have h3 := hL.2.2.2.2.2.1
  have h4 := hL.2.2.2.2.2.2.1
  have e1 : PGNUM L (L.USTACKTOP - L.PGSIZE) * L.PGSIZE = L.USTACKTOP - L.PGSIZE :=
    Nat.div_mul_cancel h1
  have e2 : PGNUM L (L.UXSTACKTOP - L.PGSIZE) * L.PGSIZE = L.UXSTACKTOP - L.PGSIZE :=
    Nat.div_mul_cancel h2
  refine ⟨e1, e2, by omega, ?_⟩
  intro h
  rw [h, e2] at e1
  omega

/-! ### Directory entries and the running process -/

theorem mapping_switchTo (s : State) (b id : Int) (pn : Nat) :
    (s.switchTo b).mapping id pn = s.mapping id pn := rfl

theorem env_switchTo (s : State) (b id : Int) : (s.switchTo b).env id = s.env id := rfl

theorem cur_switchTo (s : State) (b : Int) : (s.switchTo b).cur = b := rfl

theorem mem_switchTo (s : State) (b : Int) : (s.switchTo b).mem = s.mem := rfl

theorem uvpd_switchTo (L : Layout) (s : State) (b : Int) (i : Nat) :
    uvpd L (s.switchTo b) i = if s.dirHas b i = true then L.PTE_P else 0 := by
  unfold uvpd State.dirHas
  rw [cur_switchTo, env_switchTo]
  cases s.env b with
  | none => simp
  | some e => simp

theorem dirHas_record (s : State) (c : Call) (id : Int) (i : Nat) :
    (s.record c).dirHas id i = s.dirHas id i := rfl

theorem dirHas_install_mono (L : Layout) (s : State) (id id' : Int) (va i : Nat) (m : Mapping)
    (h : s.dirHas id' i = true) : (s.install L id va m).dirHas id' i = true := by
  unfold State.dirHas State.env State.install at *
  simp only [tget_tmod]
  by_cases hid : id' = id
  · subst hid
    cases he : tget s.envs id' with
    | none => rw [he] at h; cases h
    | some e =>
      rw [he] at h
      simp only [decide_eq_true_eq] at h
      by_cases hin : PDX L va ∈ e.pgdir
      · simp [hin, h]
      · simp [hin, h]
  · simp only [hid, if_false]
    exact h

theorem dirHas_install_self (L : Layout) (s : State) (id : Int) (va : Nat) (m : Mapping)
    (he : (s.env id).isSome) : (s.install L id va m).dirHas id (PDX L va) = true := by
  unfold State.dirHas State.env State.install at *
  simp only [tget_tmod, if_true]
  cases h : tget s.envs id with
  | none => rw [h] at he; cases he
  | some e =>
    by_cases hin : PDX L va ∈ e.pgdir
    · simp [hin]
    · simp [hin]

theorem dirHas_setStatus (s : State) (id id' : Int) (st i : Nat) :
    (s.setStatus id st).dirHas id' i = s.dirHas id' i := by
  unfold State.dirHas State.env State.setStatus
  simp only [tget_tmod]
  by_cases hid : id' = id
  · subst hid; cases tget s.envs id' <;> simp
  · simp [hid]

theorem dirHas_setUpcall (s : State) (id id' : Int) (func i : Nat) :
    (s.setUpcall id func).dirHas id' i = s.dirHas id' i := by
  unfold State.dirHas State.env State.setUpcall
  simp only [tget_tmod]
  by_cases hid : id' = id
  · subst hid; cases tget s.envs id' <;> simp
  · simp [hid]

theorem dirHas_spawn (s : State) (id id' : Int) (e : Env) (i : Nat) (hnew : s.env id = none)
    (h : s.dirHas id' i = true) : (s.spawn id e).dirHas id' i = true := by
  unfold State.dirHas at *
  rw [env_spawn s id id' e hnew]
  by_cases hid : id' = id
  · subst hid; rw [hnew] at h; cases h
  · rw [if_neg hid]; exact h

theorem mem_forkDone (L : Layout) (s1 : State) (envid : Int) (f : Nat) :
    (forkDone L s1 envid f).mem = s1.mem := rfl

theorem cur_forkDone (L : Layout) (s1 : State) (envid : Int) (f : Nat) :
    (forkDone L s1 envid f).cur = s1.cur := rfl

theorem dirHas_forkDone (L : Layout) (s1 : State) (envid id : Int) (f i : Nat)
    (h : s1.dirHas id i = true) : (forkDone L s1 envid f).dirHas id i = true := by
  unfold forkDone forkReady
  simp only [dirHas_record, dirHas_setStatus, dirHas_setUpcall]
  exact dirHas_install_mono L _ _ _ _ _ _ h

/-- The directory side of a successful map-existing call. -/
theorem map_page_dir (L : Layout) (s s1 : State) (srcenv dst : Int) (srcva va q : Nat)
    (h : sys_page_map L s srcenv srcva dst va q = (0, s1)) :
    s1.dirHas (s.resolve dst) (PDX L va) = true ∧
    ∀ id i, s.dirHas id i = true → s1.dirHas id i = true := by
  rcases sys_page_map_spec h with ⟨-, m, he, -, hs1⟩ | ⟨hneg, -⟩
  · constructor
    · rw [hs1, dirHas_record]
      exact dirHas_install_self L s _ va _ he
    · intro id i hd
      rw [hs1, dirHas_record]
      exact dirHas_install_mono L s _ _ va i _ hd
  · omega

/-! ### The page walk of fork: what it maps -/

/-- One successful `duppage` of page `pn` into another process. -/
theorem duppage_maps (L : Layout) (hL : L.OK) (s s' : State) (envid v : Int) (pn : Nat)
    (hpos : 0 < envid) (hne : envid ≠ s.cur) (hpn : pn * L.PGSIZE < 2 ^ 32)
    (hd : uvpd L s (PDX L (pn * L.PGSIZE)) &&& L.PTE_P ≠ 0)
    (hok : duppage L s envid pn = .ok v s') :
    ∃ m, s.mapping s.cur pn = some m ∧ s'.cur = s.cur ∧ s'.mem = s.mem ∧
      (∀ i, uvpd L s' i = uvpd L s i) ∧
      (∀ id j, s'.mapping id j =
        if j = pn ∧ (id = envid ∨ (id = s.cur ∧ duppagePerm L m.perm &&& PTE_COW ≠ 0)) then
          some ⟨m.frame, duppagePerm L m.perm⟩
        else s.mapping id j) ∧
      s'.dirHas envid (PDX L (pn * L.PGSIZE)) = true ∧
      ∀ id i, s.dirHas id i = true → s'.dirHas id i = true := by
  unfold duppage at hok
  rw [u32_page L pn hpn] at hok
  dsimp only at hok
  rw [uvpt_record] at hok
  cases hr1 : sys_page_map L (s.record (.duppage envid pn)) 0 (pn * L.PGSIZE) envid
      (pn * L.PGSIZE) (duppagePerm L (uvpt s pn)) with
  | mk r1 s1 =>
  rw [hr1] at hok
  dsimp only at hok
  by_cases hr10 : r1 = 0
  · subst hr10
    rw [if_neg (by simp)] at hok
    obtain ⟨m, hm, -, hc1, hmem1, -, -, -, hd1, hmap1, -⟩ :=
      map_page_ok L hL _ s1 envid pn _ hr1
    obtain ⟨hdir1, hmono1⟩ := map_page_dir L _ s1 0 envid _ _ _ hr1
    have hres : (s.record (.duppage envid pn)).resolve envid = envid := resolve_pos _ _ hpos
    rw [hres] at hd1 hmap1 hdir1
    rw [cur_record] at hc1
    replace hm : s.mapping s.cur pn = some m := hm
    have hd1' : ∀ i, uvpd L s1 i = uvpd L s i := fun i => by
      rw [hd1 (Or.inl (by rw [cur_record]; exact hne)) i, uvpd_record]
    have hmap1' : ∀ id j, s1.mapping id j =
        if id = envid ∧ j = pn then some ⟨m.frame, duppagePerm L (uvpt s pn)⟩
        else s.mapping id j := fun id j => by rw [hmap1, mapping_record]
    have hu : uvpt s pn = m.perm := uvpt_of_mapping s pn m hm
    rw [hu] at hok hmap1' hr1
    by_cases hc : duppagePerm L m.perm &&& PTE_COW ≠ 0
    · rw [if_pos hc] at hok
      cases hr2 : sys_page_map L s1 0 (pn * L.PGSIZE) 0 (pn * L.PGSIZE)
          (duppagePerm L m.perm) with
      | mk r2 s2 =>
      rw [hr2] at hok
      dsimp only at hok
      by_cases hr20 : r2 = 0
      · subst hr20
        rw [if_neg (by simp)] at hok
        cases hok
        obtain ⟨m2, hm2, -, hc2, hmem2, -, -, -, hd2, hmap2, -⟩ :=
          map_page_ok L hL s1 s' 0 pn _ hr2
        obtain ⟨-, hmono2⟩ := map_page_dir L s1 s' 0 0 _ _ _ hr2
        rw [resolve_zero] at hmap2
        have hs1k : s1.mapping s1.cur pn = some m := by
          rw [hc1, hmap1', if_neg (fun h => hne h.1.symm), hm]
        rw [hs1k] at hm2
        cases hm2
        refine ⟨m, hm, by rw [hc2, hc1], by rw [hmem2, hmem1]; rfl, ?_, ?_,
          hmono2 _ _ hdir1, fun id i h => hmono2 _ _ (hmono1 _ _ h)⟩
        · intro i
          rw [hd2 (Or.inr (by rw [hd1']; exact hd)), hd1']
        · intro id j
          rw [hmap2, hmap1', hc1]
          by_cases hj : j = pn
          · by_cases hic : id = s.cur
            · simp [hj, hic, hc]
            · by_cases hie : id = envid
              · simp [hj, hie, hne]
              · simp [hj, hic, hie]
          · simp [hj]
      · rw [if_pos hr20] at hok
        cases hok
    · rw [if_neg hc] at hok
      cases hok
      refine ⟨m, hm, hc1, by rw [hmem1]; rfl, hd1', ?_, hdir1, fun id i h => hmono1 _ _ h⟩
      intro id j
      rw [hmap1']
      by_cases hj : j = pn
      · by_cases hie : id = envid
        · simp [hj, hie]
        · simp [hj, hie, hc]
      · simp [hj]
  · rw [if_pos hr10] at hok
    cases hok

/-- What a successful page walk of `fork` leaves behind. -/
theorem forkLoop_maps (L : Layout) (hL : L.OK) (envid : Int) (hpos : 0 < envid) :
    ∀ fuel k s s', envid ≠ s.cur → forkLoop L envid fuel (k * L.PGSIZE) s = .ok () s' →
      s'.cur = s.cur ∧ s'.mem = s.mem ∧
      (∀ id j, id ≠ s.cur → id ≠ envid → s'.mapping id j = s.mapping id j) ∧
      (∀ j, ¬ (k ≤ j ∧ j * L.PGSIZE < L.USTACKTOP ∧ present L s j) →
        s'.mapping s.cur j = s.mapping s.cur j ∧ s'.mapping envid j = s.mapping envid j) ∧
      (∀ j, k ≤ j → j * L.PGSIZE < L.USTACKTOP → present L s j →
        ∃ m, s.mapping s.cur j = some m ∧
          s'.mapping envid j = some ⟨m.frame, duppagePerm L m.perm⟩ ∧
          s'.mapping s.cur j =
            (if duppagePerm L m.perm &&& PTE_COW ≠ 0 then some ⟨m.frame, duppagePerm L m.perm⟩
             else some m) ∧
          s'.dirHas envid (PDX L (j * L.PGSIZE)) = true) ∧
      ∀ id i, s.dirHas id i = true → s'.dirHas id i = true := by
  have hP : 0 < L.PGSIZE := hL.1
  have htop : L.USTACKTOP + L.PGSIZE ≤ 2 ^ 32 := by
    have h1 := hL.2.2.2.2.2.2.1
    have h2 := hL.2.2.2.2.2.2.2.1
    omega
  intro fuel
  induction fuel with
  | zero => intro k s s' _ h; cases h
  | succ fuel ih =>
    intro k s s' hne h
    by_cases hk : k * L.PGSIZE < L.USTACKTOP
    · have hnext : u32 (k * L.PGSIZE + L.PGSIZE) = (k + 1) * L.PGSIZE := by
        unfold u32
        rw [Nat.mod_eq_of_lt (by omega), Nat.add_mul, Nat.one_mul]
      have hunf : forkLoop L envid (fuel + 1) (k * L.PGSIZE) s =
          if present L s k then
            match duppage L s envid k with
            | .ok _ s1 => forkLoop L envid fuel ((k + 1) * L.PGSIZE) s1
            | .panic s1 => .panic s1
            | .timeout => .timeout
          else forkLoop L envid fuel ((k + 1) * L.PGSIZE) s := by
        rw [forkLoop, if_pos hk, hnext, PGNUM_mul L hP]
        rfl
      rw [hunf] at h
      by_cases hp : present L s k
      · rw [if_pos hp] at h
        cases hdup : duppage L s envid k with
        | timeout => rw [hdup] at h; cases h
        | panic s1 => rw [hdup] at h; cases h
        | ok v s2 =>
          rw [hdup] at h
          dsimp only at h
          obtain ⟨m, hm, hc2, hmem2, hd2, hmap2, hdir2, hmono2⟩ :=
            duppage_maps L hL s s2 envid v k hpos hne (by omega) hp.1 hdup
          obtain ⟨hc, hmem, hoth, hout, hin, hmono⟩ :=
            ih (k + 1) s2 s' (by rw [hc2]; exact hne) h
          have hpres : ∀ j, j ≠ k → (present L s2 j ↔ present L s j) := by
            intro j hj
            apply present_congr L s s2 j hd2 hc2
            rw [hmap2, if_neg (fun hc => hj hc.1)]
          refine ⟨by rw [hc, hc2], by rw [hmem, hmem2], ?_, ?_, ?_,
            fun id i hd => hmono _ _ (hmono2 _ _ hd)⟩
          · intro id j hic hie
            rw [hoth id j (by rw [hc2]; exact hic) hie, hmap2]
            simp [hic, hie]
          · intro j hj
            have hjk : j ≠ k := by
              intro hjk; subst hjk
              exact hj ⟨le_refl _, hk, hp⟩
            have hj2 : ¬ (k + 1 ≤ j ∧ j * L.PGSIZE < L.USTACKTOP ∧ present L s2 j) := by
              intro hc3
              exact hj ⟨by omega, hc3.2.1, (hpres j hjk).mp hc3.2.2⟩
            have h3 := hout j hj2
            rw [hc2] at h3
            rw [h3.1, h3.2, hmap2, hmap2, if_neg (fun hc => hjk hc.1),
              if_neg (fun hc => hjk hc.1)]
            exact ⟨rfl, rfl⟩
          · intro j hkj hjt hpj
            by_cases hjk : j = k
            · subst hjk
              have h3 := hout j (by intro hc3; omega)
              rw [hc2] at h3
              refine ⟨m, hm, ?_, ?_, hmono _ _ hdir2⟩
              · rw [h3.2, hmap2]; simp
              · rw [h3.1, hmap2]
                by_cases hcw : duppagePerm L m.perm &&& PTE_COW ≠ 0
                · simp [hcw]
                · have hne' : ¬ s.cur = envid := fun hc => hne hc.symm
                  simp [hcw, hm, hne']
            · obtain ⟨m', hm', he3, hc3, hd3⟩ :=
                hin j (by omega) hjt ((hpres j hjk).mpr hpj)
              rw [hc2, hmap2, if_neg (fun hc => hjk hc.1)] at hm'
              rw [hc2] at hc3
              exact ⟨m', hm', he3, hc3, hd3⟩
      · rw [if_neg hp] at h
        obtain ⟨hc, hmem, hoth, hout, hin, hmono⟩ := ih (k + 1) s s' hne h
        refine ⟨hc, hmem, hoth, ?_, ?_, hmono⟩
        · intro j hj
          apply hout
          intro hc3
          exact hj ⟨by omega, hc3.2⟩
        · intro j hkj hjt hpj
          have hjk : j ≠ k := by
            intro hjk; subst hjk; exact hp hpj
          exact hin j (by omega) hjt hpj
    · rw [forkLoop, if_neg hk] at h
      cases h
      refine ⟨rfl, rfl, fun _ _ _ _ => rfl, fun _ _ => ⟨rfl, rfl⟩, ?_, fun _ _ h => h⟩
      intro j hkj hjt _
      exfalso
      apply hk
      calc k * L.PGSIZE ≤ j * L.PGSIZE := Nat.mul_le_mul_right _ hkj
        _ < L.USTACKTOP := hjt

/-- What a successful `fork` leaves behind in the page tables. -/
theorem fork_ok_maps (L : Layout) (hL : L.OK) (s s' : State) (v : Int)
    (hok : fork L s = .ok v s') :
    0 < v ∧ v ≠ s.cur ∧ s.env v = none ∧ s'.cur = s.cur ∧ s'.mem = s.mem ∧
    (∀ id j, id ≠ s.cur → id ≠ v → s'.mapping id j = s.mapping id j) ∧
    (∀ j, ¬ (j * L.PGSIZE < L.USTACKTOP ∧ present L s j) →
      s'.mapping s.cur j = s.mapping s.cur j) ∧
    (∀ j, j * L.PGSIZE < L.USTACKTOP → present L s j →
      ∃ m, s.mapping s.cur j = some m ∧
        s'.mapping v j = some ⟨m.frame, duppagePerm L m.perm⟩ ∧
        s'.mapping s.cur j =
          (if duppagePerm L m.perm &&& PTE_COW ≠ 0 then some ⟨m.frame, duppagePerm L m.perm⟩
           else some m) ∧
        s'.dirHas v (PDX L (j * L.PGSIZE)) = true) ∧
    (∀ id i, s.dirHas id i = true → s'.dirHas id i = true) ∧
    ∃ f, s'.mapping v (PGNUM L (L.UXSTACKTOP - L.PGSIZE)) =
      some ⟨f, L.PTE_U ||| L.PTE_W ||| L.PTE_P⟩ ∧
      ∀ id j m, s.mapping id j = some m → m.frame ≠ f := by
  obtain ⟨-, e2, -, -⟩ := top_pages L hL
  have hux : L.USTACKTOP ≤ L.UXSTACKTOP - L.PGSIZE := by
    have := hL.2.2.2.2.2.2.1
    omega
  unfold fork at hok
  cases hx : sys_exofork L (set_pgfault_handler s) with
  | mk r sx =>
  rw [hx] at hok
  dsimp only at hok
  rcases sys_exofork_spec hx with ⟨hpos, hne, hnew, hsx⟩ | ⟨hneg, -⟩
  · have hne' : r ≠ s.cur := hne
    have hnew' : s.env r = none := hnew
    have hcx : sx.cur = s.cur := by rw [hsx]; rfl
    have hmx : ∀ id j, sx.mapping id j = s.mapping id j := by
      intro id j
      rw [hsx, mapping_record, mapping_spawn _ _ _ _ _ hnew rfl]
      rfl
    have hpx : ∀ j, present L sx j ↔ present L s j := by
      intro j
      rw [hsx]
      exact present_exofork L s r _ _ j hnew hne rfl
    have hdx : ∀ id i, s.dirHas id i = true → sx.dirHas id i = true := by
      intro id i hd
      rw [hsx, dirHas_record]
      exact dirHas_spawn _ _ _ _ _ hnew hd
    unfold forkAfter at hok
    rw [if_neg (by omega), if_neg (by omega)] at hok
    cases hloop : forkLoop L r (L.USTACKTOP + 1) 0 sx with
    | timeout => rw [hloop] at hok; cases hok
    | panic s1 => rw [hloop] at hok; cases hok
    | ok u s1 =>
      rw [hloop] at hok
      dsimp only at hok
      have hloop' : forkLoop L r (L.USTACKTOP + 1) (0 * L.PGSIZE) sx = .ok () s1 := by
        rw [Nat.zero_mul]; exact hloop
      obtain ⟨hc1, hmem1, hoth1, hout1, hin1, hmono1⟩ :=
        forkLoop_maps L hL r hpos (L.USTACKTOP + 1) 0 sx s1 (by rw [hcx]; exact hne') hloop'
      cases hr2 : sys_page_alloc L s1 r (L.UXSTACKTOP - L.PGSIZE)
          (L.PTE_U ||| L.PTE_W ||| L.PTE_P) with
      | mk r2 s2 =>
      rw [hr2] at hok
      dsimp only at hok
      rcases sys_page_alloc_spec hr2 with ⟨rfl, f, he2, hf, hs2⟩ | ⟨hneg, -⟩
      · simp only [ne_eq, not_true_eq_false, if_false] at hok
        rw [resolve_pos _ _ hpos] at he2 hs2
        cases hr3 : sys_env_set_pgfault_upcall s2 r L.pgfault_upcall with
        | mk r3 s3 =>
        rw [hr3] at hok
        dsimp only at hok
        rcases sys_env_set_pgfault_upcall_spec hr3 with ⟨rfl, he3, hs3⟩ | ⟨hneg, -⟩
        · simp only [ne_eq, not_true_eq_false, if_false] at hok
          rw [resolve_pos _ _ hpos] at hs3
          cases hr4 : sys_env_set_status s3 r L.ENV_RUNNABLE with
          | mk r4 s4 =>
          rw [hr4] at hok
          dsimp only at hok
          rcases sys_env_set_status_spec hr4 with ⟨rfl, he4, hs4⟩ | ⟨hneg, -⟩
          · simp only [ne_eq, not_true_eq_false, if_false, Result.ok.injEq] at hok
            rw [resolve_pos _ _ hpos] at hs4
            obtain ⟨rfl, rfl⟩ := hok
            have hfin : s4 = forkDone L s1 r f := by
              rw [hs4, hs3, hs2]
              rfl
            have hmf : ∀ id j, s4.mapping id j =
                if id = r ∧ j = PGNUM L (L.UXSTACKTOP - L.PGSIZE) then
                  some ⟨f, L.PTE_U ||| L.PTE_W ||| L.PTE_P⟩
                else s1.mapping id j := by
              intro id j
              rw [hfin, mapping_forkDone L s1 r id f j he2]
            have hlow : ∀ j, j * L.PGSIZE < L.USTACKTOP →
                j ≠ PGNUM L (L.UXSTACKTOP - L.PGSIZE) := by
              intro j hj h
              rw [h, e2] at hj
              omega
            refine ⟨hpos, hne', hnew', by rw [hfin, cur_forkDone, hc1, hcx],
              by rw [hfin, mem_forkDone, hmem1, hsx]; rfl, ?_, ?_, ?_, ?_, f, ?_, ?_⟩
            · intro id j hic hie
              rw [hmf, if_neg (fun h => hie h.1), hoth1 id j (by rw [hcx]; exact hic) hie, hmx]
            · intro j hj
              rw [hmf, if_neg (fun h => hne' h.1.symm), ← hcx,
                (hout1 j (fun h => hj ⟨h.2.1, (hpx j).mp h.2.2⟩)).1, hmx]
            · intro j hjt hpj
              obtain ⟨m, hm, hchild, hpar, hdir⟩ :=
                hin1 j (Nat.zero_le _) hjt ((hpx j).mpr hpj)
              rw [hcx, hmx] at hm
              rw [hcx] at hpar
              refine ⟨m, hm, ?_, ?_, ?_⟩
              · rw [hmf, if_neg (fun h => hlow j hjt h.2), hchild]
              · rw [hmf, if_neg (fun h => hlow j hjt h.2), hpar]
              · rw [hfin]
                exact dirHas_forkDone L s1 r r f _ hdir
            · intro id i hd
              rw [hfin]
              exact dirHas_forkDone L s1 r id f i (hmono1 _ _ (hdx _ _ hd))
            · rw [hmf, if_pos ⟨rfl, rfl⟩]
            · intro id j m hm
              by_cases hic : id = s.cur
              · subst hic
                by_cases hr : j * L.PGSIZE < L.USTACKTOP ∧ present L s j
                · obtain ⟨m2, hm2, -, hpar, -⟩ :=
                    hin1 j (Nat.zero_le _) hr.1 ((hpx j).mpr hr.2)
                  rw [hcx, hmx, hm] at hm2
                  cases hm2
                  rw [hcx] at hpar
                  by_cases hcw : duppagePerm L m.perm &&& PTE_COW ≠ 0
                  · rw [if_pos hcw] at hpar
                    exact freshFrame_ne s1 f hf _ _ ⟨m.frame, duppagePerm L m.perm⟩ hpar
                  · rw [if_neg hcw] at hpar
                    exact freshFrame_ne s1 f hf _ _ _ hpar
                · have h1 := (hout1 j (fun h => hr ⟨h.2.1, (hpx j).mp h.2.2⟩)).1
                  rw [hcx, hmx, hm] at h1
                  exact freshFrame_ne s1 f hf _ _ _ h1
              · by_cases hie : id = r
                · subst hie
                  unfold State.mapping at hm
                  rw [hnew'] at hm
                  cases hm
                · have h1 := hoth1 id j (by rw [hcx]; exact hic) hie
                  rw [hmx, hm] at h1
                  exact freshFrame_ne s1 f hf _ _ _ h1
          · have : r4 ≠ 0 := by omega
            simp [this] at hok
        · have : r3 ≠ 0 := by omega
          simp [this] at hok
      · have : r2 ≠ 0 := by omega
        simp [this] at hok
  · unfold forkAfter at hok
    rw [if_pos hneg] at hok
    cases hok

theorem perm_upc_facts (L : Layout) (hL : L.OK) :
    (L.PTE_U ||| L.PTE_P ||| PTE_COW) &&& PTE_COW ≠ 0 ∧
    (L.PTE_U ||| L.PTE_P ||| PTE_COW) &&& L.PTE_W = 0 ∧
    (L.PTE_U ||| L.PTE_P ||| PTE_COW) &&& L.PTE_P ≠ 0 := by
  obtain ⟨-, -, -, -, -, -, -, -, hP0, hW0, hU0, hS0, hP, hW, hU, hS, hPW, hPU, hWU, hPC, hWC, hUC,
    hPS, hWS, hUS, hSC, -⟩ := hL
  refine ⟨and_or_ne_zero_right _ _ (by decide), ?_, ?_⟩
  · apply or_and_eq_zero
    · apply or_and_eq_zero
      · rw [Nat.and_comm]; exact hWU
      · exact hPW
    · rw [Nat.and_comm]; exact hWC
  · apply or_and_ne_zero_left
    exact and_or_ne_zero_right _ _ hP0

/-! ### Permission sets passed and installed -/

theorem Ext.refl (L : Layout) (Q : Call → Prop) (s : State) : Ext L Q s s :=
  ⟨fun _ _ _ h => Or.inl h, [], by simp, fun _ h => by cases h⟩

theorem Ext.trans {L : Layout} {Q : Call → Prop} {s1 s2 s3 : State}
    (h12 : Ext L Q s1 s2) (h23 : Ext L Q s2 s3) : Ext L Q s1 s3 := by
  obtain ⟨m12, n12, l12, q12⟩ := h12
  obtain ⟨m23, n23, l23, q23⟩ := h23
  refine ⟨?_, n12 ++ n23, by rw [l23, l12, List.append_assoc], ?_⟩
  · intro id pn m hm
    rcases m23 id pn m hm with h | h
    · exact m12 id pn m h
    · exact Or.inr h
  · intro c hc
    rcases List.mem_append.mp hc with hc | hc
    · exact q12 c hc
    · exact q23 c hc

theorem Ext.mono {L : Layout} {Q Q' : Call → Prop} {s1 s2 : State}
    (h : Ext L Q s1 s2) (hq : ∀ c, Q c → Q' c) : Ext L Q' s1 s2 := by
  obtain ⟨m, n, l, q⟩ := h
  exact ⟨m, n, l, fun c hc => hq c (q c hc)⟩

theorem Ext.noWCow {L : Layout} {Q : Call → Prop} {s1 s2 : State}
    (h : Ext L Q s1 s2) (hinv : NoWCow L s1) : NoWCow L s2 := by
  intro id pn m hm
  rcases h.1 id pn m hm with h1 | h1
  · exact hinv id pn m h1
  · exact h1

/-- A step that only appends one call to the log and leaves every mapping as
it was or installs the permission set `perm`. -/
theorem ext_step (L : Layout) (Q : Call → Prop) (s s' : State) (c : Call) (perm : Nat)
    (hlog : s'.log = s.log ++ [c]) (hq : Q c)
    (hperm : perm &&& L.PTE_W = 0 ∨ perm &&& PTE_COW = 0)
    (hmap : ∀ id pn m, s'.mapping id pn = some m → s.mapping id pn = some m ∨ m.perm = perm) :
    Ext L Q s s' := by
  refine ⟨?_, [c], hlog, ?_⟩
  · intro id pn m hm
    rcases hmap id pn m hm with h | h
    · exact Or.inl h
    · right; rw [h]; exact hperm
  · intro c' hc'
    rw [List.mem_singleton.mp hc']
    exact hq

theorem ext_record (L : Layout) (Q : Call → Prop) (s : State) (c : Call) (hq : Q c) :
    Ext L Q s (s.record c) :=
  ext_step L Q s _ c 0 rfl hq (Or.inl (Nat.zero_and _)) (fun _ _ _ h => Or.inl h)

theorem ext_page_map (L : Layout) (Q : Call → Prop) {s s' : State} {srcenv dstenv r : Int}
    {srcva dstva perm : Nat}
    (h : sys_page_map L s srcenv srcva dstenv dstva perm = (r, s'))
    (hq : ∀ r, Q (.page_map srcenv srcva dstenv dstva perm r))
    (hperm : perm &&& L.PTE_W = 0 ∨ perm &&& PTE_COW = 0) : Ext L Q s s' := by
  apply ext_step L Q s s' _ perm (sys_page_map_log h).1 (hq r) hperm
  intro id pn m hm
  rcases sys_page_map_spec h with ⟨-, m0, -, -, rfl⟩ | ⟨-, rfl⟩
  · rw [mapping_record, mapping_install] at hm
    split at hm
    · right; cases hm; rfl
    · exact Or.inl hm
  · exact Or.inl hm

theorem ext_page_alloc (L : Layout) (Q : Call → Prop) {s s' : State} {envid r : Int}
    {va perm : Nat}
    (h : sys_page_alloc L s envid va perm = (r, s'))
    (hq : ∀ r, Q (.page_alloc envid va perm r))
    (hperm : perm &&& L.PTE_W = 0 ∨ perm &&& PTE_COW = 0) : Ext L Q s s' := by
  apply ext_step L Q s s' _ perm (sys_page_alloc_log h).1 (hq r) hperm
  intro id pn m hm
  rcases sys_page_alloc_spec h with ⟨-, f, -, -, rfl⟩ | ⟨-, rfl⟩
  · rw [mapping_record, mapping_install] at hm
    split at hm
    · right; cases hm; rfl
    · exact Or.inl hm
  · exact Or.inl hm

theorem ext_page_unmap (L : Layout) (Q : Call → Prop) {s s' : State} {envid r : Int} {va : Nat}
    (h : sys_page_unmap L s envid va = (r, s'))
    (hq : ∀ r, Q (.page_unmap envid va r)) : Ext L Q s s' := by
  apply ext_step L Q s s' _ 0 (sys_page_unmap_log h).1 (hq r) (Or.inl (Nat.zero_and _))
  intro id pn m hm
  rcases sys_page_unmap_spec h with ⟨-, -, rfl⟩ | ⟨-, rfl⟩
  · rw [mapping_record, mapping_remove] at hm
    split at hm
    · cases hm
    · exact Or.inl hm
  · exact Or.inl hm

theorem ext_set_status (L : Layout) (Q : Call → Prop) {s s' : State} {envid r : Int}
    {status : Nat} (h : sys_env_set_status s envid status = (r, s'))
    (hq : ∀ r, Q (.set_status envid status r)) : Ext L Q s s' := by
  apply ext_step L Q s s' _ 0 (sys_env_set_status_log h).1 (hq r) (Or.inl (Nat.zero_and _))
  intro id pn m hm
  rcases sys_env_set_status_spec h with ⟨-, -, rfl⟩ | ⟨-, rfl⟩
  · rw [mapping_record, mapping_setStatus] at hm
    exact Or.inl hm
  · exact Or.inl hm

theorem ext_set_upcall (L : Layout) (Q : Call → Prop) {s s' : State} {envid r : Int}
    {func : Nat} (h : sys_env_set_pgfault_upcall s envid func = (r, s'))
    (hq : ∀ r, Q (.set_pgfault_upcall envid func r)) : Ext L Q s s' := by
  apply ext_step L Q s s' _ 0 (sys_env_set_pgfault_upcall_log h).1 (hq r)
    (Or.inl (Nat.zero_and _))
  intro id pn m hm
  rcases sys_env_set_pgfault_upcall_spec h with ⟨-, -, rfl⟩ | ⟨-, rfl⟩
  · rw [mapping_record, mapping_setUpcall] at hm
    exact Or.inl hm
  · exact Or.inl hm

theorem ext_exofork (L : Layout) (Q : Call → Prop) {s s' : State} {r : Int}
    (h : sys_exofork L s = (r, s')) (hq : ∀ r, Q (.exofork r)) : Ext L Q s s' := by
  rcases sys_exofork_spec h with ⟨-, -, hnew, rfl⟩ | ⟨-, rfl⟩
  · apply ext_step L Q s _ (.exofork r) 0 rfl (hq r) (Or.inl (Nat.zero_and _))
    intro id pn m hm
    rw [mapping_record, mapping_spawn _ _ _ _ _ hnew rfl] at hm
    exact Or.inl hm
  · exact ext_record L Q s _ (hq r)

theorem ext_memmove (L : Layout) (Q : Call → Prop) (s : State) (dst src n : Nat) :
    Ext L Q s (memmove L s dst src n) := by
  refine ⟨?_, [], by rw [log_memmove]; simp, fun _ h => by cases h⟩
  intro id pn m hm
  rw [mapping_memmove] at hm
  exact Or.inl hm

theorem ext_handler (L : Layout) (Q : Call → Prop) (s : State) (hq : Q .set_pgfault_handler) :
    Ext L Q s (set_pgfault_handler s) :=
  ext_step L Q s _ .set_pgfault_handler 0 rfl hq (Or.inl (Nat.zero_and _))
    (fun _ _ _ h => Or.inl h)

theorem perm_puw_not_cow (L : Layout) (hL : L.OK) :
    (L.PTE_P ||| L.PTE_U ||| L.PTE_W) &&& PTE_COW = 0 := by
  obtain ⟨-, -, -, -, -, -, -, -, hP0, hW0, hU0, hS0, hP, hW, hU, hS, hPW, hPU, hWU, hPC, hWC, hUC,
    hPS, hWS, hUS, hSC, -⟩ := hL
  exact or_and_eq_zero _ _ _ (or_and_eq_zero _ _ _ hPC hUC) hWC

theorem perm_puw_writable (L : Layout) (hL : L.OK) :
    (L.PTE_P ||| L.PTE_U ||| L.PTE_W) &&& L.PTE_W ≠ 0 :=
  and_or_ne_zero_right _ _ hL.2.2.2.2.2.2.2.2.2.1

theorem duppagePerm_not_writable (L : Layout) (hL : L.OK) (pte : Nat) :
    duppagePerm L pte &&& L.PTE_W = 0 := by
  by_cases h : pte &&& L.PTE_W ≠ 0 ∨ pte &&& PTE_COW ≠ 0
  · rw [duppagePerm_cow L hL pte h]
    exact (perm_upc_facts L hL).2.1
  · rw [duppagePerm_plain L hL pte h]
    obtain ⟨-, -, -, -, -, -, -, -, hP0, hW0, hU0, hS0, hP, hW, hU, hS, hPW, hPU, hWU, hPC, hWC,
      hUC, hPS, hWS, hUS, hSC, -⟩ := hL
    apply or_and_eq_zero
    · rw [Nat.and_comm]; exact hWU
    · exact hPW

theorem final_ok {α : Type} (v : α) (s1 sb : State) : (Result.ok v s1).final sb = s1 := rfl

theorem final_panic {α : Type} (s1 sb : State) : (Result.panic s1 : Result α).final sb = s1 := rfl

theorem final_timeout {α : Type} (sb : State) : (Result.timeout : Result α).final sb = sb := rfl

/-- The calls of `pgfault` and the mappings it leaves. -/
theorem pgfault_steps (L : Layout) (hL : L.OK) (s : State) (addr err : Nat) :
    MapsFrom L s ((pgfault L s addr err).final s) ∧
    ∃ new, ((pgfault L s addr err).final s).log = s.log ++ new ∧
      (new = [] ∨
       (∃ r1, new = [.page_alloc 0 L.PFTEMP (L.PTE_U ||| L.PTE_W ||| L.PTE_P) r1]) ∨
       (∃ r2 rest, new = .page_alloc 0 L.PFTEMP (L.PTE_U ||| L.PTE_W ||| L.PTE_P) 0 ::
          .page_map 0 L.PFTEMP 0 (ROUNDDOWN addr L.PGSIZE) (L.PTE_U ||| L.PTE_W ||| L.PTE_P) r2 ::
          rest ∧ ∀ c ∈ rest, c.permOf = 0 ∧ c.isPageMap = false)) := by
  have hpf := perm_uwp_not_cow L hL
  unfold pgfault
  by_cases hg : err &&& L.FEC_WR = 0 ∨ uvpt s (PGNUM L addr) &&& PTE_COW = 0
  · rw [if_pos hg]
    exact ⟨(Ext.refl L (fun _ => True) s).1, [], by rw [final_panic]; simp, Or.inl rfl⟩
  · rw [if_neg hg]
    cases hr1 : sys_page_alloc L s 0 L.PFTEMP (L.PTE_U ||| L.PTE_W ||| L.PTE_P) with
    | mk r1 s1 =>
    dsimp only
    have e1 : Ext L (fun _ => True) s s1 := ext_page_alloc L _ hr1 (fun _ => trivial) (Or.inr hpf)
    have l1 := (sys_page_alloc_log hr1).1
    by_cases hr10 : r1 = 0
    · subst hr10
      rw [if_neg (by simp)]
      cases hr2 : sys_page_map L (memmove L s1 L.PFTEMP (ROUNDDOWN addr L.PGSIZE) L.PGSIZE) 0
          L.PFTEMP 0 (ROUNDDOWN addr L.PGSIZE) (L.PTE_U ||| L.PTE_W ||| L.PTE_P) with
      | mk r2 s3 =>
      dsimp only
      have e3 : Ext L (fun _ => True) s s3 :=
        (e1.trans (ext_memmove L _ s1 _ _ _)).trans
          (ext_page_map L _ hr2 (fun _ => trivial) (Or.inr hpf))
      have l3 := (sys_page_map_log hr2).1
      rw [log_memmove, l1] at l3
      by_cases hr20 : r2 = 0
      · subst hr20
        rw [if_neg (by simp)]
        cases hr3 : sys_page_unmap L s3 0 L.PFTEMP with
        | mk r3 s4 =>
        dsimp only
        have e4 : Ext L (fun _ => True) s s4 := e3.trans (ext_page_unmap L _ hr3 (fun _ => trivial))
        have l4 := (sys_page_unmap_log hr3).1
        rw [l3] at l4
        have hfin : (if r3 ≠ 0 then Result.panic s4 else Result.ok () s4).final s = s4 := by
          split <;> rfl
        rw [hfin]
        refine ⟨e4.1, _, by rw [l4]; simp, Or.inr (Or.inr
          ⟨0, [.page_unmap 0 L.PFTEMP r3], rfl, ?_⟩)⟩
        intro c hc
        rw [List.mem_singleton.mp hc]
        exact ⟨rfl, rfl⟩
      · rw [if_pos hr20, final_panic]
        refine ⟨e3.1, _, by rw [l3]; simp, Or.inr (Or.inr ⟨r2, [], rfl, ?_⟩)⟩
        intro c hc
        cases hc
    · rw [if_pos hr10, final_panic]
      exact ⟨e1.1, _, l1, Or.inr (Or.inl ⟨r1, rfl⟩)⟩

/-- The calls of `duppage2` and the mappings it leaves. -/
theorem duppage2_steps (L : Layout) (hL : L.OK) (s : State) (dstenv : Int) (addr : Nat) :
    MapsFrom L s ((duppage2 L s dstenv addr).final s) ∧
    ∃ new, ((duppage2 L s dstenv addr).final s).log = s.log ++ new ∧
      ((∃ r1, new = [.page_alloc dstenv addr (L.PTE_P ||| L.PTE_U ||| L.PTE_W) r1]) ∨
       (∃ r2 rest, new = .page_alloc dstenv addr (L.PTE_P ||| L.PTE_U ||| L.PTE_W) 0 ::
          .page_map dstenv addr 0 L.UTEMP (L.PTE_P ||| L.PTE_U ||| L.PTE_W) r2 :: rest ∧
          ∀ c ∈ rest, c.permOf = 0 ∧ c.isPageMap = false)) := by
  have hpf := perm_puw_not_cow L hL
  unfold duppage2
  cases hr1 : sys_page_alloc L s dstenv addr (L.PTE_P ||| L.PTE_U ||| L.PTE_W) with
  | mk r1 s1 =>
  dsimp only
  have e1 : Ext L (fun _ => True) s s1 := ext_page_alloc L _ hr1 (fun _ => trivial) (Or.inr hpf)
  obtain ⟨l1, hle1⟩ := sys_page_alloc_log hr1
  by_cases hr10 : r1 < 0
  · rw [if_pos hr10, final_panic]
    exact ⟨e1.1, _, l1, Or.inl ⟨r1, rfl⟩⟩
  · have hr1z : r1 = 0 := by omega
    subst hr1z
    rw [if_neg hr10]
    cases hr2 : sys_page_map L s1 dstenv addr 0 L.UTEMP (L.PTE_P ||| L.PTE_U ||| L.PTE_W) with
    | mk r2 s2 =>
    dsimp only
    have e2 : Ext L (fun _ => True) s s2 :=
      e1.trans (ext_page_map L _ hr2 (fun _ => trivial) (Or.inr hpf))
    have l2 := (sys_page_map_log hr2).1
    rw [l1] at l2
    by_cases hr20 : r2 < 0
    · rw [if_pos hr20, final_panic]
      refine ⟨e2.1, _, by rw [l2]; simp, Or.inr ⟨r2, [], rfl, ?_⟩⟩
      intro c hc
      cases hc
    · rw [if_neg hr20]
      cases hr3 : sys_page_unmap L (memmove L s2 L.UTEMP addr L.PGSIZE) 0 L.UTEMP with
      | mk r3 s4 =>
      dsimp only
      have e4 : Ext L (fun _ => True) s s4 :=
        (e2.trans (ext_memmove L _ s2 _ _ _)).trans (ext_page_unmap L _ hr3 (fun _ => trivial))
      have l4 := (sys_page_unmap_log hr3).1
      rw [log_memmove, l2] at l4
      have hfin : (if r3 < 0 then Result.panic s4 else Result.ok () s4).final s = s4 := by
        split <;> rfl
      rw [hfin]
      refine ⟨e4.1, _, by rw [l4]; simp, Or.inr
        ⟨r2, [.page_unmap 0 L.UTEMP r3], rfl, ?_⟩⟩
      intro c hc
      rw [List.mem_singleton.mp hc]
      exact ⟨rfl, rfl⟩

theorem permFine_zero (L : Layout) (c : Call) (h : c.permOf = 0) : c.permFine L := by
  unfold Call.permFine
  rw [h]
  exact Or.inl (Nat.zero_and _)

theorem mapsWritable_other (L : Layout) (c : Call) (h : c.isPageMap = false) :
    c.mapsWritable L = false := by
  unfold Call.mapsWritable
  rw [h]
  rfl

theorem quiet_page_map (L : Layout) (a b : Int) (va vb perm : Nat) (r : Int)
    (h : perm &&& L.PTE_W = 0) :
    (Call.page_map a va b vb perm r).permFine L ∧
      (Call.page_map a va b vb perm r).mapsWritable L = false := by
  refine ⟨Or.inl h, ?_⟩
  unfold Call.mapsWritable
  show (true && decide (perm &&& L.PTE_W ≠ 0)) = false
  simp [h]

/-- `duppage` passes only permission sets without Writable. -/
theorem duppage_ext (L : Layout) (hL : L.OK) (s sb : State) (envid : Int) (pn : Nat)
    (h : Ext L (fun c => c.permFine L ∧ c.mapsWritable L = false) sb s) :
    Ext L (fun c => c.permFine L ∧ c.mapsWritable L = false) sb
      ((duppage L s envid pn).final sb) := by
  have hperm := duppagePerm_not_writable L hL (uvpt (s.record (.duppage envid pn)) pn)
  have e0 := h.trans (ext_record L (fun c => c.permFine L ∧ c.mapsWritable L = false) s
    (.duppage envid pn) ⟨permFine_zero L _ rfl, mapsWritable_other L _ rfl⟩)
  unfold duppage
  dsimp only
  cases hr1 : sys_page_map L (s.record (.duppage envid pn)) 0 (u32 (pn * L.PGSIZE)) envid
      (u32 (pn * L.PGSIZE)) (duppagePerm L (uvpt (s.record (.duppage envid pn)) pn)) with
  | mk r1 s1 =>
  dsimp only
  have e1 := e0.trans (ext_page_map L _ hr1 (fun r => quiet_page_map L _ _ _ _ _ r hperm)
    (Or.inl hperm))
  by_cases hr10 : r1 ≠ 0
  · rw [if_pos hr10]; exact e1
  · rw [if_neg hr10]
    by_cases hc : duppagePerm L (uvpt (s.record (.duppage envid pn)) pn) &&& PTE_COW ≠ 0
    · rw [if_pos hc]
      cases hr2 : sys_page_map L s1 0 (u32 (pn * L.PGSIZE)) 0 (u32 (pn * L.PGSIZE))
          (duppagePerm L (uvpt (s.record (.duppage envid pn)) pn)) with
      | mk r2 s2 =>
      dsimp only
      have e2 := e1.trans (ext_page_map L _ hr2 (fun r => quiet_page_map L _ _ _ _ _ r hperm)
        (Or.inl hperm))
      by_cases hr20 : r2 ≠ 0
      · rw [if_pos hr20]; exact e2
      · rw [if_neg hr20]; exact e2
    · rw [if_neg hc]; exact e1

theorem forkLoop_ext (L : Layout) (hL : L.OK) (envid : Int) :
    ∀ fuel addr s sb, Ext L (fun c => c.permFine L ∧ c.mapsWritable L = false) sb s →
      Ext L (fun c => c.permFine L ∧ c.mapsWritable L = false) sb
        ((forkLoop L envid fuel addr s).final sb) := by
  intro fuel
  induction fuel with
  | zero => intro addr s sb _; exact Ext.refl L _ sb
  | succ fuel ih =>
    intro addr s sb h
    rw [forkLoop]
    by_cases ha : addr < L.USTACKTOP
    · rw [if_pos ha]
      by_cases hp : uvpd L s (PDX L addr) &&& L.PTE_P ≠ 0 ∧ uvpt s (PGNUM L addr) &&& L.PTE_P ≠ 0
      · rw [if_pos hp]
        have hd := duppage_ext L hL s sb envid (PGNUM L addr) h
        cases hdup : duppage L s envid (PGNUM L addr) with
        | timeout => exact Ext.refl L _ sb
        | panic s1 => rw [hdup] at hd; exact hd
        | ok v s1 =>
          rw [hdup] at hd
          exact ih _ s1 sb hd
      · rw [if_neg hp]
        exact ih _ s sb h
    · rw [if_neg ha]
      exact h

theorem forkAfter_ext (L : Layout) (hL : L.OK) (envid : Int) (s sb : State)
    (h : Ext L (fun c => c.permFine L ∧ c.mapsWritable L = false) sb s) :
    Ext L (fun c => c.permFine L ∧ c.mapsWritable L = false) sb
      ((forkAfter L envid s).final sb) := by
  have hq : ∀ c : Call, c.permOf = 0 → c.isPageMap = false →
      c.permFine L ∧ c.mapsWritable L = false :=
    fun c h1 h2 => ⟨permFine_zero L c h1, mapsWritable_other L c h2⟩
  unfold forkAfter
  by_cases h1 : envid < 0
  · rw [if_pos h1]; exact h
  · rw [if_neg h1]
    by_cases h2 : envid = 0
    · rw [if_pos h2]
      exact h.trans (ext_step L _ s _ (.getenvid s.cur) 0 rfl (hq _ rfl rfl)
        (Or.inl (Nat.zero_and _)) (fun _ _ _ hm => Or.inl hm))
    · rw [if_neg h2]
      have hl := forkLoop_ext L hL envid (L.USTACKTOP + 1) 0 s sb h
      cases hloop : forkLoop L envid (L.USTACKTOP + 1) 0 s with
      | timeout => exact Ext.refl L _ sb
      | panic s1 => rw [hloop] at hl; exact hl
      | ok u s1 =>
        rw [hloop] at hl
        dsimp only
        cases hr2 : sys_page_alloc L s1 envid (L.UXSTACKTOP - L.PGSIZE)
            (L.PTE_U ||| L.PTE_W ||| L.PTE_P) with
        | mk r2 s2 =>
        dsimp only
        have e2 := (hl : Ext L _ sb s1).trans (ext_page_alloc L _ hr2
          (fun r => ⟨Or.inr (perm_uwp_not_cow L hL), mapsWritable_other L _ rfl⟩)
          (Or.inr (perm_uwp_not_cow L hL)))
        by_cases hr20 : r2 ≠ 0
        · rw [if_pos hr20]; exact e2
        · rw [if_neg hr20]
          cases hr3 : sys_env_set_pgfault_upcall s2 envid L.pgfault_upcall with
          | mk r3 s3 =>
          dsimp only
          have e3 := e2.trans (ext_set_upcall L _ hr3 (fun r => hq _ rfl rfl))
          by_cases hr30 : r3 ≠ 0
          · rw [if_pos hr30]; exact e3
          · rw [if_neg hr30]
            cases hr4 : sys_env_set_status s3 envid L.ENV_RUNNABLE with
            | mk r4 s4 =>
            dsimp only
            have e4 := e3.trans (ext_set_status L _ hr4 (fun r => hq _ rfl rfl))
            by_cases hr40 : r4 ≠ 0
            · rw [if_pos hr40]; exact e4
            · rw [if_neg hr40]; exact e4

theorem fork_ext (L : Layout) (hL : L.OK) (s : State) :
    Ext L (fun c => c.permFine L ∧ c.mapsWritable L = false) s ((fork L s).final s) := by
  have hq : ∀ c : Call, c.permOf = 0 → c.isPageMap = false →
      c.permFine L ∧ c.mapsWritable L = false :=
    fun c h1 h2 => ⟨permFine_zero L c h1, mapsWritable_other L c h2⟩
  unfold fork
  cases hx : sys_exofork L (set_pgfault_handler s) with
  | mk r sx =>
  dsimp only
  apply forkAfter_ext L hL r sx s
  exact (ext_handler L (fun c => c.permFine L ∧ c.mapsWritable L = false) s
    (hq .set_pgfault_handler rfl rfl)).trans (ext_exofork L _ hx (fun r => hq (.exofork r) rfl rfl))

/-- `duppage2` passes only permission sets without COW. -/
theorem duppage2_ext (L : Layout) (hL : L.OK) (s : State) (dstenv : Int) (addr : Nat) :
    Ext L (fun c => c.permFine L) s ((duppage2 L s dstenv addr).final s) := by
  obtain ⟨hm, new, hlog, hshape⟩ := duppage2_steps L hL s dstenv addr
  have hpf : ∀ (c : Call), c.permOf = L.PTE_P ||| L.PTE_U ||| L.PTE_W → c.permFine L := by
    intro c hc
    unfold Call.permFine
    rw [hc]
    exact Or.inr (perm_puw_not_cow L hL)
  refine ⟨hm, new, hlog, ?_⟩
  intro c hc
  rcases hshape with ⟨r1, rfl⟩ | ⟨r2, rest, rfl, hrest⟩
  · rw [List.mem_singleton.mp hc]
    exact hpf _ rfl
  · rcases List.mem_cons.mp hc with rfl | hc
    · exact hpf _ rfl
    · rcases List.mem_cons.mp hc with rfl | hc
      · exact hpf _ rfl
      · exact permFine_zero L c (hrest c hc).1

theorem sforkLoop_ext (L : Layout) (hL : L.OK) (envid : Int) :
    ∀ fuel addr p s sb, sharePerm L p → Ext L (fun c => c.permFine L) sb s →
      (∀ v s', sforkLoop L envid fuel addr p s = .ok v s' → Ext L (fun c => c.permFine L) sb s') ∧
      (∀ s', sforkLoop L envid fuel addr p s = .panic s' →
        Ext L (fun c => c.permFine L) sb s') := by
  intro fuel
  induction fuel with
  | zero =>
    intro addr p s sb _ _
    exact ⟨(by intro v s' h; cases h), (by intro s' h; cases h)⟩
  | succ fuel ih =>
    intro addr p s sb hp h
    rw [sforkLoop]
    by_cases ha : addr < L.USTACKTOP - L.PGSIZE
    · rw [if_pos ha]
      by_cases hpr : uvpd L s (PDX L addr) &&& L.PTE_P ≠ 0 ∧
          uvpt s (PGNUM L addr) &&& L.PTE_P ≠ 0
      · rw [if_pos hpr]
        dsimp only
        have hq := sharePerm_step L hL p (uvpt s (PGNUM L addr)) hp
        have hqc := (sharePerm_facts L hL _ hq).2.2.1
        cases hr1 : sys_page_map L s 0 addr envid addr
            (if uvpt s (PGNUM L addr) &&& L.PTE_W ≠ 0 then u16 (p ||| L.PTE_W) else p) with
        | mk r1 s1 =>
        dsimp only
        have e1 := h.trans (ext_page_map L (fun c => c.permFine L) hr1 (fun r => Or.inr hqc)
          (Or.inr hqc))
        by_cases hr10 : r1 ≠ 0
        · rw [if_pos hr10]
          refine ⟨(by intro v s' h; cases h), ?_⟩
          intro s' h'
          cases h'
          exact e1
        · rw [if_neg hr10]
          by_cases hsh : uvpt s1 (PGNUM L addr) &&& L.PTE_SHARE = 0
          · rw [if_pos hsh]
            cases hr2 : sys_page_map L s1 0 addr 0 addr
                (if uvpt s (PGNUM L addr) &&& L.PTE_W ≠ 0 then u16 (p ||| L.PTE_W) else p) with
            | mk r2 s2 =>
            dsimp only
            have e2 := e1.trans (ext_page_map L (fun c => c.permFine L) hr2
              (fun r => Or.inr hqc) (Or.inr hqc))
            by_cases hr20 : r2 ≠ 0
            · rw [if_pos hr20]
              refine ⟨(by intro v s' h; cases h), ?_⟩
              intro s' h'
              cases h'
              exact e2
            · rw [if_neg hr20]
              exact ih _ _ s2 sb hq e2
          · rw [if_neg hsh]
            exact ih _ _ s1 sb hq e1
      · rw [if_neg hpr]
        exact ih _ _ s sb hp h
    · rw [if_neg ha]
      refine ⟨?_, (by intro s' h; cases h)⟩
      intro v s' h'
      cases h'
      exact h

theorem sfork_ext (L : Layout) (hL : L.OK) (s : State) :
    Ext L (fun c => c.permFine L) s ((sfork L s).final s) := by
  unfold sfork
  cases hx : sys_exofork L s with
  | mk r sx =>
  dsimp only
  have ex : Ext L (fun c => c.permFine L) s sx :=
    ext_exofork L _ hx (fun r => permFine_zero L _ rfl)
  unfold sforkAfter
  by_cases h1 : r < 0
  · rw [if_pos h1]; exact ex
  · rw [if_neg h1]
    by_cases h2 : r = 0
    · rw [if_pos h2]
      exact ex.trans (ext_step L _ sx _ (.getenvid sx.cur) 0 rfl (permFine_zero L _ rfl)
        (Or.inl (Nat.zero_and _)) (fun _ _ _ hm => Or.inl hm))
    · rw [if_neg h2]
      obtain ⟨lok, lpanic⟩ := sforkLoop_ext L hL r (L.USTACKTOP + 1) 0
        (u16 (L.PTE_SHARE ||| L.PTE_U ||| L.PTE_P)) sx s (sharePerm_init L hL) ex
      cases hloop : sforkLoop L r (L.USTACKTOP + 1) 0
          (u16 (L.PTE_SHARE ||| L.PTE_U ||| L.PTE_P)) sx with
      | timeout => exact Ext.refl L _ s
      | panic s1 => exact lpanic s1 hloop
      | ok p s1 =>
        dsimp only
        have e1 := lok p s1 hloop
        have hd := duppage2_ext L hL s1 r (L.USTACKTOP - L.PGSIZE)
        cases hdup : duppage2 L s1 r (L.USTACKTOP - L.PGSIZE) with
        | timeout => exact Ext.refl L _ s
        | panic s2 => rw [hdup] at hd; exact e1.trans hd
        | ok u s2 =>
          rw [hdup] at hd
          dsimp only
          cases hr4 : sys_env_set_status s2 r L.ENV_RUNNABLE with
          | mk r4 s4 =>
          dsimp only
          have e4 := (e1.trans hd).trans (ext_set_status L _ hr4
            (fun r => permFine_zero L _ rfl))
          by_cases hr40 : r4 ≠ 0
          · rw [if_pos hr40]; exact e4
          · rw [if_neg hr40]; exact e4

/-! ### The permission invariant -/

/-- Each of `pgfault`, `duppage`, `fork`, `duppage2` and `sfork`, whether it
returns or panics, keeps the invariant that no mapping of any
process is Writable and COW at once, and every permission set it passes to the
allocate-and-map and map-existing primitives omits Writable or omits COW.
`duppage` and `fork` pass Writable to no map-existing call.  `pgfault` and
`duppage2` pass Writable to a map-existing call only when the source of that
call is the page the same run has allocated before with success: the scratch
page `PFTEMP` for `pgfault`, the target's page at `addr` for `duppage2`.
`fork` and `sfork` do not run out of fuel. -/
theorem permission_invariant (L : Layout) (hL : L.OK) (s : State) :
    (∀ addr err,
      (NoWCow L s → NoWCow L ((pgfault L s addr err).final s)) ∧
      ∃ new, ((pgfault L s addr err).final s).log = s.log ++ new ∧
        (∀ c ∈ new, c.permFine L) ∧
        ∀ c ∈ new, c.mapsWritable L = true →
          (∃ r, c = .page_map 0 L.PFTEMP 0 (ROUNDDOWN addr L.PGSIZE)
            (L.PTE_U ||| L.PTE_W ||| L.PTE_P) r) ∧
          Call.page_alloc 0 L.PFTEMP (L.PTE_U ||| L.PTE_W ||| L.PTE_P) 0 ∈ new) ∧
    (∀ envid pn,
      (NoWCow L s → NoWCow L ((duppage L s envid pn).final s)) ∧
      ∃ new, ((duppage L s envid pn).final s).log = s.log ++ new ∧
        (∀ c ∈ new, c.permFine L) ∧ ∀ c ∈ new, c.mapsWritable L = false) ∧
    ((NoWCow L s → NoWCow L ((fork L s).final s)) ∧
      ∃ new, ((fork L s).final s).log = s.log ++ new ∧
        (∀ c ∈ new, c.permFine L) ∧ ∀ c ∈ new, c.mapsWritable L = false) ∧
    (∀ dstenv addr,
      (NoWCow L s → NoWCow L ((duppage2 L s dstenv addr).final s)) ∧
      ∃ new, ((duppage2 L s dstenv addr).final s).log = s.log ++ new ∧
        (∀ c ∈ new, c.permFine L) ∧
        ∀ c ∈ new, c.mapsWritable L = true →
          (∃ r, c = .page_map dstenv addr 0 L.UTEMP (L.PTE_P ||| L.PTE_U ||| L.PTE_W) r) ∧
          Call.page_alloc dstenv addr (L.PTE_P ||| L.PTE_U ||| L.PTE_W) 0 ∈ new) ∧
    ((NoWCow L s → NoWCow L ((sfork L s).final s)) ∧
      ∃ new, ((sfork L s).final s).log = s.log ++ new ∧ ∀ c ∈ new, c.permFine L) ∧
    fork L s ≠ .timeout ∧ sfork L s ≠ .timeout := by
  have hfine : ∀ (c : Call), c.permOf &&& PTE_COW = 0 → c.permFine L := fun c h => Or.inr h
  refine ⟨?_, ?_, ?_, ?_, ?_, fork_ne_timeout L hL s, (sfork_spec L hL s).2.2⟩
  · intro addr err
    obtain ⟨hm, new, hlog, hshape⟩ := pgfault_steps L hL s addr err
    refine ⟨fun hinv id pn m h => ?_, new, hlog, ?_, ?_⟩
    · rcases hm id pn m h with h1 | h1
      · exact hinv id pn m h1
      · exact h1
    · intro c hc
      rcases hshape with rfl | ⟨r1, rfl⟩ | ⟨r2, rest, rfl, hrest⟩
      · cases hc
      · rw [List.mem_singleton.mp hc]
        exact hfine _ (perm_uwp_not_cow L hL)
      · rcases List.mem_cons.mp hc with rfl | hc
        · exact hfine _ (perm_uwp_not_cow L hL)
        · rcases List.mem_cons.mp hc with rfl | hc
          · exact hfine _ (perm_uwp_not_cow L hL)
          · exact permFine_zero L c (hrest c hc).1
    · intro c hc hw
      rcases hshape with rfl | ⟨r1, rfl⟩ | ⟨r2, rest, rfl, hrest⟩
      · cases hc
      · rw [List.mem_singleton.mp hc] at hw
        cases hw
      · rcases List.mem_cons.mp hc with rfl | hc
        · cases hw
        · rcases List.mem_cons.mp hc with rfl | hc
          · exact ⟨⟨r2, rfl⟩, List.mem_cons_self _ _⟩
          · rw [mapsWritable_other L c (hrest c hc).2] at hw
            cases hw
  · intro envid pn
    have h := duppage_ext L hL s s envid pn (Ext.refl L _ s)
    obtain ⟨hm, new, hlog, hq⟩ := h
    refine ⟨fun hinv id pn' m h' => ?_, new, hlog, fun c hc => (hq c hc).1,
      fun c hc => (hq c hc).2⟩
    rcases hm id pn' m h' with h1 | h1
    · exact hinv id pn' m h1
    · exact h1
  · obtain ⟨hm, new, hlog, hq⟩ := fork_ext L hL s
    refine ⟨fun hinv id pn' m h' => ?_, new, hlog, fun c hc => (hq c hc).1,
      fun c hc => (hq c hc).2⟩
    rcases hm id pn' m h' with h1 | h1
    · exact hinv id pn' m h1
    · exact h1
  · intro dstenv addr
    obtain ⟨hm, new, hlog, hshape⟩ := duppage2_steps L hL s dstenv addr
    refine ⟨fun hinv id pn m h => ?_, new, hlog, ?_, ?_⟩
    · rcases hm id pn m h with h1 | h1
      · exact hinv id pn m h1
      · exact h1
    · intro c hc
      rcases hshape with ⟨r1, rfl⟩ | ⟨r2, rest, rfl, hrest⟩
      · rw [List.mem_singleton.mp hc]
        exact hfine _ (perm_puw_not_cow L hL)
      · rcases List.mem_cons.mp hc with rfl | hc
        · exact hfine _ (perm_puw_not_cow L hL)
        · rcases List.mem_cons.mp hc with rfl | hc
          · exact hfine _ (perm_puw_not_cow L hL)
          · exact permFine_zero L c (hrest c hc).1
    · intro c hc hw
      rcases hshape with ⟨r1, rfl⟩ | ⟨r2, rest, rfl, hrest⟩
      · rw [List.mem_singleton.mp hc] at hw
        cases hw
      · rcases List.mem_cons.mp hc with rfl | hc
        · cases hw
        · rcases List.mem_cons.mp hc with rfl | hc
          · exact ⟨⟨r2, rfl⟩, List.mem_cons_self _ _⟩
          · rw [mapsWritable_other L c (hrest c hc).2] at hw
            cases hw
  · obtain ⟨hm, new, hlog, hq⟩ := sfork_ext L hL s
    refine ⟨fun hinv id pn' m h' => ?_, new, hlog, hq⟩
    rcases hm id pn' m h' with h1 | h1
    · exact hinv id pn' m h1
    · exact h1

/-- The invariant read off the tables: when no entry of any page table is
Writable and COW at once, no mapping is. -/
theorem noWCow_of_entries (L : Layout) (s : State)
    (h : ∀ e ∈ s.envs, ∀ p ∈ e.2.pgtbl, p.2.perm &&& L.PTE_W = 0 ∨ p.2.perm &&& PTE_COW = 0) :
    NoWCow L s := by
  intro id pn m hm
  unfold State.mapping State.env at hm
  cases he : tget s.envs id with
  | none => rw [he] at hm; cases hm
  | some e =>
    rw [he] at hm
    exact h (id, e) (tget_mem _ _ _ he) (pn, m) (tget_mem _ _ _ hm)

/-! ## The claims -/

/-- C1. COW symmetry of `duppage`: when the caller's entry for page `pn` has
Writable or COW (hence is mapped) and `duppage` returns, i.e. both mapping
calls succeeded, the caller's and the target's mapping of `pn` are both the
frame the caller's page had before, with permission User|Present|COW, which
has COW set and Writable clear. -/
theorem duppage_cow_symmetry (L : Layout) (hL : L.OK) (s s' : State) (envid v : Int) (pn : Nat)
    (hpn : pn * L.PGSIZE < 2 ^ 32)
    (hw : uvpt s pn &&& L.PTE_W ≠ 0 ∨ uvpt s pn &&& PTE_COW ≠ 0)
    (hok : duppage L s envid pn = .ok v s') :
    ∃ f, s.mapping s.cur pn = some ⟨f, uvpt s pn⟩ ∧
      s'.mapping s.cur pn = some ⟨f, L.PTE_U ||| L.PTE_P ||| PTE_COW⟩ ∧
      s'.mapping (s.resolve envid) pn = some ⟨f, L.PTE_U ||| L.PTE_P ||| PTE_COW⟩ ∧
      (L.PTE_U ||| L.PTE_P ||| PTE_COW) &&& PTE_COW ≠ 0 ∧
      (L.PTE_U ||| L.PTE_P ||| PTE_COW) &&& L.PTE_W = 0 := by
  have hcow : (L.PTE_U ||| L.PTE_P ||| PTE_COW) &&& PTE_COW ≠ 0 :=
    and_or_ne_zero_right _ _ (by decide)
  have hnw : (L.PTE_U ||| L.PTE_P ||| PTE_COW) &&& L.PTE_W = 0 := by
    obtain ⟨-, -, -, -, -, -, -, -, -, -, -, -, -, -, -, -, hPW, -, hWU, -, hWC, -⟩ := hL
    refine or_and_eq_zero _ _ _ (or_and_eq_zero _ _ _ ?_ hPW) ?_
    · rw [Nat.and_comm]; exact hWU
    · rw [Nat.and_comm]; exact hWC
  obtain ⟨m, hm, hmp⟩ : ∃ m, s.mapping s.cur pn = some m ∧ m.perm = uvpt s pn := by
    rcases hw with h | h
    · exact uvpt_ne_zero s pn _ h
    · exact uvpt_ne_zero s pn _ h
  refine ⟨m.frame, ?_, ?_, ?_, hcow, hnw⟩
  · rw [hm, ← hmp]
  all_goals
    unfold duppage at hok
    simp only [uvpt_record, duppagePerm_cow L hL _ hw] at hok
    rcases sys_page_map_cases L (s.record (.duppage envid pn)) 0 (u32 (pn * L.PGSIZE)) envid
      (u32 (pn * L.PGSIZE)) (L.PTE_U ||| L.PTE_P ||| PTE_COW) with ⟨m1, hd1, hm1, h1⟩ | ⟨r, hr, h1⟩
    · rw [h1] at hok
      simp only [ne_eq, not_true_eq_false, if_false, hcow, not_false_eq_true, if_true] at hok
      rcases sys_page_map_cases L
        (((s.record (.duppage envid pn)).install L ((s.record (.duppage envid pn)).resolve envid)
          (u32 (pn * L.PGSIZE)) ⟨m1.frame, L.PTE_U ||| L.PTE_P ||| PTE_COW⟩).record
            (.page_map 0 (u32 (pn * L.PGSIZE)) envid (u32 (pn * L.PGSIZE))
              (L.PTE_U ||| L.PTE_P ||| PTE_COW) 0))
        0 (u32 (pn * L.PGSIZE)) 0
        (u32 (pn * L.PGSIZE)) (L.PTE_U ||| L.PTE_P ||| PTE_COW) with ⟨m2, hd2, hm2, h2⟩ | ⟨r, hr, h2⟩
      · rw [h2] at hok
        simp only [ne_eq, not_true_eq_false, if_false, Result.ok.injEq] at hok
        obtain ⟨-, rfl⟩ := hok
        simp only [resolve_record, resolve_install, resolve_zero, mapping_record,
          mapping_install, PGNUM_page L hL pn hpn, env_record, true_and,
          env_isSome_install, cur_record, cur_install] at hd1 hm1 hd2 hm2 ⊢
        rw [hm] at hm1
        cases hm1
        have hf : m2.frame = m.frame := by
          split at hm2
          · cases hm2; rfl
          · rw [hm] at hm2; cases hm2; rfl
        rw [hf]
        simp [hd1, hd2]
      · rw [h2] at hok
        have : r ≠ 0 := by omega
        simp [this] at hok
    · rw [h1] at hok
      have : r ≠ 0 := by omega
      simp [this] at hok

/-- C1 at the sample state: the writable page 1 of process 1 is duplicated into
process 2. -/
theorem duppage_cow_symmetry_witness :
    ∃ f, demo.mapping demo.cur 1 = some ⟨f, uvpt demo 1⟩ ∧
      ((duppage jos demo 2 1).final demo).mapping demo.cur 1 =
        some ⟨f, jos.PTE_U ||| jos.PTE_P ||| PTE_COW⟩ ∧
      ((duppage jos demo 2 1).final demo).mapping (demo.resolve 2) 1 =
        some ⟨f, jos.PTE_U ||| jos.PTE_P ||| PTE_COW⟩ ∧
      (jos.PTE_U ||| jos.PTE_P ||| PTE_COW) &&& PTE_COW ≠ 0 ∧
      (jos.PTE_U ||| jos.PTE_P ||| PTE_COW) &&& jos.PTE_W = 0 :=
  duppage_cow_symmetry jos (by decide) demo ((duppage jos demo 2 1).final demo) 2 0 1
    (by decide) (by decide) rfl

set_option maxRecDepth 1000000 in
/-- C3, as stated, fails for a fault in the scratch page itself: with the page
at `PFTEMP` mapped copy-on-write, a write fault at `0x7ff004` makes all three
calls succeed and `pgfault` return, yet the faulting page ends up unmapped
instead of mapped writable on a fresh frame. -/
theorem pgfault_scratch_page_counterexample :
    ∃ s', pgfault jos scratchCow 0x7ff004 7 = .ok () s' ∧
      7 &&& jos.FEC_WR ≠ 0 ∧
      uvpt scratchCow (PGNUM jos 0x7ff004) &&& PTE_COW ≠ 0 ∧
      s'.mapping scratchCow.cur (PGNUM jos (ROUNDDOWN 0x7ff004 jos.PGSIZE)) = none :=
  ⟨(pgfault jos scratchCow 0x7ff004 7).final scratchCow, rfl, by decide, by decide,
    by decide⟩

/-- C3, amended. Privatize-on-write: when `pgfault` returns for a fault at
`addr` whose page is not the scratch page `PFTEMP` (it returns only for a write
fault on a COW page, after its three calls succeeded), the page of
`ROUNDDOWN(addr, PGSIZE)` is mapped with exactly User|Writable|Present, which
has no COW bit, on a frame that no page table referenced before, so distinct
from the frame the page had, and all `PGSIZE` bytes of the new frame equal
those of the old frame before the fault. -/
theorem pgfault_privatizes (L : Layout) (hL : L.OK) (s s' : State) (addr err : Nat)
    (hne : PGNUM L addr ≠ PGNUM L L.PFTEMP)
    (hok : pgfault L s addr err = .ok () s') :
    err &&& L.FEC_WR ≠ 0 ∧ uvpt s (PGNUM L addr) &&& PTE_COW ≠ 0 ∧
    ∃ fold fnew, s.mapping s.cur (PGNUM L addr) = some ⟨fold, uvpt s (PGNUM L addr)⟩ ∧
      s'.mapping s.cur (PGNUM L (ROUNDDOWN addr L.PGSIZE)) =
        some ⟨fnew, L.PTE_U ||| L.PTE_W ||| L.PTE_P⟩ ∧
      (L.PTE_U ||| L.PTE_W ||| L.PTE_P) &&& PTE_COW = 0 ∧
      s.frameInUse fnew = false ∧ fnew ≠ fold ∧
      ∀ off, off < L.PGSIZE → s'.mem fnew off = s.mem fold off := by
  obtain ⟨hwr, hcow, f, hf, he, rfl⟩ := pgfault_ok L s s' addr err hok
  obtain ⟨m, hm, hmp⟩ := uvpt_ne_zero s _ _ hcow
  have hP : 0 < L.PGSIZE := hL.1
  refine ⟨hwr, hcow, m.frame, f, ?_, ?_, ?_, freshFrame_not_inUse s f hf,
    (freshFrame_ne s f hf _ _ m hm).symm, ?_⟩
  · rw [hm, ← hmp]
  · rw [mapping_pgfaultDone L hP s addr f he, PGNUM_ROUNDDOWN L hP]
    simp [hne]
  · obtain ⟨-, -, -, -, -, -, -, -, -, -, -, -, -, -, -, -, -, -, -, hPC, hWC, hUC, -⟩ := hL
    exact or_and_eq_zero _ _ _ (or_and_eq_zero _ _ _ hUC hWC) hPC
  · intro off hoff
    rw [mem_pgfaultDone L hL s addr f m he hne hm]
    simp [hoff]

set_option maxRecDepth 1000000 in
/-- C3, amended, at the sample state: a write fault at `0x3010`, inside the
copy-on-write page 3. -/
theorem pgfault_privatizes_witness :
    7 &&& jos.FEC_WR ≠ 0 ∧ uvpt demo (PGNUM jos 0x3010) &&& PTE_COW ≠ 0 ∧
    ∃ fold fnew, demo.mapping demo.cur (PGNUM jos 0x3010) =
        some ⟨fold, uvpt demo (PGNUM jos 0x3010)⟩ ∧
      ((pgfault jos demo 0x3010 7).final demo).mapping demo.cur
          (PGNUM jos (ROUNDDOWN 0x3010 jos.PGSIZE)) =
        some ⟨fnew, jos.PTE_U ||| jos.PTE_W ||| jos.PTE_P⟩ ∧
      (jos.PTE_U ||| jos.PTE_W ||| jos.PTE_P) &&& PTE_COW = 0 ∧
      demo.frameInUse fnew = false ∧ fnew ≠ fold ∧
      ∀ off, off < jos.PGSIZE →
        ((pgfault jos demo 0x3010 7).final demo).mem fnew off = demo.mem fold off :=
  pgfault_privatizes jos (by decide) demo ((pgfault jos demo 0x3010 7).final demo) 0x3010 7
    (by decide) rfl

/-- C4. Frame condition of `pgfault`: with the scratch slot `PFTEMP` unmapped
before the fault, a `pgfault` that returns changes the mapping of the faulting
page of the faulting process and no other: every other page of that process
keeps its mapping, the scratch slot is unmapped again, every mapping of every
other process is unchanged, and the bytes of every frame that was in use, the
formerly shared one included, are unchanged. -/
theorem pgfault_frame_condition (L : Layout) (hL : L.OK) (s s' : State) (addr err : Nat)
    (hscratch : s.mapping s.cur (PGNUM L L.PFTEMP) = none)
    (hok : pgfault L s addr err = .ok () s') :
    s'.cur = s.cur ∧
    s'.mapping s.cur (PGNUM L addr) ≠ s.mapping s.cur (PGNUM L addr) ∧
    (∀ pn, pn ≠ PGNUM L addr → s'.mapping s.cur pn = s.mapping s.cur pn) ∧
    s'.mapping s.cur (PGNUM L L.PFTEMP) = none ∧
    (∀ id pn, id ≠ s.cur → s'.mapping id pn = s.mapping id pn) ∧
    (∀ f, s.frameInUse f = true → ∀ off, s'.mem f off = s.mem f off) := by
  obtain ⟨hwr, hcow, f, hf, he, rfl⟩ := pgfault_ok L s s' addr err hok
  obtain ⟨m, hm, hmp⟩ := uvpt_ne_zero s _ _ hcow
  have hP : 0 < L.PGSIZE := hL.1
  have hne : PGNUM L addr ≠ PGNUM L L.PFTEMP := by
    intro h
    rw [h, hscratch] at hm
    cases hm
  refine ⟨cur_pgfaultDone L s addr f, ?_, ?_, ?_, ?_, ?_⟩
  · rw [mapping_pgfaultDone L hP s addr f he, hm]
    simp only [hne, and_false, if_false, and_self, if_true, ne_eq, Option.some.injEq]
    intro h
    have h1 := freshFrame_ne s f hf _ _ m hm
    rw [← h] at h1
    exact h1 rfl
  · intro pn hpn
    rw [mapping_pgfaultDone L hP s addr f he]
    by_cases h1 : pn = PGNUM L L.PFTEMP
    · subst h1; simp [hscratch]
    · simp [h1, hpn]
  · rw [mapping_pgfaultDone L hP s addr f he]
    simp
  · intro id pn hid
    rw [mapping_pgfaultDone L hP s addr f he]
    simp [hid]
  · intro fr hfr off
    rw [mem_pgfaultDone L hL s addr f m he hne hm]
    have : fr ≠ f := by
      intro h
      rw [h, freshFrame_not_inUse s f hf] at hfr
      cases hfr
    simp [this]

set_option maxRecDepth 1000000 in
/-- C4 at the sample state: a write fault at `0x3010`, inside the copy-on-write
page 3, with nothing mapped at `PFTEMP`. -/
theorem pgfault_frame_condition_witness :
    ((pgfault jos demo 0x3010 7).final demo).cur = demo.cur ∧
    ((pgfault jos demo 0x3010 7).final demo).mapping demo.cur (PGNUM jos 0x3010) ≠
      demo.mapping demo.cur (PGNUM jos 0x3010) ∧
    (∀ pn, pn ≠ PGNUM jos 0x3010 →
      ((pgfault jos demo 0x3010 7).final demo).mapping demo.cur pn = demo.mapping demo.cur pn) ∧
    ((pgfault jos demo 0x3010 7).final demo).mapping demo.cur (PGNUM jos jos.PFTEMP) = none ∧
    (∀ id pn, id ≠ demo.cur →
      ((pgfault jos demo 0x3010 7).final demo).mapping id pn = demo.mapping id pn) ∧
    (∀ f, demo.frameInUse f = true → ∀ off,
      ((pgfault jos demo 0x3010 7).final demo).mem f off = demo.mem f off) :=
  pgfault_frame_condition jos (by decide) demo ((pgfault jos demo 0x3010 7).final demo) 0x3010 7
    (by decide) rfl

/-- C5. Activation order of `fork`: when `fork` returns the child id `v`, the
calls it made are, in this order, the handler registration, the creation of the
child, the `duppage` invocations (with their mapping calls, all successful) for
exactly the present pages below `USTACKTOP`, the allocation of the child's
exception-stack page at `UXSTACKTOP - PGSIZE`, the registration of the child's
upcall, and last the set-status call.  In the state `s3` in which that last
call is made the child is still not runnable, its exception stack is mapped
and its upcall is set; only the last call makes it runnable. -/
theorem fork_activation_order (L : Layout) (hL : L.OK) (s s' : State) (v : Int)
    (hok : fork L s = .ok v s') :
    ∃ dups s3 f,
      s'.log = s.log ++ [.set_pgfault_handler, .exofork v] ++ dups ++
        [.page_alloc v (L.UXSTACKTOP - L.PGSIZE) (L.PTE_U ||| L.PTE_W ||| L.PTE_P) 0,
         .set_pgfault_upcall v L.pgfault_upcall 0,
         .set_status v L.ENV_RUNNABLE 0] ∧
      (∀ c ∈ dups, c.ret = 0 ∧ (c.isPageMap = true ∨ c.isDuppage = true)) ∧
      dupCalls dups = presentPages L s v ∧
      sys_env_set_status s3 v L.ENV_RUNNABLE = (0, s') ∧
      s3.status v = some L.ENV_NOT_RUNNABLE ∧
      s3.mapping v (PGNUM L (L.UXSTACKTOP - L.PGSIZE)) =
        some ⟨f, L.PTE_U ||| L.PTE_W ||| L.PTE_P⟩ ∧
      s3.upcall v = some L.pgfault_upcall ∧
      s'.status v = some L.ENV_RUNNABLE := by
  obtain ⟨hpos, -, -, s1, f, dups, -, hst, -, hl1, hdups, hdc, -, he, rfl⟩ :=
    fork_ok L hL s s' v hok
  refine ⟨dups, forkReady L s1 v f, f, ?_, hdups, hdc, forkDone_eq L s1 v f hpos he, ?_, ?_,
    upcall_forkReady L s1 v f he, status_forkDone L s1 v f he⟩
  · rw [log_forkDone, hl1]
  · rw [status_forkReady, hst]
  · rw [mapping_forkReady L s1 v v f _ he]
    simp

set_option maxRecDepth 1000000 in
/-- C5 at the sample state, in the layout with 2050 pages below the stack top:
the parent (id 1) forks the child 3. -/
theorem fork_activation_order_witness :
    ∃ dups s3 f,
      ((fork small demo).final demo).log =
        demo.log ++ [.set_pgfault_handler, .exofork 3] ++ dups ++
        [.page_alloc 3 (small.UXSTACKTOP - small.PGSIZE)
            (small.PTE_U ||| small.PTE_W ||| small.PTE_P) 0,
         .set_pgfault_upcall 3 small.pgfault_upcall 0,
         .set_status 3 small.ENV_RUNNABLE 0] ∧
      (∀ c ∈ dups, c.ret = 0 ∧ (c.isPageMap = true ∨ c.isDuppage = true)) ∧
      dupCalls dups = presentPages small demo 3 ∧
      sys_env_set_status s3 3 small.ENV_RUNNABLE = (0, (fork small demo).final demo) ∧
      s3.status 3 = some small.ENV_NOT_RUNNABLE ∧
      s3.mapping 3 (PGNUM small (small.UXSTACKTOP - small.PGSIZE)) =
        some ⟨f, small.PTE_U ||| small.PTE_W ||| small.PTE_P⟩ ∧
      s3.upcall 3 = some small.pgfault_upcall ∧
      ((fork small demo).final demo).status 3 = some small.ENV_RUNNABLE :=
  fork_activation_order small (by decide) demo ((fork small demo).final demo) 3 rfl

/-- C6, as stated, fails for a read-only page that carries another bit: page 1
of the caller is present, neither Writable nor COW, and tagged Shared
(`0x405`); `duppage` succeeds, and the target's permissions are `0x005`, not
the caller's. -/
theorem duppage_readonly_counterexample :
    ∃ s', duppage jos shareRo 2 1 = .ok 0 s' ∧
      uvpt shareRo 1 &&& jos.PTE_P ≠ 0 ∧ uvpt shareRo 1 &&& jos.PTE_W = 0 ∧
      uvpt shareRo 1 &&& PTE_COW = 0 ∧
      shareRo.mapping shareRo.cur 1 = some ⟨7, 0x405⟩ ∧
      s'.mapping 2 1 = some ⟨7, 0x005⟩ :=
  ⟨(duppage jos shareRo 2 1).final shareRo, rfl, by decide, by decide, by decide, by decide,
    by decide⟩

/-- C6, amended. Read-only sharing in `duppage`: when the caller's entry for
page `pn` has neither Writable nor COW and `duppage` returns, the target's
mapping of `pn` references the caller's frame with permissions exactly
User|Present (whatever other bits the caller's entry has), exactly one mapping
call was made, and the caller's own mapping is unchanged when the target is
another process. -/
theorem duppage_readonly (L : Layout) (hL : L.OK) (s s' : State) (envid v : Int) (pn : Nat)
    (hpn : pn * L.PGSIZE < 2 ^ 32)
    (hro : uvpt s pn &&& L.PTE_W = 0 ∧ uvpt s pn &&& PTE_COW = 0)
    (hok : duppage L s envid pn = .ok v s') :
    ∃ f, s.mapping s.cur pn = some ⟨f, uvpt s pn⟩ ∧
      s'.mapping (s.resolve envid) pn = some ⟨f, L.PTE_U ||| L.PTE_P⟩ ∧
      (s.resolve envid ≠ s.cur → s'.mapping s.cur pn = s.mapping s.cur pn) ∧
      s'.log = s.log ++ [.duppage envid pn,
        .page_map 0 (pn * L.PGSIZE) envid (pn * L.PGSIZE) (L.PTE_U ||| L.PTE_P) 0] := by
  have hP : 0 < L.PGSIZE := hL.1
  have hperm : duppagePerm L (uvpt s pn) = L.PTE_U ||| L.PTE_P :=
    duppagePerm_plain L hL _ (by simp [hro.1, hro.2])
  have hnc : ¬ ((L.PTE_U ||| L.PTE_P) &&& PTE_COW ≠ 0) := by
    obtain ⟨-, -, -, -, -, -, -, -, -, -, -, -, -, -, -, -, -, -, -, hPC, -, hUC, -⟩ := hL
    simp [or_and_eq_zero _ _ _ hUC hPC]
  unfold duppage at hok
  rw [u32_page L pn hpn] at hok
  simp only [uvpt_record, hperm] at hok
  cases hr1 : sys_page_map L (s.record (.duppage envid pn)) 0 (pn * L.PGSIZE) envid
      (pn * L.PGSIZE) (L.PTE_U ||| L.PTE_P) with
  | mk r1 s1 =>
  rw [hr1] at hok
  dsimp only at hok
  rcases sys_page_map_spec hr1 with ⟨rfl, m1, he1, hm1, hs1⟩ | ⟨hneg, -⟩
  · simp only [ne_eq, not_true_eq_false, if_false] at hok
    rw [if_neg hnc] at hok
    simp only [Result.ok.injEq] at hok
    obtain ⟨-, rfl⟩ := hok
    simp only [resolve_record, resolve_zero, cur_record, mapping_record, PGNUM_mul L hP,
      env_record] at hm1 he1 hs1
    have hu : uvpt s pn = m1.perm := by unfold uvpt; rw [hm1]
    refine ⟨m1.frame, ?_, ?_, ?_, ?_⟩
    · rw [hm1, hu]
    · rw [hs1, mapping_record, mapping_install, PGNUM_mul L hP, env_record]
      simp [he1]
    · intro hne
      rw [hs1, mapping_record, mapping_install, mapping_record]
      have : ¬ s.cur = s.resolve envid := fun h => hne h.symm
      simp [this]
    · rw [hs1, log_record, log_install, log_record, List.append_assoc]
      rfl
  · have : r1 ≠ 0 := by omega
    simp [this] at hok

/-- C6, amended, at the sample state: the read-only page 2 of process 1 is
duplicated into process 2. -/
theorem duppage_readonly_witness :
    ∃ f, demo.mapping demo.cur 2 = some ⟨f, uvpt demo 2⟩ ∧
      ((duppage jos demo 2 2).final demo).mapping (demo.resolve 2) 2 =
        some ⟨f, jos.PTE_U ||| jos.PTE_P⟩ ∧
      (demo.resolve 2 ≠ demo.cur →
        ((duppage jos demo 2 2).final demo).mapping demo.cur 2 = demo.mapping demo.cur 2) ∧
      ((duppage jos demo 2 2).final demo).log = demo.log ++ [.duppage 2 2,
        .page_map 0 (2 * jos.PGSIZE) 2 (2 * jos.PGSIZE) (jos.PTE_U ||| jos.PTE_P) 0] :=
  duppage_readonly jos (by decide) demo ((duppage jos demo 2 2).final demo) 2 0 2
    (by decide) (by decide) rfl

/-- C7. Dual return of `fork`, by the value `envid` the creation primitive
returned: for a negative value `fork` panics at once; for the sentinel 0 it
returns 0 after the self-id query alone, the only change being `thisenv` (no
allocation, mapping, upcall or set-status call); for a positive child id it
either returns exactly that id or panics, and never anything else. -/
theorem fork_dual_return (L : Layout) (hL : L.OK) (s : State) (envid : Int) :
    (envid < 0 → forkAfter L envid s = .panic s) ∧
    (envid = 0 → forkAfter L envid s =
      .ok 0 { s with thisenv := s.cur, log := s.log ++ [.getenvid s.cur] }) ∧
    (0 < envid → (∃ s', forkAfter L envid s = .ok envid s') ∨
      (∃ s', forkAfter L envid s = .panic s')) := by
  refine ⟨?_, ?_, ?_⟩
  · intro h
    unfold forkAfter
    rw [if_pos h]
  · intro h
    subst h
    unfold forkAfter
    rw [if_neg (by omega), if_pos rfl]
    rfl
  · intro hpos
    cases h : forkAfter L envid s with
    | timeout => exact absurd h (forkAfter_ne_timeout L hL envid s)
    | panic s' => exact Or.inr ⟨s', rfl⟩
    | ok v s' =>
      obtain ⟨rfl, -⟩ := forkAfter_ok L hL envid v s s' hpos h
      exact Or.inl ⟨s', rfl⟩

set_option maxRecDepth 1000000 in
/-- C7 at the sample state with child id 2, where the parent's continuation
does return 2. -/
theorem fork_dual_return_witness :
    ((2 : Int) < 0 → forkAfter small 2 demo = .panic demo) ∧
    ((2 : Int) = 0 → forkAfter small 2 demo =
      .ok 0 { demo with thisenv := demo.cur, log := demo.log ++ [.getenvid demo.cur] }) ∧
    ((0 : Int) < 2 → (∃ s', forkAfter small 2 demo = .ok 2 s') ∨
      (∃ s', forkAfter small 2 demo = .panic s')) ∧
    forkAfter small 2 demo = .ok 2 ((forkAfter small 2 demo).final demo) :=
  ⟨(fork_dual_return small (by decide) demo 2).1, (fork_dual_return small (by decide) demo 2).2.1,
    (fork_dual_return small (by decide) demo 2).2.2, rfl⟩

/-- C8. Coverage of the page walk of `fork`, for a child id `envid > 0`: when
`fork` returns, the `duppage` invocations it made are exactly `presentPages`,
i.e. target `envid` and the page numbers `pn` with `pn * PGSIZE < USTACKTOP`
that are present at directory and table level, each once and in ascending
order; when it panics, the invocations made so far are an initial segment of
that list.  So no absent page and no page at or above `USTACKTOP` is ever
passed to `duppage`. -/
theorem fork_page_walk_coverage (L : Layout) (hL : L.OK) (s : State) (envid : Int)
    (hpos : 0 < envid) :
    (∀ v s', forkAfter L envid s = .ok v s' →
      ∃ new, s'.log = s.log ++ new ∧ dupCalls new = presentPages L s envid) ∧
    (∀ s', forkAfter L envid s = .panic s' →
      ∃ new rest, s'.log = s.log ++ new ∧ presentPages L s envid = dupCalls new ++ rest) ∧
    (∀ p, p ∈ presentPages L s envid ↔
      p.1 = envid ∧ p.2 * L.PGSIZE < L.USTACKTOP ∧ present L s p.2) ∧
    (presentPages L s envid).Pairwise (fun p q => p.2 < q.2) := by
  refine ⟨?_, ?_, mem_presentPages L hL s envid, presentPages_ascending L s envid⟩
  · intro v s' hok
    obtain ⟨-, s1, f, dups, -, -, hl1, -, hdc, -, -, rfl⟩ := forkAfter_ok L hL envid v s s' hpos hok
    refine ⟨dups ++ [.page_alloc envid (L.UXSTACKTOP - L.PGSIZE)
        (L.PTE_U ||| L.PTE_W ||| L.PTE_P) 0, .set_pgfault_upcall envid L.pgfault_upcall 0,
      .set_status envid L.ENV_RUNNABLE 0], ?_, ?_⟩
    · rw [log_forkDone, hl1, List.append_assoc]
    · simp [dupCalls_append, dupCalls, hdc]
  · intro s' hp
    obtain ⟨-, -, pre, c, hl, -, -, rest, hrest⟩ := forkAfter_panic L hL envid s s' hpos hp
    exact ⟨pre ++ [c], rest, hl, hrest⟩

set_option maxRecDepth 1000000 in
/-- C8 at the sample state with child id 2: the walk of 2050 pages invokes
`duppage` on the pages 1, 2 and 3. -/
theorem fork_page_walk_coverage_witness :
    ((∀ v s', forkAfter small 2 demo = .ok v s' →
      ∃ new, s'.log = demo.log ++ new ∧ dupCalls new = presentPages small demo 2) ∧
    (∀ s', forkAfter small 2 demo = .panic s' →
      ∃ new rest, s'.log = demo.log ++ new ∧ presentPages small demo 2 = dupCalls new ++ rest) ∧
    (∀ p, p ∈ presentPages small demo 2 ↔
      p.1 = 2 ∧ p.2 * small.PGSIZE < small.USTACKTOP ∧ present small demo p.2) ∧
    (presentPages small demo 2).Pairwise (fun p q => p.2 < q.2)) ∧
    presentPages small demo 2 = [(2, 1), (2, 2), (2, 3)] :=
  ⟨fork_page_walk_coverage small (by decide) demo 2 (by decide), by decide⟩

/-- C9. Exception-stack isolation under `fork`: when `fork` returns the child
id `v`, the child is another process than the parent, its page at
`UXSTACKTOP - PGSIZE` is mapped User|Writable|Present (Writable set, COW clear)
on a frame `f` that no other page of any process references, so in particular
the parent's page at the same address is on another frame, and no `duppage`
invocation was made for a page at or above `USTACKTOP`, the exception-stack
page included. -/
theorem fork_exception_stack_isolated (L : Layout) (hL : L.OK) (s s' : State) (v : Int)
    (hok : fork L s = .ok v s') :
    v ≠ s.cur ∧ s'.cur = s.cur ∧
    ∃ f, s'.mapping v (PGNUM L (L.UXSTACKTOP - L.PGSIZE)) =
        some ⟨f, L.PTE_U ||| L.PTE_W ||| L.PTE_P⟩ ∧
      (L.PTE_U ||| L.PTE_W ||| L.PTE_P) &&& L.PTE_W ≠ 0 ∧
      (L.PTE_U ||| L.PTE_W ||| L.PTE_P) &&& PTE_COW = 0 ∧
      (∀ id pn m, s'.mapping id pn = some m → m.frame = f →
        id = v ∧ pn = PGNUM L (L.UXSTACKTOP - L.PGSIZE)) ∧
      (∀ m, s'.mapping s.cur (PGNUM L (L.UXSTACKTOP - L.PGSIZE)) = some m → m.frame ≠ f) ∧
      ∃ new, s'.log = s.log ++ new ∧
        ∀ p ∈ dupCalls new, p.2 * L.PGSIZE < L.USTACKTOP ∧
          p.2 ≠ PGNUM L (L.UXSTACKTOP - L.PGSIZE) := by
  obtain ⟨hpos, hne, -, s1, f, dups, hc1, -, -, hl1, -, hdc, hf, he, rfl⟩ :=
    fork_ok L hL s s' v hok
  have hP : 0 < L.PGSIZE := hL.1
  have hpriv : ∀ id pn m, (forkDone L s1 v f).mapping id pn = some m → m.frame = f →
      id = v ∧ pn = PGNUM L (L.UXSTACKTOP - L.PGSIZE) := by
    intro id pn m hm hmf
    rw [mapping_forkDone L s1 v id f pn he] at hm
    by_cases h : id = v ∧ pn = PGNUM L (L.UXSTACKTOP - L.PGSIZE)
    · exact h
    · rw [if_neg h] at hm
      exact absurd hmf (freshFrame_ne s1 f hf id pn m hm)
  refine ⟨hne, ?_, f, ?_, perm_uwp_writable L hL, perm_uwp_not_cow L hL, hpriv, ?_, ?_⟩
  · unfold forkDone forkReady
    exact hc1
  · rw [mapping_forkDone L s1 v v f _ he]
    simp
  · intro m hm hmf
    exact hne.symm (hpriv _ _ m hm hmf).1
  · refine ⟨[.set_pgfault_handler, .exofork v] ++ dups ++
      [.page_alloc v (L.UXSTACKTOP - L.PGSIZE) (L.PTE_U ||| L.PTE_W ||| L.PTE_P) 0,
       .set_pgfault_upcall v L.pgfault_upcall 0, .set_status v L.ENV_RUNNABLE 0], ?_, ?_⟩
    · rw [log_forkDone, hl1]
      simp
    · intro p hp
      have hp' : p ∈ presentPages L s v := by
        rw [← hdc]
        simpa [dupCalls, dupCalls_append] using hp
      have hlt := ((mem_presentPages L hL s v p).mp hp').2.1
      refine ⟨hlt, ?_⟩
      intro h
      have hux : L.PGSIZE ∣ L.UXSTACKTOP - L.PGSIZE :=
        Nat.dvd_sub' hL.2.2.2.2.1 (Nat.dvd_refl _)
      have h1 : PGNUM L (L.UXSTACKTOP - L.PGSIZE) * L.PGSIZE = L.UXSTACKTOP - L.PGSIZE :=
        Nat.div_mul_cancel hux
      rw [h, h1] at hlt
      have h2 := hL.2.2.2.2.2.2.1
      omega

set_option maxRecDepth 1000000 in
/-- C9 at the sample state: the parent (id 1) forks the child 3. -/
theorem fork_exception_stack_isolated_witness :
    (3 : Int) ≠ demo.cur ∧ ((fork small demo).final demo).cur = demo.cur ∧
    ∃ f, ((fork small demo).final demo).mapping 3 (PGNUM small (small.UXSTACKTOP - small.PGSIZE)) =
        some ⟨f, small.PTE_U ||| small.PTE_W ||| small.PTE_P⟩ ∧
      (small.PTE_U ||| small.PTE_W ||| small.PTE_P) &&& small.PTE_W ≠ 0 ∧
      (small.PTE_U ||| small.PTE_W ||| small.PTE_P) &&& PTE_COW = 0 ∧
      (∀ id pn m, ((fork small demo).final demo).mapping id pn = some m → m.frame = f →
        id = 3 ∧ pn = PGNUM small (small.UXSTACKTOP - small.PGSIZE)) ∧
      (∀ m, ((fork small demo).final demo).mapping demo.cur
          (PGNUM small (small.UXSTACKTOP - small.PGSIZE)) = some m → m.frame ≠ f) ∧
      ∃ new, ((fork small demo).final demo).log = demo.log ++ new ∧
        ∀ p ∈ dupCalls new, p.2 * small.PGSIZE < small.USTACKTOP ∧
          p.2 ≠ PGNUM small (small.UXSTACKTOP - small.PGSIZE) :=
  fork_exception_stack_isolated small (by decide) demo ((fork small demo).final demo) 3 rfl

/-- C10. Fail-fast with a non-runnable child, for `fork` and for `sfork`: when
the operation panics, the last call it made returned an error code and every
call before it succeeded, none of them a set-status call, so the panic is at
the first failing call and the call marking the child runnable has not taken
effect: no existing process changed status and a child that was created is
still not runnable.  When the operation returns a value, no call it made
returned an error code.  It always does one or the other. -/
theorem fork_sfork_fail_fast (L : Layout) (hL : L.OK) (s : State) :
    (∀ s', fork L s = .panic s' ∨ sfork L s = .panic s' →
      s'.cur = s.cur ∧
      (∀ id, s'.status id = s.status id ∨
        (s.status id = none ∧ s'.status id = some L.ENV_NOT_RUNNABLE)) ∧
      ∃ pre c, s'.log = s.log ++ (pre ++ [c]) ∧
        (∀ c' ∈ pre, 0 ≤ c'.ret ∧ c'.isSetStatus = false) ∧ c.ret < 0) ∧
    (∀ v s', fork L s = .ok v s' ∨ sfork L s = .ok v s' →
      ∃ new, s'.log = s.log ++ new ∧ ∀ c ∈ new, 0 ≤ c.ret) ∧
    fork L s ≠ .timeout ∧ sfork L s ≠ .timeout := by
  obtain ⟨sok, spanic, stime⟩ := sfork_spec L hL s
  refine ⟨?_, ?_, fork_ne_timeout L hL s, stime⟩
  · intro s' h
    rcases h with h | h
    · exact fork_panic L hL s s' h
    · exact spanic s' h
  · intro v s' h
    rcases h with h | h
    · obtain ⟨hpos, -, -, s1, f, dups, -, -, -, hl1, hdups, -, -, -, rfl⟩ :=
        fork_ok L hL s s' v h
      refine ⟨[.set_pgfault_handler, .exofork v] ++ dups ++
        [.page_alloc v (L.UXSTACKTOP - L.PGSIZE) (L.PTE_U ||| L.PTE_W ||| L.PTE_P) 0,
         .set_pgfault_upcall v L.pgfault_upcall 0, .set_status v L.ENV_RUNNABLE 0], ?_, ?_⟩
      · rw [log_forkDone, hl1]
        simp
      · intro c hc
        rcases List.mem_append.mp hc with hc | hc
        · rcases List.mem_append.mp hc with hc | hc
          · simp only [List.mem_cons, List.mem_singleton, List.not_mem_nil, or_false] at hc
            rcases hc with rfl | rfl
            · exact le_refl _
            · show 0 ≤ v; omega
          · rw [(hdups c hc).1]
        · simp only [List.mem_cons, List.mem_singleton, List.not_mem_nil, or_false] at hc
          rcases hc with rfl | rfl | rfl <;> exact le_refl _
    · exact sok v s' h

set_option maxRecDepth 1000000 in
/-- C10 on a machine without free frames: `fork` panics at the allocation of
the exception stack and `sfork` at the allocation of `duppage2`. -/
theorem fork_sfork_fail_fast_witness :
    ((∀ s', fork small starved = .panic s' ∨ sfork small starved = .panic s' →
      s'.cur = starved.cur ∧
      (∀ id, s'.status id = starved.status id ∨
        (starved.status id = none ∧ s'.status id = some small.ENV_NOT_RUNNABLE)) ∧
      ∃ pre c, s'.log = starved.log ++ (pre ++ [c]) ∧
        (∀ c' ∈ pre, 0 ≤ c'.ret ∧ c'.isSetStatus = false) ∧ c.ret < 0) ∧
    (∀ v s', fork small starved = .ok v s' ∨ sfork small starved = .ok v s' →
      ∃ new, s'.log = starved.log ++ new ∧ ∀ c ∈ new, 0 ≤ c.ret) ∧
    fork small starved ≠ .timeout ∧ sfork small starved ≠ .timeout) ∧
    fork small starved = .panic ((fork small starved).final starved) ∧
    sfork small starved = .panic ((sfork small starved).final starved) ∧
    ((fork small starved).final starved).log.getLast? =
      some (.page_alloc 3 (small.UXSTACKTOP - small.PGSIZE)
        (small.PTE_U ||| small.PTE_W ||| small.PTE_P) (-E_NO_MEM)) ∧
    ((sfork small starved).final starved).log.getLast? =
      some (.page_alloc 3 (small.USTACKTOP - small.PGSIZE)
        (small.PTE_P ||| small.PTE_U ||| small.PTE_W) (-E_NO_MEM)) :=
  ⟨fork_sfork_fail_fast small (by decide) starved, rfl, rfl, by decide, by decide⟩

set_option maxRecDepth 1000000 in
/-- C11. In `forkedParent` page 2 of the parent is copy-on-write (entry
`0x805`) on frame 8, which the child 2 of the earlier `fork` maps
copy-on-write too, and no mapping is Writable and COW at once.  `sfork`
returns the new child 3, and afterwards the parent and the child 3 map that
page with `0x407`, which contains Writable, on the same frame 8; the child 2
still maps the frame copy-on-write.  The calls `sfork` made are listed: there
is no allocation at `PFTEMP`, so no `pgfault` has run and nothing was
copied. -/
theorem sfork_makes_cow_page_writable :
    NoWCow tiny forkedParent ∧
    forkedParent.mapping 1 2 = some ⟨8, 0x805⟩ ∧ forkedParent.mapping 2 2 = some ⟨8, 0x805⟩ ∧
    0x805 &&& PTE_COW ≠ 0 ∧ 0x805 &&& tiny.PTE_W = 0 ∧
    forkedParent.mapping 1 (PGNUM tiny (tiny.USTACKTOP - tiny.PGSIZE)) = some ⟨11, 0x007⟩ ∧
    sfork tiny forkedParent = .ok 3 ((sfork tiny forkedParent).final forkedParent) ∧
    ((sfork tiny forkedParent).final forkedParent).mapping 1 2 = some ⟨8, 0x407⟩ ∧
    ((sfork tiny forkedParent).final forkedParent).mapping 3 2 = some ⟨8, 0x407⟩ ∧
    0x407 &&& tiny.PTE_W ≠ 0 ∧
    ((sfork tiny forkedParent).final forkedParent).mapping 2 2 = some ⟨8, 0x805⟩ ∧
    ((sfork tiny forkedParent).final forkedParent).log =
      [.exofork 3, .page_map 0 0x1000 3 0x1000 0x407 0, .page_map 0 0x1000 0 0x1000 0x407 0,
       .page_map 0 0x2000 3 0x2000 0x407 0, .page_map 0 0x2000 0 0x2000 0x407 0,
       .page_alloc 3 0x5000 0x007 0, .page_map 3 0x5000 0 tiny.UTEMP 0x007 0,
       .page_unmap 0 tiny.UTEMP 0, .set_status 3 tiny.ENV_RUNNABLE 0] := by
  refine ⟨noWCow_of_entries tiny forkedParent (by decide),
    by decide, by decide, by decide, by decide, by decide, rfl, by decide, by decide,
    by decide, by decide, by decide⟩

set_option maxRecDepth 1000000 in
/-- C12 as stated fails at `threeGen`, where A (id 1) forks B (id 2) and B
forks C (id 3).  The page at the scratch address `PFTEMP` (page `0x7ff`) was
writable in A and is then mapped copy-on-write on frame 7 by all three; B's
write fault on it is handled with success and leaves B without a mapping for
the page.  The exception stack page (`0x803`), also writable in A, is backed
by three different frames in A, B and C and is copy-on-write in none. -/
theorem fork_three_generations_counterexample :
    uvpt threeGen 0x7ff &&& small.PTE_W ≠ 0 ∧ uvpt threeGen 0x803 &&& small.PTE_W ≠ 0 ∧
    fork small threeGen = .ok 2 ((fork small threeGen).final threeGen) ∧
    fork small threeGenB = .ok 3 threeGenC ∧
    threeGenC.mapping 1 0x7ff = some ⟨7, 0x805⟩ ∧
    threeGenC.mapping 2 0x7ff = some ⟨7, 0x805⟩ ∧
    threeGenC.mapping 3 0x7ff = some ⟨7, 0x805⟩ ∧
    threeGenC.cur = 2 ∧ PGNUM small 0x7ff000 = 0x7ff ∧
    pgfault small threeGenC 0x7ff000 small.FEC_WR = .ok () threeGenFault ∧
    threeGenFault.mapping 2 0x7ff = none ∧
    threeGenC.mapping 1 0x803 = some ⟨8, 7⟩ ∧
    threeGenC.mapping 2 0x803 = some ⟨0, 7⟩ ∧
    threeGenC.mapping 3 0x803 = some ⟨1, 7⟩ := by
  have hC : threeGenC.envs =
      [(1, ⟨2, 0, [1, 2], [(0x7ff, ⟨7, 0x805⟩), (0x803, ⟨8, 7⟩)]⟩),
       (2, ⟨2, 0x800100, [2, 1], [(0x7ff, ⟨7, 0x805⟩), (0x803, ⟨0, 7⟩)]⟩),
       (3, ⟨2, 0x800100, [2, 1], [(0x803, ⟨1, 7⟩), (0x7ff, ⟨7, 0x805⟩)]⟩)] := by decide
  have hm : ∀ id pn, threeGenC.mapping id pn =
      match tget threeGenC.envs id with
      | some e => tget e.pgtbl pn
      | none => none := fun _ _ => rfl
  refine ⟨by decide, by decide, rfl, rfl, ?_, ?_, ?_, rfl, by decide, rfl, by decide, ?_, ?_, ?_⟩
  all_goals rw [hm, hC]; decide

/-- C12, amended.  A forks B (`s1`), then B, running, forks C (`s2`).  For a
page below `USTACKTOP`, other than the page of the scratch slot `PFTEMP`, that
was present and writable in A: A, B and C all map it on A's frame,
copy-on-write and not writable, and the frame's contents are as before.  If B
then takes a fault on that page which `pgfault` handles with success, B maps
the page writable, not copy-on-write, on a frame that differs from the
original one and holds a copy of its contents; no mapping of another process
changes, so A and C still map the original frame copy-on-write, and the
contents of that frame are unchanged. -/
theorem fork_three_generations (L : Layout) (hL : L.OK) (sA s1 s2 : State) (b c : Int) (pn : Nat)
    (hlt : pn * L.PGSIZE < L.USTACKTOP) (hscr : pn ≠ PGNUM L L.PFTEMP)
    (hp : present L sA pn) (hw : uvpt sA pn &&& L.PTE_W ≠ 0)
    (hf1 : fork L sA = .ok b s1) (hf2 : fork L (s1.switchTo b) = .ok c s2) :
    sA.cur ≠ b ∧ b ≠ c ∧ sA.cur ≠ c ∧ s2.cur = b ∧
    ∃ m, sA.mapping sA.cur pn = some m ∧
      s2.mapping sA.cur pn = some ⟨m.frame, L.PTE_U ||| L.PTE_P ||| PTE_COW⟩ ∧
      s2.mapping b pn = some ⟨m.frame, L.PTE_U ||| L.PTE_P ||| PTE_COW⟩ ∧
      s2.mapping c pn = some ⟨m.frame, L.PTE_U ||| L.PTE_P ||| PTE_COW⟩ ∧
      (L.PTE_U ||| L.PTE_P ||| PTE_COW) &&& PTE_COW ≠ 0 ∧
      (L.PTE_U ||| L.PTE_P ||| PTE_COW) &&& L.PTE_W = 0 ∧
      (∀ o, s2.mem m.frame o = sA.mem m.frame o) ∧
      ∀ addr err s3, PGNUM L addr = pn → pgfault L s2 addr err = .ok () s3 →
        ∃ f, f ≠ m.frame ∧
          s3.mapping b pn = some ⟨f, L.PTE_U ||| L.PTE_W ||| L.PTE_P⟩ ∧
          (L.PTE_U ||| L.PTE_W ||| L.PTE_P) &&& L.PTE_W ≠ 0 ∧
          (L.PTE_U ||| L.PTE_W ||| L.PTE_P) &&& PTE_COW = 0 ∧
          (∀ o, o < L.PGSIZE → s3.mem f o = sA.mem m.frame o) ∧
          (∀ id j, id ≠ b → s3.mapping id j = s2.mapping id j) ∧
          s3.mapping sA.cur pn = some ⟨m.frame, L.PTE_U ||| L.PTE_P ||| PTE_COW⟩ ∧
          s3.mapping c pn = some ⟨m.frame, L.PTE_U ||| L.PTE_P ||| PTE_COW⟩ ∧
          ∀ o, s3.mem m.frame o = sA.mem m.frame o := by
  have hP : 0 < L.PGSIZE := hL.1
  have hP0 : L.PTE_P ≠ 0 := hL.2.2.2.2.2.2.2.2.1
  obtain ⟨hupc, hupw, hupp⟩ := perm_upc_facts L hL
  -- A forks B
  obtain ⟨hbpos, hbA, hbnew, hc1, hmem1, hoth1, -, hin1, -, -⟩ := fork_ok_maps L hL sA s1 b hf1
  obtain ⟨m, hm, hb1, hA1, hdir1⟩ := hin1 pn hlt hp
  have hmw : m.perm &&& L.PTE_W ≠ 0 := by rw [← uvpt_of_mapping sA pn m hm]; exact hw
  have hdp : duppagePerm L m.perm = L.PTE_U ||| L.PTE_P ||| PTE_COW :=
    duppagePerm_cow L hL _ (Or.inl hmw)
  rw [hdp] at hb1 hA1
  rw [if_pos hupc] at hA1
  -- B runs and forks C
  have hBcur : (s1.switchTo b).cur = b := rfl
  have hpB : present L (s1.switchTo b) pn := by
    constructor
    · rw [uvpd_switchTo, hdir1, if_pos rfl, Nat.and_self]
      exact hP0
    · have : uvpt (s1.switchTo b) pn = L.PTE_U ||| L.PTE_P ||| PTE_COW :=
        uvpt_of_mapping (s1.switchTo b) pn ⟨m.frame, _⟩ hb1
      rw [this]
      exact hupp
  obtain ⟨hcpos, hcb, hcnew, hc2, hmem2, hoth2, -, hin2, -, -⟩ :=
    fork_ok_maps L hL (s1.switchTo b) s2 c hf2
  rw [hBcur] at hcb hc2 hoth2 hin2
  obtain ⟨m', hm', hc2', hb2, -⟩ := hin2 pn hlt hpB
  have hm'' : m' = ⟨m.frame, L.PTE_U ||| L.PTE_P ||| PTE_COW⟩ := by
    have h : (s1.switchTo b).mapping b pn = some ⟨m.frame, L.PTE_U ||| L.PTE_P ||| PTE_COW⟩ := hb1
    rw [hm'] at h
    exact Option.some.inj h
  subst hm''
  have hdp2 : duppagePerm L (L.PTE_U ||| L.PTE_P ||| PTE_COW) = L.PTE_U ||| L.PTE_P ||| PTE_COW :=
    duppagePerm_cow L hL _ (Or.inr hupc)
  rw [hdp2] at hc2' hb2
  rw [if_pos hupc] at hb2
  have hAc : sA.cur ≠ c := by
    intro h
    have h1 : s1.mapping c pn = some ⟨m.frame, L.PTE_U ||| L.PTE_P ||| PTE_COW⟩ := by
      rw [← h]; exact hA1
    have h2 : s1.env c = none := hcnew
    unfold State.mapping at h1
    rw [h2] at h1
    cases h1
  have hA2 : s2.mapping sA.cur pn = some ⟨m.frame, L.PTE_U ||| L.PTE_P ||| PTE_COW⟩ := by
    rw [hoth2 sA.cur pn (fun h => hbA h.symm) hAc, mapping_switchTo]
    exact hA1
  have hmem02 : s2.mem = sA.mem := by rw [hmem2, mem_switchTo, hmem1]
  refine ⟨fun h => hbA h.symm, fun h => hcb h.symm, hAc, hc2, m, hm, hA2, hb2, hc2', hupc, hupw,
    fun o => by rw [hmem02], ?_⟩
  -- B takes the fault
  intro addr err s3 hpg hfault
  obtain ⟨-, -, f, hf, he, rfl⟩ := pgfault_ok L s2 s3 addr err hfault
  have hb2' : s2.mapping s2.cur (PGNUM L addr) =
      some ⟨m.frame, L.PTE_U ||| L.PTE_P ||| PTE_COW⟩ := by
    rw [hc2, hpg]; exact hb2
  have hne : PGNUM L addr ≠ PGNUM L L.PFTEMP := by rw [hpg]; exact hscr
  have hfm : f ≠ m.frame := (freshFrame_ne s2 f hf _ _ _ hb2).symm
  have hmemf := mem_pgfaultDone L hL s2 addr f _ he hne hb2'
  have hmap := mapping_pgfaultDone L hP s2 addr f he
  have hothers : ∀ id j, id ≠ b → (pgfaultDone L s2 addr f).mapping id j = s2.mapping id j := by
    intro id j hid
    rw [hmap, hc2, if_neg (fun h => hid h.1), if_neg (fun h => hid h.1)]
  refine ⟨f, hfm, ?_, perm_uwp_writable L hL, perm_uwp_not_cow L hL, ?_, hothers, ?_, ?_, ?_⟩
  · rw [hmap, hc2, if_neg (fun h => hscr h.2), if_pos ⟨rfl, hpg.symm⟩]
  · intro o ho
    rw [hmemf, hmem02]
    simp [ho]
  · rw [hothers _ _ (fun h => hbA h.symm)]; exact hA2
  · rw [hothers _ _ hcb]; exact hc2'
  · intro o
    rw [hmemf, hmem02]
    have : ¬ (m.frame = f ∧ o < L.PGSIZE) := fun h => hfm h.1.symm
    simp only [this, if_false]

set_option maxRecDepth 1000000 in
/-- C12, amended, at the sample state `demo`: its writable page 1 through the
forks of B (id 3) and C (id 4). -/
theorem fork_three_generations_witness :
    demo.cur ≠ 3 ∧ (3 : Int) ≠ 4 ∧ demo.cur ≠ 4 ∧
    ((fork tiny (((fork tiny demo).final demo).switchTo 3)).final
      (((fork tiny demo).final demo).switchTo 3)).cur = 3 ∧
    ∃ m, demo.mapping demo.cur 1 = some m ∧
      ((fork tiny (((fork tiny demo).final demo).switchTo 3)).final
        (((fork tiny demo).final demo).switchTo 3)).mapping demo.cur 1 =
        some ⟨m.frame, tiny.PTE_U ||| tiny.PTE_P ||| PTE_COW⟩ ∧
      ((fork tiny (((fork tiny demo).final demo).switchTo 3)).final
        (((fork tiny demo).final demo).switchTo 3)).mapping 3 1 =
        some ⟨m.frame, tiny.PTE_U ||| tiny.PTE_P ||| PTE_COW⟩ ∧
      ((fork tiny (((fork tiny demo).final demo).switchTo 3)).final
        (((fork tiny demo).final demo).switchTo 3)).mapping 4 1 =
        some ⟨m.frame, tiny.PTE_U ||| tiny.PTE_P ||| PTE_COW⟩ :=
  have h := fork_three_generations tiny (by decide) demo ((fork tiny demo).final demo)
    ((fork tiny (((fork tiny demo).final demo).switchTo 3)).final
      (((fork tiny demo).final demo).switchTo 3)) 3 4 1 (by decide) (by decide) (by decide)
    (by decide) rfl rfl
  ⟨h.1, h.2.1, h.2.2.1, h.2.2.2.1, h.2.2.2.2.choose, h.2.2.2.2.choose_spec.1,
    h.2.2.2.2.choose_spec.2.1, h.2.2.2.2.choose_spec.2.2.1, h.2.2.2.2.choose_spec.2.2.2.1⟩

/-- C14. After a successful `sfork` the child's page at `USTACKTOP - PGSIZE`
is mapped Present, User, Writable on a frame no page table referenced before,
so a frame other than the one the parent has at that address; its `PGSIZE`
bytes equal those of the parent's page; the parent's mapping at that address
is unchanged and its page at `UTEMP` is unmapped; and no map-existing call of
that `sfork` had the top stack page as its destination address.  The same
holds after a successful `duppage2(dstenv, addr)` called the way `sfork`, its
only caller, calls it (line 188): for a process other than the caller, at a
page-aligned address outside the page of the scratch slot `UTEMP`.  That the
top stack page is not the page of `UTEMP` is a fact of the layout. -/
theorem eager_copy_top_stack (L : Layout) (hL : L.OK) :
    (∀ (s s' : State) (dstenv : Int) (addr : Nat),
      duppage2 L s dstenv addr = .ok () s' → s.resolve dstenv ≠ s.cur → L.PGSIZE ∣ addr →
      PGNUM L addr ≠ PGNUM L L.UTEMP →
      s'.cur = s.cur ∧
      ∃ f, s'.mapping (s.resolve dstenv) (PGNUM L addr) =
          some ⟨f, L.PTE_P ||| L.PTE_U ||| L.PTE_W⟩ ∧
        (∀ id pn m', s.mapping id pn = some m' → m'.frame ≠ f) ∧
        (∀ m, s.mapping s.cur (PGNUM L addr) = some m →
          f ≠ m.frame ∧ ∀ o, o < L.PGSIZE → s'.mem f o = s.mem m.frame o) ∧
        s'.mapping s.cur (PGNUM L addr) = s.mapping s.cur (PGNUM L addr) ∧
        s'.mapping s.cur (PGNUM L L.UTEMP) = none) ∧
    (∀ (s s' : State) (v : Int),
      sfork L s = .ok v s' → PGNUM L (L.USTACKTOP - L.PGSIZE) ≠ PGNUM L L.UTEMP →
      s'.cur = s.cur ∧ v ≠ s.cur ∧
      ∃ f, s'.mapping v (PGNUM L (L.USTACKTOP - L.PGSIZE)) =
          some ⟨f, L.PTE_P ||| L.PTE_U ||| L.PTE_W⟩ ∧
        (∀ id pn m', s.mapping id pn = some m' → m'.frame ≠ f) ∧
        (∀ m, s.mapping s.cur (PGNUM L (L.USTACKTOP - L.PGSIZE)) = some m →
          f ≠ m.frame ∧ ∀ o, o < L.PGSIZE → s'.mem f o = s.mem m.frame o) ∧
        s'.mapping s.cur (PGNUM L (L.USTACKTOP - L.PGSIZE)) =
          s.mapping s.cur (PGNUM L (L.USTACKTOP - L.PGSIZE)) ∧
        s'.mapping s.cur (PGNUM L L.UTEMP) = none ∧
        ∃ new, s'.log = s.log ++ new ∧
          ∀ src srcva dst perm r,
            Call.page_map src srcva dst (L.USTACKTOP - L.PGSIZE) perm r ∉ new) := by
  have hP : 0 < L.PGSIZE := hL.1
  constructor
  · intro s s' dstenv addr hok hother hal hne
    obtain ⟨f, hf, he, hc, rfl⟩ := duppage2_ok L s s' dstenv addr hok
    have hother' : ¬ s.cur = s.resolve dstenv := fun h => hother h.symm
    refine ⟨cur_duppage2Done L s dstenv addr f, f, ?_, ?_, ?_, ?_, ?_⟩
    · rw [mapping_duppage2Done L s dstenv addr f he hc, if_neg (fun h => hother h.1)]
      simp
    · intro id pn m' hm'
      exact freshFrame_ne s f hf id pn m' hm'
    · intro m hm
      refine ⟨(freshFrame_ne s f hf _ _ m hm).symm, ?_⟩
      intro o ho
      rw [mem_duppage2Done L hL s dstenv addr f m he hc hother hal hne hm]
      simp [ho]
    · rw [mapping_duppage2Done L s dstenv addr f he hc, if_neg (fun h => hne h.2),
        if_neg (fun h => hother' h.1)]
    · rw [mapping_duppage2Done L s dstenv addr f he hc]
      simp
  · intro s s' v hok hlay
    obtain ⟨hpos, hne, hnew, s1, f, hc1, hmem1, -, hev, hec, hoth, hout, hin, ⟨new, hlog, hnew1⟩,
      hf, rfl⟩ := sfork_ok_maps L hL s s' v hok
    obtain ⟨e1, -, -, -⟩ := top_pages L hL
    have hec1 : (s1.env s1.cur).isSome := by rw [hc1]; exact hec
    have hres : s1.resolve v = v := resolve_pos _ _ hpos
    have hal : L.PGSIZE ∣ L.USTACKTOP - L.PGSIZE := Nat.dvd_sub' hL.2.2.2.1 (Nat.dvd_refl _)
    have htop1 : s1.mapping s1.cur (PGNUM L (L.USTACKTOP - L.PGSIZE)) =
        s.mapping s.cur (PGNUM L (L.USTACKTOP - L.PGSIZE)) := by
      rw [hc1, (hout _ (by rw [e1]; intro hc; omega)).1]
    have hfresh : ∀ id pn m', s.mapping id pn = some m' → m'.frame ≠ f := by
      intro id pn m' hm'
      by_cases hic : id = s.cur
      · subst hic
        by_cases hr : pn * L.PGSIZE < L.USTACKTOP - L.PGSIZE ∧ present L s pn
        · obtain ⟨m2, q, hm2, -, -, -, hpar⟩ := hin pn hr.1 hr.2
          rw [hm'] at hm2
          cases hm2
          by_cases hsh : m'.perm &&& L.PTE_SHARE = 0
          · rw [if_pos hsh] at hpar
            exact freshFrame_ne s1 f hf _ _ ⟨m'.frame, q⟩ hpar
          · rw [if_neg hsh] at hpar
            exact freshFrame_ne s1 f hf _ _ _ hpar
        · have h1 := (hout pn hr).1
          rw [hm'] at h1
          exact freshFrame_ne s1 f hf _ _ _ h1
      · by_cases hie : id = v
        · subst hie
          unfold State.mapping at hm'
          rw [hnew] at hm'
          cases hm'
        · have h1 := hoth id pn hic hie
          rw [hm'] at h1
          exact freshFrame_ne s1 f hf _ _ _ h1
    refine ⟨by rw [cur_sforkDone, hc1], hne, f, ?_, hfresh, ?_, ?_, ?_, ?_⟩
    · rw [mapping_sforkDone L s1 v f hpos hev hec1, if_neg (fun h => hne (h.1.trans hc1))]
      simp
    · intro m hm
      refine ⟨(hfresh _ _ m hm).symm, ?_⟩
      intro o ho
      rw [mem_sforkDone, mem_duppage2Done L hL s1 v _ f m (by rw [hres]; exact hev) hec1
        (by rw [hres, hc1]; exact hne) hal hlay (htop1.trans hm), hmem1]
      simp [ho]
    · rw [mapping_sforkDone L s1 v f hpos hev hec1, if_neg (fun h => hlay h.2),
        if_neg (fun h => hne (h.1.symm)), ← hc1, htop1, hc1]
    · rw [mapping_sforkDone L s1 v f hpos hev hec1, hc1]
      simp
    · refine ⟨.exofork v :: (new ++
        [.page_alloc v (L.USTACKTOP - L.PGSIZE) (L.PTE_P ||| L.PTE_U ||| L.PTE_W) 0,
         .page_map v (L.USTACKTOP - L.PGSIZE) 0 L.UTEMP (L.PTE_P ||| L.PTE_U ||| L.PTE_W) 0,
         .page_unmap 0 L.UTEMP 0, .set_status v L.ENV_RUNNABLE 0]), ?_, ?_⟩
      · rw [log_sforkDone, hlog]; simp
      · intro src srcva dst perm r hmem
        rcases List.mem_cons.mp hmem with h | hmem
        · cases h
        · rcases List.mem_append.mp hmem with hmem | hmem
          · obtain ⟨va, dst', q, r', h, hva, -⟩ := hnew1 _ hmem
            injection h with _ _ _ h4
            omega
          · simp only [List.mem_cons, List.mem_singleton, List.not_mem_nil, or_false] at hmem
            rcases hmem with h | h | h | h
            · cases h
            · injection h with _ _ _ h4
              apply hlay
              rw [h4]
            · cases h
            · cases h

set_option maxRecDepth 1000000 in
/-- C14 at the sample state `withStack`, whose top stack page is page 5 on
frame 9: `sfork` run by the parent returns the child 3, and `duppage2` is
called for the process 2, which has no pages and is not runnable, at
`USTACKTOP - PGSIZE`. -/
theorem eager_copy_top_stack_witness :
    withStack.mapping withStack.cur (PGNUM tiny (tiny.USTACKTOP - tiny.PGSIZE)) = some ⟨9, 7⟩ ∧
    (((duppage2 tiny withStack 2 (tiny.USTACKTOP - tiny.PGSIZE)).final withStack).cur =
        withStack.cur ∧
      ∃ f, ((duppage2 tiny withStack 2 (tiny.USTACKTOP - tiny.PGSIZE)).final withStack).mapping
          (withStack.resolve 2) (PGNUM tiny (tiny.USTACKTOP - tiny.PGSIZE)) =
          some ⟨f, tiny.PTE_P ||| tiny.PTE_U ||| tiny.PTE_W⟩ ∧
        (∀ id pn m', withStack.mapping id pn = some m' → m'.frame ≠ f) ∧
        (∀ m, withStack.mapping withStack.cur (PGNUM tiny (tiny.USTACKTOP - tiny.PGSIZE)) =
            some m →
          f ≠ m.frame ∧ ∀ o, o < tiny.PGSIZE →
            ((duppage2 tiny withStack 2 (tiny.USTACKTOP - tiny.PGSIZE)).final withStack).mem f o =
              withStack.mem m.frame o) ∧
        ((duppage2 tiny withStack 2 (tiny.USTACKTOP - tiny.PGSIZE)).final withStack).mapping
          withStack.cur (PGNUM tiny (tiny.USTACKTOP - tiny.PGSIZE)) =
          withStack.mapping withStack.cur (PGNUM tiny (tiny.USTACKTOP - tiny.PGSIZE)) ∧
        ((duppage2 tiny withStack 2 (tiny.USTACKTOP - tiny.PGSIZE)).final withStack).mapping
          withStack.cur (PGNUM tiny tiny.UTEMP) = none) ∧
    sfork tiny withStack = .ok 3 ((sfork tiny withStack).final withStack) ∧
    ((sfork tiny withStack).final withStack).cur = withStack.cur ∧ (3 : Int) ≠ withStack.cur ∧
    ∃ f, ((sfork tiny withStack).final withStack).mapping 3
          (PGNUM tiny (tiny.USTACKTOP - tiny.PGSIZE)) =
          some ⟨f, tiny.PTE_P ||| tiny.PTE_U ||| tiny.PTE_W⟩ ∧
        (∀ id pn m', withStack.mapping id pn = some m' → m'.frame ≠ f) ∧
        (∀ m, withStack.mapping withStack.cur (PGNUM tiny (tiny.USTACKTOP - tiny.PGSIZE)) =
            some m →
          f ≠ m.frame ∧ ∀ o, o < tiny.PGSIZE →
            ((sfork tiny withStack).final withStack).mem f o = withStack.mem m.frame o) ∧
        ((sfork tiny withStack).final withStack).mapping withStack.cur
          (PGNUM tiny (tiny.USTACKTOP - tiny.PGSIZE)) =
          withStack.mapping withStack.cur (PGNUM tiny (tiny.USTACKTOP - tiny.PGSIZE)) ∧
        ((sfork tiny withStack).final withStack).mapping withStack.cur
          (PGNUM tiny tiny.UTEMP) = none ∧
        ∃ new, ((sfork tiny withStack).final withStack).log = withStack.log ++ new ∧
          ∀ src srcva dst perm r,
            Call.page_map src srcva dst (tiny.USTACKTOP - tiny.PGSIZE) perm r ∉ new :=
  ⟨by decide,
    (eager_copy_top_stack tiny (by decide)).1 withStack
      ((duppage2 tiny withStack 2 (tiny.USTACKTOP - tiny.PGSIZE)).final withStack) 2
      (tiny.USTACKTOP - tiny.PGSIZE) rfl (by decide) (by decide) (by decide),
    rfl,
    (eager_copy_top_stack tiny (by decide)).2 withStack
      ((sfork tiny withStack).final withStack) 3 rfl (by decide)⟩

/-- C15. What `sfork` leaves of the exception stack: whenever it returns a
child, that child has been marked runnable, has no page at
`UXSTACKTOP - PGSIZE`, has no fault upcall registered (the value is still the
0 the process was created with), and `sfork` has made no allocation at the
exception-stack address and no upcall registration. -/
theorem sfork_child_lacks_exception_stack (L : Layout) (hL : L.OK) (s s' : State) (v : Int)
    (hok : sfork L s = .ok v s') :
    s'.status v = some L.ENV_RUNNABLE ∧
    s'.mapping v (PGNUM L (L.UXSTACKTOP - L.PGSIZE)) = none ∧
    s'.upcall v = some 0 ∧
    ∃ new, s'.log = s.log ++ new ∧
      (∀ id perm r, Call.page_alloc id (L.UXSTACKTOP - L.PGSIZE) perm r ∉ new) ∧
      (∀ id func r, Call.set_pgfault_upcall id func r ∉ new) ∧
      new.getLast? = some (.set_status v L.ENV_RUNNABLE 0) := by
  obtain ⟨hpos, hne, hnew, s1, f, hc1, -, hup1, hev, hec, -, hout, -, ⟨new, hlog, hnew1⟩, -, rfl⟩ :=
    sfork_ok_maps L hL s s' v hok
  obtain ⟨e1, e2, hlt, hpn⟩ := top_pages L hL
  rw [← hc1] at hec
  refine ⟨status_sforkDone L s1 v f hev, ?_, ?_, ?_⟩
  · rw [mapping_sforkDone L s1 v f hpos hev hec, if_neg (fun hc => hne (hc.1.trans hc1)),
      if_neg (fun hc => hpn hc.2.symm)]
    exact (hout _ (by rw [e2]; intro hc; omega)).2
  · rw [upcall_sforkDone, hup1, if_pos rfl]
  · refine ⟨.exofork v :: (new ++
      [.page_alloc v (L.USTACKTOP - L.PGSIZE) (L.PTE_P ||| L.PTE_U ||| L.PTE_W) 0,
       .page_map v (L.USTACKTOP - L.PGSIZE) 0 L.UTEMP (L.PTE_P ||| L.PTE_U ||| L.PTE_W) 0,
       .page_unmap 0 L.UTEMP 0, .set_status v L.ENV_RUNNABLE 0]), ?_, ?_, ?_, ?_⟩
    · rw [log_sforkDone, hlog]; simp
    · intro id perm r hmem
      rcases List.mem_cons.mp hmem with h | hmem
      · cases h
      · rcases List.mem_append.mp hmem with hmem | hmem
        · obtain ⟨va, dst, q, r', h, -⟩ := hnew1 _ hmem
          cases h
        · simp only [List.mem_cons, List.mem_singleton, List.not_mem_nil, or_false] at hmem
          rcases hmem with h | h | h | h
          · injection h with _ h2
            omega
          · cases h
          · cases h
          · cases h
    · intro id func r hmem
      rcases List.mem_cons.mp hmem with h | hmem
      · cases h
      · rcases List.mem_append.mp hmem with hmem | hmem
        · obtain ⟨va, dst, q, r', h, -⟩ := hnew1 _ hmem
          cases h
        · simp only [List.mem_cons, List.mem_singleton, List.not_mem_nil, or_false] at hmem
          rcases hmem with h | h | h | h <;> cases h
    · have h : Call.exofork v :: (new ++
          [.page_alloc v (L.USTACKTOP - L.PGSIZE) (L.PTE_P ||| L.PTE_U ||| L.PTE_W) 0,
           .page_map v (L.USTACKTOP - L.PGSIZE) 0 L.UTEMP (L.PTE_P ||| L.PTE_U ||| L.PTE_W) 0,
           .page_unmap 0 L.UTEMP 0, .set_status v L.ENV_RUNNABLE 0]) =
          (Call.exofork v :: (new ++
          [.page_alloc v (L.USTACKTOP - L.PGSIZE) (L.PTE_P ||| L.PTE_U ||| L.PTE_W) 0,
           .page_map v (L.USTACKTOP - L.PGSIZE) 0 L.UTEMP (L.PTE_P ||| L.PTE_U ||| L.PTE_W) 0,
           .page_unmap 0 L.UTEMP 0])) ++ [.set_status v L.ENV_RUNNABLE 0] := by simp
      rw [h]
      exact List.getLast?_concat _

set_option maxRecDepth 1000000 in
/-- C15 at the sample state `withStack`, whose parent has its top stack page
mapped: `sfork` returns the child 3, runnable, without a page at
`UXSTACKTOP - PGSIZE` and with upcall 0. -/
theorem sfork_child_lacks_exception_stack_witness :
    withStack.mapping 1 (PGNUM tiny (tiny.USTACKTOP - tiny.PGSIZE)) = some ⟨9, 0x007⟩ ∧
    sfork tiny withStack = .ok 3 ((sfork tiny withStack).final withStack) ∧
    ((sfork tiny withStack).final withStack).status 3 = some tiny.ENV_RUNNABLE ∧
    ((sfork tiny withStack).final withStack).mapping 3 (PGNUM tiny (tiny.UXSTACKTOP - tiny.PGSIZE)) =
      none ∧
    ((sfork tiny withStack).final withStack).upcall 3 = some 0 ∧
    ∃ new, ((sfork tiny withStack).final withStack).log = withStack.log ++ new ∧
      (∀ id perm r, Call.page_alloc id (tiny.UXSTACKTOP - tiny.PGSIZE) perm r ∉ new) ∧
      (∀ id func r, Call.set_pgfault_upcall id func r ∉ new) ∧
      new.getLast? = some (.set_status 3 tiny.ENV_RUNNABLE 0) :=
  ⟨by decide, rfl, sfork_child_lacks_exception_stack tiny (by decide) withStack
    ((sfork tiny withStack).final withStack) 3 rfl⟩

/-- C16. `sfork` never looks at the COW bit.  For every present page below the
top stack page, other than the page of the scratch slot `UTEMP`, whose entry
in the parent carries COW: `duppage` would pass a permission set with COW for
it, but after a successful `sfork` the child maps the parent's frame with the
Shared tag and without COW, and so does the parent, with the same permission
set, unless its entry carried the Shared tag already, in which case the
parent's entry is left as it is. -/
theorem sfork_drops_cow (L : Layout) (hL : L.OK) (s s' : State) (v : Int) (j : Nat)
    (hok : sfork L s = .ok v s') (hj : j * L.PGSIZE < L.USTACKTOP - L.PGSIZE)
    (hp : present L s j) (hut : j ≠ PGNUM L L.UTEMP) (hcow : uvpt s j &&& PTE_COW ≠ 0) :
    ∃ m q, s.mapping s.cur j = some m ∧ m.perm &&& PTE_COW ≠ 0 ∧
      duppagePerm L m.perm &&& PTE_COW ≠ 0 ∧
      s'.mapping v j = some ⟨m.frame, q⟩ ∧
      q &&& L.PTE_SHARE ≠ 0 ∧ q &&& PTE_COW = 0 ∧
      (m.perm &&& L.PTE_SHARE = 0 → s'.mapping s.cur j = some ⟨m.frame, q⟩) ∧
      (m.perm &&& L.PTE_SHARE ≠ 0 → s'.mapping s.cur j = some m) := by
  obtain ⟨hpos, hne, hnew, s1, f, hc1, -, -, hev, hec, -, -, hin, -, -, rfl⟩ :=
    sfork_ok_maps L hL s s' v hok
  obtain ⟨e1, -, -, -⟩ := top_pages L hL
  rw [← hc1] at hec
  obtain ⟨m, q, hm, hq, -, hchild, hparent⟩ := hin j hj hp
  obtain ⟨-, hqs, hqc, -, -⟩ := sharePerm_facts L hL q hq
  have hjt : j ≠ PGNUM L (L.USTACKTOP - L.PGSIZE) := by
    intro h
    rw [h, e1] at hj
    omega
  rw [uvpt_of_mapping s j m hm] at hcow
  have hdp : duppagePerm L m.perm &&& PTE_COW ≠ 0 := by
    rw [duppagePerm_cow L hL _ (Or.inr hcow)]
    exact (perm_upc_facts L hL).1
  refine ⟨m, q, hm, hcow, hdp, ?_, hqs, hqc, ?_, ?_⟩
  · rw [mapping_sforkDone L s1 v f hpos hev hec, if_neg (fun hc => hut hc.2),
      if_neg (fun hc => hjt hc.2), hchild]
  · intro hsh
    rw [mapping_sforkDone L s1 v f hpos hev hec, if_neg (fun hc => hut hc.2),
      if_neg (fun hc => hjt hc.2), hparent, if_pos hsh]
  · intro hsh
    rw [mapping_sforkDone L s1 v f hpos hev hec, if_neg (fun hc => hut hc.2),
      if_neg (fun hc => hjt hc.2), hparent, if_neg hsh]

set_option maxRecDepth 1000000 in
/-- C16 at `freshlyForked`, a parent with its top stack page mapped whose page 1
is copy-on-write on frame 7, shared with the child 2 of its earlier `fork`:
`sfork` returns the child 3; the parent and the child 3 then map page 1 with
`0x405`, Shared and not COW, while the child 2 still maps the frame
copy-on-write. -/
theorem sfork_drops_cow_witness :
    freshlyForked.mapping 1 (PGNUM tiny (tiny.USTACKTOP - tiny.PGSIZE)) = some ⟨11, 0x007⟩ ∧
    freshlyForked.mapping 1 1 = some ⟨7, 0x805⟩ ∧ freshlyForked.mapping 2 1 = some ⟨7, 0x805⟩ ∧
    sfork tiny freshlyForked = .ok 3 ((sfork tiny freshlyForked).final freshlyForked) ∧
    ((sfork tiny freshlyForked).final freshlyForked).mapping 3 1 = some ⟨7, 0x405⟩ ∧
    ((sfork tiny freshlyForked).final freshlyForked).mapping 1 1 = some ⟨7, 0x405⟩ ∧
    ((sfork tiny freshlyForked).final freshlyForked).mapping 2 1 = some ⟨7, 0x805⟩ ∧
    0x405 &&& PTE_COW = 0 ∧ 0x405 &&& tiny.PTE_SHARE ≠ 0 ∧
    ∃ m q, freshlyForked.mapping freshlyForked.cur 1 = some m ∧ m.perm &&& PTE_COW ≠ 0 ∧
      duppagePerm tiny m.perm &&& PTE_COW ≠ 0 ∧
      ((sfork tiny freshlyForked).final freshlyForked).mapping 3 1 = some ⟨m.frame, q⟩ ∧
      q &&& tiny.PTE_SHARE ≠ 0 ∧ q &&& PTE_COW = 0 ∧
      (m.perm &&& tiny.PTE_SHARE = 0 →
        ((sfork tiny freshlyForked).final freshlyForked).mapping freshlyForked.cur 1 =
          some ⟨m.frame, q⟩) ∧
      (m.perm &&& tiny.PTE_SHARE ≠ 0 →
        ((sfork tiny freshlyForked).final freshlyForked).mapping freshlyForked.cur 1 = some m) :=
  ⟨by decide, by decide, by decide, rfl, by decide, by decide, by decide, by decide, by decide,
    sfork_drops_cow tiny (by decide) freshlyForked
      ((sfork tiny freshlyForked).final freshlyForked) 3 1 rfl (by decide) (by decide) (by decide)
      (by decide)⟩

/-- C17. Order of the two mappings in `duppage`, for a page whose entry has
Writable or COW (the case "already COW and not Writable" included): either the
first mapping call, into the target, fails, and then `duppage` panics with no
mapping of any process changed, the caller's included; or it succeeds and
only then the second call re-installs the caller's own mapping, with the same
permission User|Present|COW, `duppage` returning 0 if that call succeeds and
panicking if not. -/
theorem duppage_mapping_order (L : Layout) (hL : L.OK) (s : State) (envid : Int) (pn : Nat)
    (hw : uvpt s pn &&& L.PTE_W ≠ 0 ∨ uvpt s pn &&& PTE_COW ≠ 0) :
    (∃ r1 s', r1 < 0 ∧ duppage L s envid pn = .panic s' ∧
      s'.log = s.log ++ [.duppage envid pn,
        .page_map 0 (u32 (pn * L.PGSIZE)) envid (u32 (pn * L.PGSIZE))
          (L.PTE_U ||| L.PTE_P ||| PTE_COW) r1] ∧
      ∀ id j, s'.mapping id j = s.mapping id j) ∨
    (∃ s1 r2 s2,
      sys_page_map L (s.record (.duppage envid pn)) 0 (u32 (pn * L.PGSIZE)) envid
        (u32 (pn * L.PGSIZE)) (L.PTE_U ||| L.PTE_P ||| PTE_COW) = (0, s1) ∧
      sys_page_map L s1 0 (u32 (pn * L.PGSIZE)) 0 (u32 (pn * L.PGSIZE))
        (L.PTE_U ||| L.PTE_P ||| PTE_COW) = (r2, s2) ∧
      s2.log = s.log ++ [.duppage envid pn,
        .page_map 0 (u32 (pn * L.PGSIZE)) envid (u32 (pn * L.PGSIZE))
          (L.PTE_U ||| L.PTE_P ||| PTE_COW) 0,
        .page_map 0 (u32 (pn * L.PGSIZE)) 0 (u32 (pn * L.PGSIZE))
          (L.PTE_U ||| L.PTE_P ||| PTE_COW) r2] ∧
      duppage L s envid pn = if r2 ≠ 0 then .panic s2 else .ok 0 s2) := by
  have hcow : (L.PTE_U ||| L.PTE_P ||| PTE_COW) &&& PTE_COW ≠ 0 :=
    and_or_ne_zero_right _ _ (by decide)
  unfold duppage
  simp only [uvpt_record, duppagePerm_cow L hL _ hw]
  cases hr1 : sys_page_map L (s.record (.duppage envid pn)) 0 (u32 (pn * L.PGSIZE)) envid
      (u32 (pn * L.PGSIZE)) (L.PTE_U ||| L.PTE_P ||| PTE_COW) with
  | mk r1 s1 =>
  dsimp only
  rcases sys_page_map_spec hr1 with ⟨rfl, m1, -, -, hs1⟩ | ⟨hneg, hs1⟩
  · right
    cases hr2 : sys_page_map L s1 0 (u32 (pn * L.PGSIZE)) 0 (u32 (pn * L.PGSIZE))
        (L.PTE_U ||| L.PTE_P ||| PTE_COW) with
    | mk r2 s2 =>
    refine ⟨s1, r2, s2, rfl, hr2, ?_, ?_⟩
    · rw [(sys_page_map_log hr2).1, (sys_page_map_log hr1).1, log_record]
      simp
    · simp only [ne_eq, not_true_eq_false, if_false, hcow, not_false_eq_true, if_true]
  · left
    have h0 : r1 ≠ 0 := by omega
    refine ⟨r1, s1, hneg, ?_, ?_, ?_⟩
    · rw [if_pos h0]
    · rw [hs1, log_record, log_record]
      simp
    · intro id j
      rw [hs1]
      rfl

/-- C17 at the sample state: page 3 of process 1 is already copy-on-write and
not writable; both calls are made, the target's first. -/
theorem duppage_mapping_order_witness :
    (∃ r1 s', r1 < 0 ∧ duppage jos demo 2 3 = .panic s' ∧
      s'.log = demo.log ++ [.duppage 2 3,
        .page_map 0 (u32 (3 * jos.PGSIZE)) 2 (u32 (3 * jos.PGSIZE))
          (jos.PTE_U ||| jos.PTE_P ||| PTE_COW) r1] ∧
      ∀ id j, s'.mapping id j = demo.mapping id j) ∨
    (∃ s1 r2 s2,
      sys_page_map jos (demo.record (.duppage 2 3)) 0 (u32 (3 * jos.PGSIZE)) 2
        (u32 (3 * jos.PGSIZE)) (jos.PTE_U ||| jos.PTE_P ||| PTE_COW) = (0, s1) ∧
      sys_page_map jos s1 0 (u32 (3 * jos.PGSIZE)) 0 (u32 (3 * jos.PGSIZE))
        (jos.PTE_U ||| jos.PTE_P ||| PTE_COW) = (r2, s2) ∧
      s2.log = demo.log ++ [.duppage 2 3,
        .page_map 0 (u32 (3 * jos.PGSIZE)) 2 (u32 (3 * jos.PGSIZE))
          (jos.PTE_U ||| jos.PTE_P ||| PTE_COW) 0,
        .page_map 0 (u32 (3 * jos.PGSIZE)) 0 (u32 (3 * jos.PGSIZE))
          (jos.PTE_U ||| jos.PTE_P ||| PTE_COW) r2] ∧
      duppage jos demo 2 3 = if r2 ≠ 0 then .panic s2 else .ok 0 s2) :=
  duppage_mapping_order jos (by decide) demo 2 3 (by decide)

set_option maxRecDepth 1000000 in
/-- C18. The permission `sfork` passes for a page depends on the pages visited
before it.  In `demoStack`, a parent with its top stack page mapped, page 2 is
read-only (entry `0x005`) and comes after the writable page 1: `sfork` maps
page 2 into the child and remaps it in the parent with `0x407`, which contains
Writable.  In `demoRoStack`, where the same page 2 is the only page below the
stack, it passes `0x405`. -/
theorem sfork_passes_sticky_writable :
    demoStack.mapping 1 (PGNUM tiny (tiny.USTACKTOP - tiny.PGSIZE)) = some ⟨10, 0x007⟩ ∧
    demoRoStack.mapping 1 (PGNUM tiny (tiny.USTACKTOP - tiny.PGSIZE)) = some ⟨10, 0x007⟩ ∧
    present tiny demoStack 2 ∧ 2 * tiny.PGSIZE < tiny.USTACKTOP - tiny.PGSIZE ∧
    uvpt demoStack 2 = 0x005 ∧ uvpt demoStack 2 &&& tiny.PTE_W = 0 ∧
    sfork tiny demoStack = .ok 3 ((sfork tiny demoStack).final demoStack) ∧
    Call.page_map 0 0x2000 3 0x2000 0x407 0 ∈ ((sfork tiny demoStack).final demoStack).log ∧
    Call.page_map 0 0x2000 0 0x2000 0x407 0 ∈ ((sfork tiny demoStack).final demoStack).log ∧
    ((sfork tiny demoStack).final demoStack).mapping 3 2 = some ⟨8, 0x407⟩ ∧
    ((sfork tiny demoStack).final demoStack).mapping 1 2 = some ⟨8, 0x407⟩ ∧
    0x407 &&& tiny.PTE_W ≠ 0 ∧
    uvpt demoRoStack 2 = 0x005 ∧
    sfork tiny demoRoStack = .ok 3 ((sfork tiny demoRoStack).final demoRoStack) ∧
    ((sfork tiny demoRoStack).final demoRoStack).mapping 3 2 = some ⟨8, 0x405⟩ ∧
    ((sfork tiny demoRoStack).final demoRoStack).mapping 1 2 = some ⟨8, 0x405⟩ ∧
    0x405 &&& tiny.PTE_W = 0 := by
  refine ⟨by decide, by decide, by decide, by decide, rfl, by decide, rfl, by decide, by decide,
    by decide, by decide, by decide, rfl, rfl, by decide, by decide, by decide⟩

/-- C19. A line of sixteen whitespace-separated arguments is rejected by
`runcmd` with the too-many-arguments outcome and nothing is invoked, although
its message names 16 as the maximum; with the last argument removed the line
is split into its fifteen arguments and handed to `help`, the first command of
the table. -/
theorem runcmd_sixteen_arguments_rejected :
    runcmd sixteenArgs = .tooMany ∧
    (sixteenArgs.splitOnP (fun c => strchr WHITESPACE c)).length = MAXARGS ∧
    runcmd fifteenArgs = .invoke 0 (fifteenArgs.splitOnP (fun c => strchr WHITESPACE c)) ∧
    (fifteenArgs.splitOnP (fun c => strchr WHITESPACE c)).length = MAXARGS - 1 := by
  refine ⟨by decide, by decide, by decide, by decide⟩

/-- C20. The address `mon_showmapping` computes from an argument whose first
two characters are `p0 p1` and whose remaining characters are `ds`: the
hexadecimal value of `ds` (most significant digit first) reduced modulo
`2 ^ 32`, whatever `p0` and `p1` are; the value itself when `ds` has at most
eight characters.  A digit `0`-`9`, `a`-`f`, `A`-`F` counts with its value and
any other character with 0.  The page address is the address rounded down to
a multiple of `PGSIZE`. -/
theorem showmapping_hex_value (L : Layout) (hL : L.OK) (p0 p1 : Char) (ds : List Char) :
    showmappingVa (p0 :: p1 :: ds) = Nat.ofDigits 16 (ds.reverse.map coefficient) % 2 ^ 32 ∧
    (ds.length ≤ 8 →
      showmappingVa (p0 :: p1 :: ds) = Nat.ofDigits 16 (ds.reverse.map coefficient)) ∧
    "0123456789abcdef".toList.map coefficient = List.range 16 ∧
    "ABCDEF".toList.map coefficient = [10, 11, 12, 13, 14, 15] ∧
    (∀ c : Char, ¬ (('0'.toNat ≤ c.toNat ∧ c.toNat ≤ '9'.toNat) ∨
        ('a'.toNat ≤ c.toNat ∧ c.toNat ≤ 'f'.toNat) ∨
        ('A'.toNat ≤ c.toNat ∧ c.toNat ≤ 'F'.toNat)) → coefficient c = 0) ∧
    showmappingPage L (p0 :: p1 :: ds) =
      showmappingVa (p0 :: p1 :: ds) - showmappingVa (p0 :: p1 :: ds) % L.PGSIZE ∧
    L.PGSIZE ∣ showmappingPage L (p0 :: p1 :: ds) ∧
    showmappingPage L (p0 :: p1 :: ds) ≤ showmappingVa (p0 :: p1 :: ds) ∧
    showmappingVa (p0 :: p1 :: ds) < showmappingPage L (p0 :: p1 :: ds) + L.PGSIZE := by
  refine ⟨showmappingVa_eq p0 p1 ds, ?_, by decide, by decide, coefficient_other, rfl,
    ROUNDDOWN_dvd _ _, Nat.sub_le _ _, ?_⟩
  · intro hk
    rw [showmappingVa_eq]
    apply Nat.mod_eq_of_lt
    have h1 : Nat.ofDigits 16 (ds.reverse.map coefficient) < 16 ^ (ds.reverse.map coefficient).length := by
      apply Nat.ofDigits_lt_base_pow_length (by decide)
      intro x hx
      obtain ⟨c, _, rfl⟩ := List.mem_map.mp hx
      exact coefficient_lt c
    rw [List.length_map, List.length_reverse] at h1
    calc Nat.ofDigits 16 (ds.reverse.map coefficient) < 16 ^ ds.length := h1
      _ ≤ 16 ^ 8 := Nat.pow_le_pow_right (by decide) hk
      _ = 2 ^ 32 := by norm_num
  · show showmappingVa (p0 :: p1 :: ds) < ROUNDDOWN (showmappingVa (p0 :: p1 :: ds)) L.PGSIZE + L.PGSIZE
    unfold ROUNDDOWN
    have := Nat.mod_lt (showmappingVa (p0 :: p1 :: ds)) hL.1
    have := Nat.mod_le (showmappingVa (p0 :: p1 :: ds)) L.PGSIZE
    omega

/-- C20 on the argument `0xf0100abc`: the address is `0xf0100abc` and its page
`0xf0100000`. -/
theorem showmapping_hex_value_witness :
    jos.OK ∧ showmappingVa "0xf0100abc".toList = 0xf0100abc ∧
    showmappingPage jos "0xf0100abc".toList = 0xf0100000 := by
  have h := showmapping_hex_value jos (by decide) '0' 'x' "f0100abc".toList
  refine ⟨by decide, ?_, ?_⟩
  · exact h.1.trans (by decide)
  · exact h.2.2.2.2.2.1.trans (by rw [show showmappingVa ('0' :: 'x' :: "f0100abc".toList) = 0xf0100abc from h.1.trans (by decide)]; decide)

end Jos
